import Mathlib

/-!
# pibus: the I-BUS protocol engine of `rpi/ibus.c`

A shallow embedding of the frame assembler (`ibus_read`), the checksum
validator (`ibus_good_checksum`), the event table and its dispatcher
(`events`, `ibus_handle_message`), the clock harvester
(`ibus_handle_time`, `ibus_handle_date`), the CD-changer poll reply and the
50 ms tick (`ibus_tick`).

Conventions of the embedding.

* A byte (`unsigned char`) is a `Nat` below 256; a byte array is a `List Nat`
  and `msg[i]` is `msg.getD i 0`.
* The process-wide `static struct ibus` is the record `Ibus`; the two
  `static int` counters of `ibus_tick` are the fields `tick_i` and `tick_j`.
* Every call of a function that lives outside `ibus.c` (keyboard, gpio,
  transmit queue, libc `system`, the log) is recorded, in program order, as
  an `Effect`; a function of the embedding returns the new state together
  with the list of effects it performed.
-/

namespace Pibus

/-! ## Constants -/

/-- Offsets inside a frame (`#define SOURCE 0` and following). -/
def SOURCE : Nat := 0
/-- Offset of the length byte. -/
def LENGTH : Nat := 1
/-- Offset of the destination address. -/
def DEST : Nat := 2
/-- Offset of the first payload byte. -/
def DATA : Nat := 3

/-- GPIO line numbers of the V4.01 hardware. -/
def GPIO_NSLP_CTL : Nat := 22
/-- Line selecting pin 17. -/
def GPIO_PIN17_CTL : Nat := 23
/-- Line of the status LED. -/
def GPIO_LED_CTL : Nat := 24
/-- Line of the video relay. -/
def GPIO_RELAY_CTL : Nat := 27

/-- Values of `videoSource_t`. -/
def VIDEO_SRC_BMW : Nat := 0
/-- The Pi as video source. -/
def VIDEO_SRC_PI : Nat := 1
/-- The rear camera as video source. -/
def VIDEO_SRC_CAMERA : Nat := 2
/-- Largest value of the enumeration. -/
def VIDEO_SRC_LAST : Nat := 2

/-! Key codes of `linux/input.h`. -/

/-- Key code `KEY_ESC`. -/
def KEY_ESC : Nat := 1
/-- Key code `KEY_TAB`. -/
def KEY_TAB : Nat := 15
/-- Key code `KEY_I`. -/
def KEY_I : Nat := 23
/-- Key code `KEY_ENTER`. -/
def KEY_ENTER : Nat := 28
/-- Key code `KEY_Z`. -/
def KEY_Z : Nat := 44
/-- Key code `KEY_X`. -/
def KEY_X : Nat := 45
/-- Key code `KEY_COMMA`. -/
def KEY_COMMA : Nat := 51
/-- Key code `KEY_DOT`. -/
def KEY_DOT : Nat := 52
/-- Key code `KEY_SPACE`. -/
def KEY_SPACE : Nat := 57
/-- Key code `KEY_UP`. -/
def KEY_UP : Nat := 103
/-- Key code `KEY_LEFT`. -/
def KEY_LEFT : Nat := 105
/-- Key code `KEY_RIGHT`. -/
def KEY_RIGHT : Nat := 106
/-- Key code `KEY_DOWN`. -/
def KEY_DOWN : Nat := 108

/-! ## Effects and state -/

/-- Handlers named by the `events` table whose bodies are not in `ibus.c`. -/
inductive ExtHandler
  | ibus_handle_coolant_temp
  | ibus_handle_fc
  | ibus_handle_outside_temp
  | ibus_handle_battery_voltage
  | ibus_request_battery_voltage2
  deriving DecidableEq, Repr

/-- Calls that leave `ibus.c`, recorded in program order. -/
inductive Effect
  /-- A line written with `ibus_log`. -/
  | ibus_log (text : String)
  /-- The call `ibus_dump_hex(flog, data, length, TRUE)`: the `length` bytes
  printed and whether the line is flagged corrupt. -/
  | dump_hex (data : List Nat) (corrupt : Bool)
  /-- The call `keyboard_generate(key)`. -/
  | keyboard_generate (key : Nat)
  /-- The call `system(cmd)`, the command as its bytes. -/
  | system (cmd : List Nat)
  /-- The call `ibus_send(ifd, data, length, gpio)`. -/
  | ibus_send (ifd : Int) (data : List Nat) (length : Nat) (gpio : Int)
  /-- The call `ibus_remove_from_queue(msg, length)`, with the `length`
  bytes `msg` points at. -/
  | ibus_remove_from_queue (msg : List Nat) (length : Nat)
  /-- The call `ibus_service_queue(ifd, can_send, gpio)`. -/
  | ibus_service_queue (ifd : Int) (can_send : Bool) (gpio : Int)
  /-- The call `gpio_write(pin, value)`. -/
  | gpio_write (pin : Nat) (value : Nat)
  /-- The call `fflush(flog)`. -/
  | fflush_log
  /-- The call `power_off()`. -/
  | power_off
  /-- A call of a handler defined outside `ibus.c`. -/
  | extern_handler (h : ExtHandler) (msg : List Nat) (length : Nat)
  /-- The fatal read error: `printf` of the errno, then `exit(code)`. -/
  | proc_exit (code : Nat)
  deriving DecidableEq, Repr

/-- The `static struct ibus`, with the static counters of `ibus_tick`. -/
structure Ibus where
  have_time : Bool
  have_date : Bool
  playing : Bool
  send_window_open : Bool
  keyboard_blocked : Bool
  cd_polled : Bool
  bluetooth : Bool
  have_camera : Bool
  mk3_announce : Bool
  last_byte : Nat
  bufPos : Nat
  buf : List Nat
  ifd : Int
  radio_msgs : Int
  cdc_info_tag : Int
  cdc_info_interval : Int
  gpio_number : Int
  hw_version : Int
  videoSource : Nat
  start : Int
  hhmm : List Nat
  yyyymmdd : List Nat
  tick_i : Nat
  tick_j : Nat
  deriving DecidableEq, Repr

/-- The initialiser of `ibus` (and `i = 0`, `j = 0` in `ibus_tick`). -/
def ibus_initial : Ibus where
  have_time := false
  have_date := false
  playing := false
  send_window_open := false
  keyboard_blocked := true
  cd_polled := false
  bluetooth := false
  have_camera := true
  mk3_announce := true
  last_byte := 0
  bufPos := 0
  buf := List.replicate 64 0
  ifd := -1
  radio_msgs := 0
  cdc_info_tag := -1
  cdc_info_interval := 0
  gpio_number := 0
  hw_version := 0
  videoSource := VIDEO_SRC_BMW
  start := 0
  hhmm := []
  yyyymmdd := []
  tick_i := 0
  tick_j := 0

/-! ## Checksum -/

/-- The function `ibus_good_checksum`: `sum = msg[0]`, then for
`i = 1 .. length - 2` the assignment `sum ^= msg[i]` (stored back into an
`unsigned char`), then the comparison with `msg[length - 1]`. -/
def ibus_good_checksum (msg : List Nat) (length : Nat) : Bool :=
  let sum := (List.range' 1 (length - 2)).foldl
    (fun sum i => (sum ^^^ msg.getD i 0) % 256) (msg.getD 0 0)
  if sum ≠ msg.getD (length - 1) 0 then false else true

/-! ## Requests and CD-changer frames -/

/-- The array `rt` of `ibus_request_time`. -/
def request_time_frame : List Nat := [0x18, 0x05, 0x80, 0x41, 0x01, 0x01, 0xDC]
/-- The array `rd` of `ibus_request_date`. -/
def request_date_frame : List Nat := [0x18, 0x05, 0x80, 0x41, 0x02, 0x01, 0xDF]
/-- The array `start_playing`. -/
def start_playing : List Nat :=
  [0x18, 0x0a, 0x68, 0x39, 0x02, 0x09, 0x00, 0x01, 0x00, 0x01, 0x04, 0x4c]
/-- The array `cdc_im_here` of `cdchanger_handle_poll`. -/
def cdc_im_here : List Nat := [0x18, 0x04, 0xFF, 0x02, 0x00, 0xE1]
/-- The array `cdc_announce` of `announce_cdc`. -/
def cdc_announce : List Nat := [0x18, 0x04, 0xFF, 0x02, 0x01, 0xE0]

/-- The function `ibus_request_time`. -/
def ibus_request_time (s : Ibus) : List Effect :=
  [Effect.ibus_send s.ifd request_time_frame 7 s.gpio_number]

/-- The function `ibus_request_date`. -/
def ibus_request_date (s : Ibus) : List Effect :=
  [Effect.ibus_send s.ifd request_date_frame 7 s.gpio_number]

/-- The function `ibus_set_video`: a `switch` without default. -/
def ibus_set_video (src : Nat) : List Effect :=
  if src = VIDEO_SRC_BMW then
    [Effect.gpio_write GPIO_RELAY_CTL 0, Effect.gpio_write GPIO_PIN17_CTL 0]
  else if src = VIDEO_SRC_PI then
    [Effect.gpio_write GPIO_RELAY_CTL 0, Effect.gpio_write GPIO_PIN17_CTL 1]
  else if src = VIDEO_SRC_CAMERA then
    [Effect.gpio_write GPIO_RELAY_CTL 1, Effect.gpio_write GPIO_PIN17_CTL 1]
  else []

/-! ## Clock harvesting -/

/-- The libc predicate `isspace` in the C locale. -/
def isspace (c : Nat) : Bool := c == 32 || (9 ≤ c && c ≤ 13)

/-- The libc predicate `isdigit`. -/
def isdigit (c : Nat) : Bool := 48 ≤ c && c ≤ 57

/-- The digit loop of `atoi`: it stops at the first byte that is no digit
(the terminating NUL included). -/
def atoi_digits : List Nat → Int → Int
  | [], acc => acc
  | c :: cs, acc => if isdigit c then atoi_digits cs (acc * 10 + ((c : Int) - 48)) else acc

/-- The libc function `atoi`: leading white space, an optional sign, then
decimal digits. The string is the bytes from the pointer on; values outside
the range of `int` (undefined in C) are not reduced. -/
def atoi (str : List Nat) : Int :=
  match str.dropWhile isspace with
  | 45 :: r => - atoi_digits r 0
  | 43 :: r => atoi_digits r 0
  | r => atoi_digits r 0

/-- The conversion `%02d` of `printf`. -/
def fmt_02d (n : Int) : List Nat :=
  if n < 0 then 45 :: (Nat.toDigits 10 n.natAbs).map Char.toNat
  else if n < 10 then 48 :: (Nat.toDigits 10 n.natAbs).map Char.toNat
  else (Nat.toDigits 10 n.natAbs).map Char.toNat

/-- A `char` array read as a C string (`%s`): the bytes before the first NUL. -/
def cstr (a : List Nat) : List Nat := a.takeWhile (fun c => c != 0)

/-- The bytes of the text `date -s "`. -/
def date_cmd_head : List Nat := [100, 97, 116, 101, 32, 45, 115, 32, 34]

/-- The command built by `snprintf(buf, 64, "date -s \"%s %s\"", yyyymmdd, hhmm)`. -/
def date_cmd (s : Ibus) : List Nat :=
  (date_cmd_head ++ cstr s.yyyymmdd ++ [32] ++ cstr s.hhmm ++ [34]).take 63

/-- The function `ibus_set_time_and_date`. -/
def ibus_set_time_and_date (s : Ibus) : List Effect :=
  if s.have_time && s.have_date then
    [Effect.system (date_cmd s), Effect.ibus_log "setting"]
  else []

/-- The function `ibus_handle_date`; `yyyymmdd` receives the bytes written by
`snprintf` with the format `%c%c%c%c-%c%c-%c%c`. -/
def ibus_handle_date (msg : List Nat) (length : Nat) (s : Ibus) : Ibus × List Effect :=
  if length > 15 ∧ s.have_date = false then
    let s2 := { s with have_date := true, yyyymmdd :=
      [msg.getD 12 0, msg.getD 13 0, msg.getD 14 0, msg.getD 15 0, 45,
       msg.getD 9 0, msg.getD 10 0, 45, msg.getD 6 0, msg.getD 7 0] }
    (s2, ibus_set_time_and_date s2)
  else (s, [])

/-- The function `ibus_handle_time`; `hhmm` receives the bytes written by
`snprintf(ibus.hhmm, 24, "%02d:%c%c", hour, msg[9], msg[10])`. -/
def ibus_handle_time (msg : List Nat) (length : Nat) (s : Ibus) : Ibus × List Effect :=
  if length > 12 ∧ s.have_time = false then
    let hour := atoi (msg.drop 6)
    let hour := if msg.getD 11 0 = 80 then hour + 12 else hour
    let s2 := { s with have_time := true,
                       hhmm := (fmt_02d hour ++ [58, msg.getD 9 0, msg.getD 10 0]).take 23 }
    (s2, ibus_set_time_and_date s2)
  else (s, [])

/-! ## Handlers -/

/-- The function `ibus_handle_rotary`. -/
def ibus_handle_rotary (msg : List Nat) (length : Nat) (s : Ibus) : Ibus × List Effect :=
  if length < 5 ∨ s.keyboard_blocked = true then (s, [])
  else if msg.getD 4 0 &&& 0xF0 = 0x80 then
    (s, List.replicate (msg.getD 4 0 &&& 0x0F) (Effect.keyboard_generate KEY_UP))
  else if msg.getD 4 0 &&& 0xF0 = 0x00 then
    (s, List.replicate (msg.getD 4 0 &&& 0x0F) (Effect.keyboard_generate KEY_DOWN))
  else (s, [])

/-- The function `cdchanger_handle_cdcmode`. -/
def cdchanger_handle_cdcmode (_msg : List Nat) (_length : Nat) (s : Ibus) :
    Ibus × List Effect :=
  if s.hw_version ≥ 4 then
    ({ s with keyboard_blocked := false, playing := true, videoSource := VIDEO_SRC_PI },
      ibus_set_video VIDEO_SRC_PI)
  else ({ s with keyboard_blocked := false, playing := true }, [])

/-- The function `cdchanger_handle_start`. -/
def cdchanger_handle_start (_msg : List Nat) (_length : Nat) (s : Ibus) :
    Ibus × List Effect :=
  ({ s with playing := true }, [Effect.ibus_send s.ifd start_playing 12 s.gpio_number])

/-- The function `cdchanger_handle_poll`. -/
def cdchanger_handle_poll (_msg : List Nat) (_length : Nat) (s : Ibus) :
    Ibus × List Effect :=
  ({ s with cd_polled := true }, [Effect.ibus_send s.ifd cdc_im_here 6 s.gpio_number])

/-- The function `is_cdc_message`, with the line it logs. -/
def is_cdc_message (buf : List Nat) (length : Nat) : Bool × List Effect :=
  if length = 20 ∧ buf.getD 0 0 = 0x68 ∧ buf.getD 6 0 = 0x43 ∧ buf.getD 13 0 = 0x34 ∧
      buf.getD 19 0 = 0x4c then
    (true, [Effect.ibus_log "ibus event: CDC 1-04"])
  else if length ≥ 16 ∧ buf.getD 0 0 = 0x68 ∧ buf.getD 6 0 = 0x54 ∧ buf.getD 7 0 = 0x52 ∧
      buf.getD 8 0 = 0x20 ∧ buf.getD 9 0 = 0x30 ∧ buf.getD 10 0 = 0x34 then
    (true, [Effect.ibus_log "ibus event: TR 04"])
  else if length = 25 ∧ buf.getD 0 0 = 0x68 ∧ buf.getD 15 0 = 0x43 ∧ buf.getD 16 0 = 0x44 ∧
      buf.getD 18 0 = 0x31 ∧ buf.getD 20 0 = 0x30 ∧ buf.getD 21 0 = 0x34 ∧
      buf.getD 24 0 = 0x25 then
    (true, [Effect.ibus_log "ibus event: CD 1-04"])
  else (false, [])

/-- The function `announce_cdc`. -/
def announce_cdc (s : Ibus) : Ibus × List Effect :=
  if s.cd_polled = false then
    if s.radio_msgs ≠ 0 then
      ({ s with radio_msgs := 0 }, [Effect.ibus_send s.ifd cdc_announce 6 s.gpio_number])
    else (s, [])
  else (s, [])

/-! ## The event table and its dispatcher -/

/-- The handlers the `events` table points at. -/
inductive Handler
  | ibus_handle_rotary
  | cdchanger_handle_start
  | extern_fn (h : ExtHandler)
  deriving DecidableEq, Repr

/-- One entry of `events`: `key = 0`, `command = none`, `function = none`
stand for the omitted (zero) initialisers. -/
structure EventRule where
  match_length : Nat
  ibusmsg : List Nat
  desc : String
  command : Option (List Nat)
  key : Nat
  function : Option Handler
  deriving DecidableEq, Repr

/-- The table `events` (the entries under `#if 0` are not compiled).
`CTRL_BIT` is the value of the macro `_CTRL_BIT` of `keyboard.h`. -/
def events (CTRL_BIT : Nat) : List EventRule :=
  [ ⟨6, [0xF0, 0x05, 0xFF, 0x47, 0x00, 0x38, 0x75], "info", none, KEY_I, none⟩,
    ⟨6, [0xF0, 0x04, 0x3B, 0x48, 0x05, 0x82], "enter", none, KEY_ENTER, none⟩,
    ⟨7, [0xF0, 0x05, 0xFF, 0x47, 0x00, 0x0F, 0x42], "sel", none, KEY_TAB, none⟩,
    ⟨4, [0xF0, 0x04, 0x3B, 0x49], "rotary", none, 0, some Handler.ibus_handle_rotary⟩,
    ⟨6, [0xF0, 0x04, 0x68, 0x48, 0x40, 0x94], "FF", none, KEY_RIGHT ||| CTRL_BIT, none⟩,
    ⟨6, [0xF0, 0x04, 0x68, 0x48, 0x50, 0x84], "RR", none, KEY_LEFT ||| CTRL_BIT, none⟩,
    ⟨6, [0xF0, 0x04, 0x68, 0x48, 0x11, 0xC5], "1", none, KEY_ESC, none⟩,
    ⟨6, [0xF0, 0x04, 0x68, 0x48, 0x01, 0xD5], "2", none, KEY_SPACE, none⟩,
    ⟨6, [0xF0, 0x04, 0x68, 0x48, 0x12, 0xC6], "3", none, KEY_Z, none⟩,
    ⟨6, [0xF0, 0x04, 0x68, 0x48, 0x02, 0xD6], "4", none, KEY_X, none⟩,
    ⟨6, [0xF0, 0x04, 0x68, 0x48, 0x13, 0xC7], "5", none, KEY_LEFT, none⟩,
    ⟨6, [0xF0, 0x04, 0x68, 0x48, 0x03, 0xD7], "6", none, KEY_RIGHT, none⟩,
    ⟨6, [0xF0, 0x04, 0x68, 0x48, 0x10, 0xC4], "cd-prev", none, KEY_COMMA,
      some Handler.cdchanger_handle_start⟩,
    ⟨6, [0xF0, 0x04, 0x68, 0x48, 0x00, 0xD4], "cd-next", none, KEY_DOT,
      some Handler.cdchanger_handle_start⟩,
    ⟨6, [0x50, 0x04, 0x68, 0x3B, 0x08, 0x0F], "cd-prev", none, KEY_COMMA,
      some Handler.cdchanger_handle_start⟩,
    ⟨6, [0x50, 0x04, 0x68, 0x3B, 0x01, 0x06], "cd-next", none, KEY_DOT,
      some Handler.cdchanger_handle_start⟩,
    ⟨4, [0x80, 0x06, 0xBF, 0x19], "coolant-temp", none, 0,
      some (Handler.extern_fn ExtHandler.ibus_handle_coolant_temp)⟩,
    ⟨4, [0x80, 0x09, 0xFF, 0x24], "fuel-consumption", none, 0,
      some (Handler.extern_fn ExtHandler.ibus_handle_fc)⟩,
    ⟨4, [0x80, 0x0A, 0xFF, 0x24], "outside-temp", none, 0,
      some (Handler.extern_fn ExtHandler.ibus_handle_outside_temp)⟩,
    ⟨4, [0x7F, 0x20, 0x3F, 0xA0], "battery-voltage", none, 0,
      some (Handler.extern_fn ExtHandler.ibus_handle_battery_voltage)⟩,
    ⟨5, [0x7F, 0x03, 0x3F, 0xA1, 0xE2], "re-battery-voltage", none, 0,
      some (Handler.extern_fn ExtHandler.ibus_request_battery_voltage2)⟩ ]

/-- The call `events[i].function(msg, length)`. -/
def call_handler (f : Handler) (msg : List Nat) (length : Nat) (s : Ibus) :
    Ibus × List Effect :=
  match f with
  | Handler.ibus_handle_rotary => ibus_handle_rotary msg length s
  | Handler.cdchanger_handle_start => cdchanger_handle_start msg length s
  | Handler.extern_fn h => (s, [Effect.extern_handler h (msg.take length) length])

/-- The test `memcmp(msg, events[i].ibusmsg, events[i].match_length) == 0`. -/
def memcmp_eq (msg pat : List Nat) (n : Nat) : Bool := msg.take n == pat.take n

/-- The body of the `if (memcmp(...) == 0)` block of `ibus_handle_message`:
key event, log line, shell command, handler. -/
def fire_event (r : EventRule) (msg : List Nat) (length : Nat) (s : Ibus) :
    Ibus × List Effect :=
  let e1 := if r.key ≠ 0 ∧ s.keyboard_blocked = false then
    [Effect.keyboard_generate r.key] else []
  let e2 := [Effect.ibus_log ("ibus event: " ++ r.desc)]
  let e3 := match r.command with
    | some c => [Effect.system c]
    | none => []
  match r.function with
  | some f =>
    let r4 := call_handler f msg length s
    (r4.1, e1 ++ e2 ++ e3 ++ r4.2)
  | none => (s, e1 ++ e2 ++ e3)

/-- The `for` loop of `ibus_handle_message` over the remaining entries, and
the call of `ibus_remove_from_queue` after it. -/
def events_loop : List EventRule → List Nat → Nat → Ibus → Ibus × List Effect
  | [], msg, length, s => (s, [Effect.ibus_remove_from_queue (msg.take length) length])
  | r :: rs, msg, length, s =>
    if r.match_length > length then events_loop rs msg length s
    else if memcmp_eq msg r.ibusmsg r.match_length then fire_event r msg length s
    else events_loop rs msg length s

/-- The statements of `ibus_handle_message` before its loop: the log line
with the hex dump, the CDC heuristic, the radio counter. -/
def handle_message_head (msg : List Nat) (length : Nat) (s : Ibus) : Ibus × List Effect :=
  let e0 := [Effect.ibus_log "", Effect.dump_hex (msg.take length) (!ibus_good_checksum msg length)]
  let c := is_cdc_message msg length
  let r1 := if c.1 then cdchanger_handle_cdcmode msg length s else (s, [])
  let s2 := if msg.getD 0 0 = 0x68 then { r1.1 with radio_msgs := r1.1.radio_msgs + 1 } else r1.1
  (s2, e0 ++ c.2 ++ r1.2)

/-- The function `ibus_handle_message`. -/
def ibus_handle_message (CTRL_BIT : Nat) (msg : List Nat) (length : Nat) (s : Ibus) :
    Ibus × List Effect :=
  let h := handle_message_head msg length s
  let r := events_loop (events CTRL_BIT) msg length h.1
  (r.1, h.2 ++ r.2)

/-! ## The frame assembler -/

/-- How the `while (1)` loop of `ibus_read` is left: `read` returned 0, or -1
with `EWOULDBLOCK`, or -1 with another errno. -/
inductive ReadEnd
  | no_data
  | would_block
  | error (errno : Int)
  deriving DecidableEq, Repr

/-- One turn of the loop of `ibus_read` after `read` delivered the byte `c`;
`now` is the value `mainloop_get_millisec()` returned on entry. The
difference `now - ibus.last_byte` is taken in `uint64_t`. The assignments
to `bufPos`, `last_byte`, `buf` and `send_window_open` that precede the
completeness test are gathered in `ibus_read_store`. -/
def ibus_read_store (now c : Nat) (s : Ibus) : Ibus :=
  let pos0 := if (now + 2 ^ 64 - s.last_byte) % 2 ^ 64 > 64 then 0 else s.bufPos
  let pos1 := if pos0 < 64 - 1 then pos0 + 1 else pos0
  { s with bufPos := pos1, last_byte := now, buf := s.buf.set pos0 c,
           send_window_open := false }

/-- One turn of the loop of `ibus_read`: the stores, then the test
`bufPos >= 4 && buf[LENGTH] + 2 == bufPos` with the call of
`ibus_handle_message(ibus.buf, ibus.bufPos)` and the reset `bufPos = 0`. -/
def ibus_read_byte (CTRL_BIT : Nat) (now c : Nat) (s : Ibus) : Ibus × List Effect :=
  let s5 := ibus_read_store now c s
  if s5.bufPos ≥ 4 ∧ s5.buf.getD LENGTH 0 + 2 = s5.bufPos then
    let r := ibus_handle_message CTRL_BIT s5.buf s5.bufPos s5
    ({ r.1 with bufPos := 0 }, r.2)
  else (s5, [])

/-- The function `ibus_read`: the bytes `read` delivers during this call,
then the way the loop is left. -/
def ibus_read (CTRL_BIT : Nat) (now : Nat) : List Nat → ReadEnd → Ibus → Ibus × List Effect
  | [], ReadEnd.error _, s => (s, [Effect.proc_exit 1])
  | [], _, s => (s, [])
  | c :: cs, fin, s =>
    let r1 := ibus_read_byte CTRL_BIT now c s
    let r2 := ibus_read CTRL_BIT now cs fin r1.1
    (r2.1, r1.2 ++ r2.2)

/-! ## The 50 ms tick -/

/-- The function `ibus_tick`; `now` is the value of `mainloop_get_millisec()`.
The locals `i` and `j` are the values of the static counters after their
update; `a` is the state and output after the 30 s block. -/
def ibus_tick (now : Nat) (s : Ibus) : Ibus × List Effect :=
  let idle := s.tick_i + 1 ≥ 20 ∧ (now + 2 ^ 64 - s.last_byte) % 2 ^ 64 > 300000
  let e1 := if idle then [Effect.ibus_log "idle timeout", Effect.power_off] else []
  let i := if s.tick_i + 1 ≥ 20 then 0 else s.tick_i + 1
  let e2 := if s.hw_version ≥ 4 then
      (if i < 2 then [Effect.gpio_write GPIO_LED_CTL 1] else [Effect.gpio_write GPIO_LED_CTL 0])
    else []
  let j := if s.tick_j + 1 ≥ 600 then 0 else s.tick_j + 1
  let a := if s.tick_j + 1 ≥ 600 then
      (if s.mk3_announce = true then
        ((announce_cdc s).1, Effect.fflush_log :: (announce_cdc s).2)
       else (s, [Effect.fflush_log]))
    else (s, [])
  let e4 := if j = 0 ∨ j = 300 then
      (if a.1.have_time = false then ibus_request_time a.1 else []) ++
      (if a.1.have_date = false then ibus_request_date a.1 else [])
    else []
  if a.1.gpio_number > 0 then
    let w := if a.1.send_window_open = false ∧ a.1.bufPos = 0 then true
      else a.1.send_window_open
    ({ a.1 with tick_i := i, tick_j := j, send_window_open := w },
      e1 ++ e2 ++ a.2 ++ e4 ++
        [Effect.ibus_service_queue a.1.ifd a.1.send_window_open a.1.gpio_number])
  else ({ a.1 with tick_i := i, tick_j := j }, e1 ++ e2 ++ a.2 ++ e4)

/-! ## Specification-level notions -/

/-- The XOR of a sequence of bytes. -/
def xor_fold (l : List Nat) : Nat := l.foldl (fun a b => a ^^^ b) 0

/-- The frame `msg` with bit `k` of the byte at offset `j` flipped. -/
def flip_bit (msg : List Nat) (j k : Nat) : List Nat :=
  msg.set j (msg.getD j 0 ^^^ 2 ^ k)

/-- The frame of scenario B, `A4 05 80 41 01 01 60`. -/
def scenario_B : List Nat := [0xA4, 0x05, 0x80, 0x41, 0x01, 0x01, 0x60]

/-- Number of bytes the 64-byte buffer holds once the bytes `acc` have been
appended since the last reset: `bufPos` stops at 63. -/
def held (acc : List Nat) : Nat := min acc.length 63

/-- The completeness test read on the bytes accumulated since the last
reset: at least 4 bytes are held and the length byte plus 2 is the number
of bytes held. -/
def frame_complete (acc : List Nat) : Bool :=
  decide (4 ≤ held acc) && decide (acc.getD 1 0 + 2 = held acc)

/-- The assembler as the specification describes it, on the received bytes
alone: `acc` are the bytes received since the last reset; after each byte a
frame made of exactly those bytes is emitted when it is complete, and the
accumulation restarts empty. The result is the emitted frames, in order,
and the bytes still pending. -/
def assemble : List Nat → List Nat → List (List Nat) × List Nat
  | acc, [] => ([], acc)
  | acc, c :: cs =>
    if frame_complete (acc ++ [c]) then
      ((acc ++ [c]) :: (assemble [] cs).1, (assemble [] cs).2)
    else assemble (acc ++ [c]) cs

/-- Bytes fed one at a time: every pair `(now, c)` is one call of
`ibus_read` at time `now` during which `read` delivers the single byte `c`
and then reports that it would block. -/
def feed (CTRL_BIT : Nat) : List (Nat × Nat) → Ibus → Ibus × List Effect
  | [], s => (s, [])
  | e :: es, s =>
    let r1 := ibus_read CTRL_BIT e.1 [e.2] ReadEnd.would_block s
    let r2 := feed CTRL_BIT es r1.1
    (r2.1, r1.2 ++ r2.2)

/-- No inter-byte gap exceeds the 64 ms resync threshold; `last` is the
time of the previous byte, differences are taken in `uint64_t`. -/
def no_gap : Nat → List (Nat × Nat) → Bool
  | _, [] => true
  | last, e :: es => decide ((e.1 + 2 ^ 64 - last) % 2 ^ 64 ≤ 64) && no_gap e.1 es

/-- The frames handed to `ibus_handle_message`, read off its hex dump: each
call dumps its argument once, first thing, and nothing else dumps. -/
def frames_handed (effs : List Effect) : List (List Nat) :=
  effs.filterMap (fun e => match e with
    | Effect.dump_hex d _ => some d
    | _ => none)

/-- The buffer of state `s` holds the bytes `acc` received since the last
reset: `bufPos` counts them up to 63, the first `bufPos` slots carry them
in order, and an accumulation that went past 63 bytes is one whose length
byte did not announce a 63-byte frame. -/
def buffer_holds (s : Ibus) (acc : List Nat) : Prop :=
  s.buf.length = 64 ∧ s.bufPos = held acc ∧
  (∀ i, i < held acc → s.buf[i]? = acc[i]?) ∧
  (63 ≤ acc.length → acc.getD 1 0 + 2 ≠ 63)

/-- The 14 bytes of scenario A, `68 0C FF 24 01 00 20 35 3A 30 34 50 4D 78`. -/
def scenario_A : List Nat :=
  [0x68, 0x0C, 0xFF, 0x24, 0x01, 0x00, 0x20, 0x35, 0x3A, 0x30, 0x34, 0x50, 0x4D, 0x78]

/-- Scenario A as a run: its 14 bytes, one per call of `ibus_read`, 10 ms
apart. -/
def scenario_A_run : List (Nat × Nat) :=
  [(10, 0x68), (20, 0x0C), (30, 0xFF), (40, 0x24), (50, 0x01), (60, 0x00), (70, 0x20),
   (80, 0x35), (90, 0x3A), (100, 0x30), (110, 0x34), (120, 0x50), (130, 0x4D), (140, 0x78)]

/-- A rule matches a frame, in the words of the specification: its
`match_length` is at most the frame length and its first `match_length`
pattern bytes equal the first `match_length` bytes of the frame. -/
def rule_matches (r : EventRule) (msg : List Nat) (length : Nat) : Bool :=
  decide (r.match_length ≤ length) &&
    decide (msg.take r.match_length = r.ibusmsg.take r.match_length)

/-- The rule at index `i` of the table `rs` is the first one, in table
order, that matches the frame. -/
def first_match (rs : List EventRule) (msg : List Nat) (length : Nat) (i : Nat)
    (r : EventRule) : Prop :=
  rs[i]? = some r ∧ rule_matches r msg length = true ∧
  ∀ j r', j < i → rs[j]? = some r' → rule_matches r' msg length = false

/-- The effects of one rule, as the specification lists them: the key event
unless the rule has no key or the keyboard is blocked, the log line, the
shell command if present, the handler if present. -/
def rule_effects (r : EventRule) (msg : List Nat) (length : Nat) (s : Ibus) : List Effect :=
  (if r.key ≠ 0 ∧ s.keyboard_blocked = false then [Effect.keyboard_generate r.key] else []) ++
  [Effect.ibus_log ("ibus event: " ++ r.desc)] ++
  (match r.command with
    | some c => [Effect.system c]
    | none => []) ++
  (match r.function with
    | some f => (call_handler f msg length s).2
    | none => [])

/-- The state one rule leaves: that of its handler, if it has one. -/
def rule_state (r : EventRule) (msg : List Nat) (length : Nat) (s : Ibus) : Ibus :=
  match r.function with
  | some f => (call_handler f msg length s).1
  | none => s

/-- The initial state after CDC mode was entered once: keyboard unblocked. -/
def ibus_unblocked : Ibus := { ibus_initial with keyboard_blocked := false }

/-- The keyboard events of a trace: the key codes passed to
`keyboard_generate`, in order. -/
def key_events (effs : List Effect) : List Nat :=
  effs.filterMap (fun e => match e with
    | Effect.keyboard_generate k => some k
    | _ => none)

/-- The rotary frame of scenario D, `F0 04 3B 49 82 04`. -/
def rotary_frame : List Nat := [0xF0, 0x04, 0x3B, 0x49, 0x82, 0x04]

/-- Scenario B as a run: its 7 bytes, one per call of `ibus_read`, 10 ms
apart, the last one at 70 ms. -/
def scenario_B_run : List (Nat × Nat) :=
  [(10, 0xA4), (20, 0x05), (30, 0x80), (40, 0x41), (50, 0x01), (60, 0x01), (70, 0x60)]

/-- The initial state with bus-line monitoring on GPIO 18, the default of
`main` in `pibus.c`. -/
def ibus_monitoring : Ibus := { ibus_initial with gpio_number := 18 }

/-- The bytes of an ASCII text. -/
def ascii (t : String) : List Nat := t.toList.map Char.toNat

/-- A time broadcast whose text is `12:08PM`:
`80 0C FF 24 01 00 31 32 3A 30 38 50 4D 7A`. -/
def time_frame_1208PM : List Nat :=
  [0x80, 0x0C, 0xFF, 0x24, 0x01, 0x00, 0x31, 0x32, 0x3A, 0x30, 0x38, 0x50, 0x4D, 0x7A]

/-- A time broadcast whose text is `04:08PM`. -/
def time_frame_0408PM : List Nat :=
  [0x80, 0x0C, 0xFF, 0x24, 0x01, 0x00, 0x30, 0x34, 0x3A, 0x30, 0x38, 0x50, 0x4D, 0x7D]

/-- A time broadcast whose text is ` 4:08PM`, the sample of the comment in
`ibus_handle_time`: `80 0C FF 24 01 00 20 34 3A 30 38 50 4D 6D`. -/
def time_frame_408PM : List Nat :=
  [0x80, 0x0C, 0xFF, 0x24, 0x01, 0x00, 0x20, 0x34, 0x3A, 0x30, 0x38, 0x50, 0x4D, 0x6D]

/-- The 24-hour hour of the 12-hour clock hour `h` (1 to 12) in the
afternoon: 12 PM is 12, `h` PM is `h + 12` otherwise. -/
def pm_hour (h : Nat) : Nat := if h = 12 then 12 else h + 12

/-- A call of one of the two clock handlers with its frame. -/
inductive ClockCall
  | time (msg : List Nat) (length : Nat)
  | date (msg : List Nat) (length : Nat)
  deriving DecidableEq, Repr

/-- One clock handler call. -/
def clock_call (c : ClockCall) (s : Ibus) : Ibus × List Effect :=
  match c with
  | ClockCall.time msg length => ibus_handle_time msg length s
  | ClockCall.date msg length => ibus_handle_date msg length s

/-- A sequence of clock handler calls. -/
def clock_run : List ClockCall → Ibus → Ibus × List Effect
  | [], s => (s, [])
  | c :: cs, s =>
    let r1 := clock_call c s
    let r2 := clock_run cs r1.1
    (r2.1, r1.2 ++ r2.2)

/-- The date broadcast of the comment in `ibus_handle_time`:
`80 0F E7 24 02 00 30 31 2F 32 36 2F 32 30 31 30 48`. -/
def date_frame_sample : List Nat :=
  [0x80, 0x0F, 0xE7, 0x24, 0x02, 0x00, 0x30, 0x31, 0x2F, 0x32, 0x36, 0x2F, 0x32, 0x30,
   0x31, 0x30, 0x48]

/-! ## Further handlers of `ibus.c` -/

/-- The array `not_playing`. -/
def not_playing : List Nat :=
  [0x18, 0x0a, 0x68, 0x39, 0x00, 0x02, 0x00, 0x01, 0x00, 0x01, 0x04, 0x45]

/-- The array `pause_playing`. -/
def pause_playing : List Nat :=
  [0x18, 0x0a, 0x68, 0x39, 0x01, 0x0c, 0x00, 0x01, 0x00, 0x01, 0x04, 0x4a]

/-- The function `cdchanger_handle_stop`. -/
def cdchanger_handle_stop (_msg : List Nat) (_length : Nat) (s : Ibus) :
    Ibus × List Effect :=
  ({ s with playing := false }, [Effect.ibus_send s.ifd not_playing 12 s.gpio_number])

/-- The function `cdchanger_handle_pause`. -/
def cdchanger_handle_pause (_msg : List Nat) (_length : Nat) (s : Ibus) :
    Ibus × List Effect :=
  ({ s with playing := false }, [Effect.ibus_send s.ifd pause_playing 12 s.gpio_number])

/-- The function `cdchanger_send_inforeq`. -/
def cdchanger_send_inforeq (s : Ibus) : Ibus × List Effect :=
  if s.playing = true then
    ({ s with cd_polled := true }, [Effect.ibus_send s.ifd start_playing 12 s.gpio_number])
  else
    ({ s with cd_polled := true }, [Effect.ibus_send s.ifd not_playing 12 s.gpio_number])

/-- The function `cdchanger_handle_diskchange`. -/
def cdchanger_handle_diskchange (msg : List Nat) (length : Nat) (s : Ibus) :
    Ibus × List Effect :=
  if length ≠ 7 ∨ msg.getD 6 0 ≠ 0x4b ^^^ msg.getD 5 0 then (s, [])
  else (s, [Effect.ibus_send s.ifd start_playing 12 s.gpio_number])

/-- The function `ibus_handle_outsidekey`. -/
def ibus_handle_outsidekey (_msg : List Nat) (_length : Nat) (s : Ibus) :
    Ibus × List Effect :=
  if s.hw_version ≥ 4 then
    ({ s with keyboard_blocked := true, videoSource := VIDEO_SRC_BMW },
      ibus_set_video VIDEO_SRC_BMW)
  else ({ s with keyboard_blocked := true }, [])

/-- The function `ibus_handle_tonekey`. -/
def ibus_handle_tonekey (msg : List Nat) (length : Nat) (s : Ibus) : Ibus × List Effect :=
  if s.hw_version ≥ 4 then ibus_handle_outsidekey msg length s else (s, [])

/-- The function `ibus_handle_phone`: `videoSource++`, wrapped to 0 above
`VIDEO_SRC_LAST`, then `ibus_set_video`. -/
def ibus_handle_phone (_msg : List Nat) (_length : Nat) (s : Ibus) : Ibus × List Effect :=
  if s.hw_version ≥ 4 ∧ s.bluetooth = false then
    let v := if s.videoSource + 1 > VIDEO_SRC_LAST then 0 else s.videoSource + 1
    ({ s with videoSource := v }, ibus_set_video v)
  else (s, [])

/-- The legacy configuration frame `set` that `ibus_init` builds for the
companion microcontroller: `d7 04 d8 70 00 00`, bit 0 of byte 4 set with
bluetooth, bit 1 without camera, byte 5 the XOR of bytes 0 to 4. -/
def ibus_init_set (bluetooth camera : Bool) : List Nat :=
  let b4 := (if bluetooth = true then 0x00 ||| 1 else 0x00)
  let b4 := (if camera = false then b4 ||| 2 else b4)
  [0xd7, 0x04, 0xd8, 0x70, b4, (0xd7 ^^^ 0x04 ^^^ 0xd8 ^^^ 0x70 ^^^ b4) % 256]

/-- The statements of `ibus_init` after both files were opened (from the
assignment of `ibus.last_byte` on), without the optional startup string:
the configuration is stored, the monitor pin and, from hardware revision 4
on, the board lines are set up; below revision 4 the legacy frame is sent
when bluetooth is present or the camera is absent. Calls of `gpio_set_input`,
`gpio_set_pull`, `gpio_set_output` and of the event loop are not recorded. -/
def ibus_init_configure (now : Nat) (bluetooth camera mk3 : Bool)
    (cdc_info_interval gpio_number hw_version : Int) (s : Ibus) : Ibus × List Effect :=
  let s1 := { s with last_byte := now, bluetooth := bluetooth, have_camera := camera,
                     mk3_announce := mk3, cdc_info_interval := cdc_info_interval,
                     gpio_number := gpio_number, hw_version := hw_version }
  if hw_version ≥ 4 then
    (s1, [Effect.gpio_write GPIO_NSLP_CTL 1, Effect.gpio_write GPIO_PIN17_CTL 0,
          Effect.gpio_write GPIO_LED_CTL 1, Effect.gpio_write GPIO_RELAY_CTL 0])
  else if bluetooth = true ∨ camera = false then
    (s1, [Effect.ibus_send s1.ifd (ibus_init_set bluetooth camera) 6 s1.gpio_number])
  else (s1, [])

/-- The wire format of a transmitted frame: what is passed to `ibus_send`
is the whole array, its length is the length byte (offset 1) plus 2, and
`ibus_good_checksum` accepts it. Effects other than `ibus_send` transmit
nothing. -/
def wire_ok (e : Effect) : Bool :=
  match e with
  | Effect.ibus_send _ data length _ =>
    decide (length = data.length) && decide (length = data.getD LENGTH 0 + 2) &&
      ibus_good_checksum data length
  | _ => true

/-- The frames passed to `ibus_send` in a trace: the first `length` bytes
of each array, in order. -/
def frames_sent (effs : List Effect) : List (List Nat) :=
  effs.filterMap (fun e => match e with
    | Effect.ibus_send _ data length _ => some (data.take length)
    | _ => none)

/-- The pairs `(pin, value)` passed to `gpio_write` in a trace, in order. -/
def gpio_writes (effs : List Effect) : List (Nat × Nat) :=
  effs.filterMap (fun e => match e with
    | Effect.gpio_write pin value => some (pin, value)
    | _ => none)

/-- The initial state on hardware revision 4 (`-v 4`). -/
def ibus_rev4 : Ibus := { ibus_initial with hw_version := 4, gpio_number := 17 }

/-- What the event loop delivers to `ibus.c`: a call of `ibus_read` at time
`now` during which `read` delivers `bytes` and then would block, or a call
of `ibus_tick` at time `now`. -/
inductive BusEvent
  | rx (now : Nat) (bytes : List Nat)
  | tick (now : Nat)
  deriving DecidableEq, Repr

/-- One callback of the event loop. -/
def bus_step (CTRL_BIT : Nat) (e : BusEvent) (s : Ibus) : Ibus × List Effect :=
  match e with
  | BusEvent.rx now bytes => ibus_read CTRL_BIT now bytes ReadEnd.would_block s
  | BusEvent.tick now => ibus_tick now s

/-- A run of callbacks, with the effects in order. -/
def bus_run (CTRL_BIT : Nat) : List BusEvent → Ibus → Ibus × List Effect
  | [], s => (s, [])
  | e :: es, s =>
    let r1 := bus_step CTRL_BIT e s
    let r2 := bus_run CTRL_BIT es r1.1
    (r2.1, r1.2 ++ r2.2)

/-- The slot of `buf` the next byte is written to: 0 after a resync gap,
`bufPos` otherwise. -/
def write_index (now : Nat) (s : Ibus) : Nat :=
  if (now + 2 ^ 64 - s.last_byte) % 2 ^ 64 > 64 then 0 else s.bufPos

/-- A run of 64 bytes 1 ms apart, the bytes 128, 129, ..., 191: its length
byte, 129, announces no frame that fits the buffer. -/
def overlong_run : List (Nat × Nat) := (List.range 64).map (fun i => (i + 1, 128 + i))

/-- The three frame shapes of the CDC heuristic as the code tests them, in
the words of the specification: source 0x68 and either length 20 with bytes
6, 13, 19 = 43, 34, 4C, or length at least 16 with bytes 6..10 =
54 52 20 30 34 (`TR 04`), or length 25 with bytes 15, 16, 18, 20, 21, 24 =
43, 44, 31, 30, 34, 25. -/
def cdc_shape (msg : List Nat) (length : Nat) : Bool :=
  decide (msg.getD 0 0 = 0x68) &&
  ((decide (length = 20) && decide (msg.getD 6 0 = 0x43) && decide (msg.getD 13 0 = 0x34) &&
      decide (msg.getD 19 0 = 0x4c)) ||
   (decide (length ≥ 16) && decide (msg.getD 6 0 = 0x54) && decide (msg.getD 7 0 = 0x52) &&
      decide (msg.getD 8 0 = 0x20) && decide (msg.getD 9 0 = 0x30) &&
      decide (msg.getD 10 0 = 0x34)) ||
   (decide (length = 25) && decide (msg.getD 15 0 = 0x43) && decide (msg.getD 16 0 = 0x44) &&
      decide (msg.getD 18 0 = 0x31) && decide (msg.getD 20 0 = 0x30) &&
      decide (msg.getD 21 0 = 0x34) && decide (msg.getD 24 0 = 0x25)))

/-- The three shapes when each is tied to one exact frame length, `L` being
the length of the `TR 04` shape. -/
def cdc_shape_exact (L : Nat) (msg : List Nat) (length : Nat) : Bool :=
  decide (msg.getD 0 0 = 0x68) &&
  ((decide (length = 20) && decide (msg.getD 6 0 = 0x43) && decide (msg.getD 13 0 = 0x34) &&
      decide (msg.getD 19 0 = 0x4c)) ||
   (decide (length = L) && decide (msg.getD 6 0 = 0x54) && decide (msg.getD 7 0 = 0x52) &&
      decide (msg.getD 8 0 = 0x20) && decide (msg.getD 9 0 = 0x30) &&
      decide (msg.getD 10 0 = 0x34)) ||
   (decide (length = 25) && decide (msg.getD 15 0 = 0x43) && decide (msg.getD 16 0 = 0x44) &&
      decide (msg.getD 18 0 = 0x31) && decide (msg.getD 20 0 = 0x30) &&
      decide (msg.getD 21 0 = 0x34) && decide (msg.getD 24 0 = 0x25)))

/-- The 16-byte `TR 04` frame of the disabled table entry `TR 04S`. -/
def tr04_short : List Nat :=
  [0x68, 0x0e, 0x3b, 0x23, 0x62, 0x10, 0x54, 0x52, 0x20, 0x30, 0x34, 0x20, 0x20, 0x20,
   0x20, 0x2e]

/-- The 20-byte `TR 04` frame of the disabled table entry `TR 04L`. -/
def tr04_long : List Nat :=
  [0x68, 0x12, 0x3b, 0x23, 0x62, 0x10, 0x54, 0x52, 0x20, 0x30, 0x34, 0x20, 0x20, 0x20,
   0x20, 0x20, 0x20, 0x20, 0x20, 0x32]

/-- The effects the table scan can perform: key events, log lines, shell
commands, calls of external handlers, the hand-over to the transmit queue,
and the transmission of `start_playing`. -/
def dispatch_effect (e : Effect) : Bool :=
  match e with
  | Effect.keyboard_generate _ => true
  | Effect.ibus_log _ => true
  | Effect.system _ => true
  | Effect.extern_handler _ _ _ => true
  | Effect.ibus_remove_from_queue _ _ => true
  | Effect.ibus_send _ data length _ => decide (data = start_playing) && decide (length = 12)
  | _ => false

/-- The effect is a transmission of the announcement `18 04 FF 02 01 E0`. -/
def is_announce (e : Effect) : Bool :=
  match e with
  | Effect.ibus_send _ data length _ =>
    decide (data.take length = [0x18, 0x04, 0xFF, 0x02, 0x01, 0xE0])
  | _ => false

/-- Number of announcements transmitted in a trace. -/
def announcements (effs : List Effect) : Nat := effs.countP is_announce

/-- The announce heuristic has nothing to announce: announcements are off,
or the radio has polled, or no radio frame was counted. -/
def announce_idle (s : Ibus) : Prop :=
  s.mk3_announce = false ∨ s.cd_polled = true ∨ s.radio_msgs = 0

/-- The state at an announce point: 599 ticks counted, two radio frames
seen, not polled. -/
def ibus_at_announce : Ibus := { ibus_initial with tick_j := 599, radio_msgs := 2 }

/-! ## The CD-info timer -/

/-- The bounds of a frame handed to the dispatcher: between 4 and 63 bytes,
and as many as its length byte (offset 1) plus 2. -/
def frame_ok (f : List Nat) : Bool :=
  decide (4 ≤ f.length) && decide (f.length ≤ 63) && decide (f.length = f.getD 1 0 + 2)

/-- A dead accumulation: the buffer holds at least two bytes and the length
byte `buf[LENGTH]` is below 2 or above 61. -/
def dead_buffer (s : Ibus) : Bool :=
  decide (2 ≤ s.bufPos) &&
    (decide (s.buf.getD LENGTH 0 < 2) || decide (s.buf.getD LENGTH 0 > 61))

/-- No byte of the run arrives more than 64 ms after the previous one;
`last` is the time of the previous byte. The bytes of one call of
`ibus_read` share its time stamp; ticks and calls that read nothing leave
the time of the last byte alone. -/
def within_gap : Nat → List BusEvent → Bool
  | _, [] => true
  | last, BusEvent.tick _ :: es => within_gap last es
  | last, BusEvent.rx _ [] :: es => within_gap last es
  | last, BusEvent.rx now (_ :: _) :: es =>
    decide ((now + 2 ^ 64 - last) % 2 ^ 64 ≤ 64) && within_gap now es

/-- The effects a tick can perform: log lines, power-off, the LED, the log
flush, the service of the transmit queue, and the transmission of the time
request, the date request or the announcement. -/
def tick_effect (e : Effect) : Bool :=
  match e with
  | Effect.ibus_log _ => true
  | Effect.power_off => true
  | Effect.gpio_write _ _ => true
  | Effect.fflush_log => true
  | Effect.ibus_send _ data length _ =>
    decide ((data = request_time_frame ∧ length = 7) ∨
      (data = request_date_frame ∧ length = 7) ∨ (data = cdc_announce ∧ length = 6))
  | Effect.ibus_service_queue _ _ _ => true
  | _ => false

/-- The calls of handlers defined outside `ibus.c` in a trace, in order. -/
def extern_calls (effs : List Effect) : List ExtHandler :=
  effs.filterMap (fun e => match e with
    | Effect.extern_handler h _ _ => some h
    | _ => none)

/-- The rule calls a handler that is defined outside `ibus.c`. -/
def is_sensor_rule (r : EventRule) : Bool :=
  match r.function with
  | some (Handler.extern_fn _) => true
  | _ => false

/-- The frame matches one of the rules whose handler is defined outside
`ibus.c`. -/
def sensor_frame (CTRL_BIT : Nat) (msg : List Nat) (length : Nat) : Bool :=
  (events CTRL_BIT).any (fun r => is_sensor_rule r && rule_matches r msg length)

/-- What the changer state and the trace show when the step from `s` to
`r` neither marks the changer as polled nor touches the timer tag, calls no
handler defined outside `ibus.c` and does not transmit `cdc_im_here`. -/
def changer_untouched (s : Ibus) (r : Ibus × List Effect) : Prop :=
  r.1.cd_polled = s.cd_polled ∧ r.1.cdc_info_tag = s.cdc_info_tag ∧
  extern_calls r.2 = [] ∧ cdc_im_here ∉ frames_sent r.2

/-- A frame from the radio (0x68) to the changer (0x18) with the command
byte 0x01, the poll of the comment above `announce_cdc`: `68 03 18 01 72`. -/
def poll_frame : List Nat := [0x68, 0x03, 0x18, 0x01, 0x72]

/-- The values of `can_send` handed to `ibus_service_queue` in a trace, in
order. -/
def queue_services (effs : List Effect) : List Bool :=
  effs.filterMap (fun e => match e with
    | Effect.ibus_service_queue _ can_send _ => some can_send
    | _ => none)

/-- The number of ticks since the last received byte, none of them with a
byte in between, at the end of a run that began with `n` such ticks. A call
of `ibus_read` that reads nothing receives no byte. -/
def quiet_ticks_from : Nat → List BusEvent → Nat
  | n, [] => n
  | n, BusEvent.tick _ :: es => quiet_ticks_from (n + 1) es
  | n, BusEvent.rx _ [] :: es => quiet_ticks_from n es
  | _, BusEvent.rx _ (_ :: _) :: es => quiet_ticks_from 0 es

/-- The number of consecutive ticks at the end of a run since the last
received byte (since the start of the run if it has no byte). -/
def quiet_ticks (evs : List BusEvent) : Nat := quiet_ticks_from 0 evs

/-- The seven bytes of scenario B, one per call of `ibus_read`, 10 ms apart,
then one tick at 71 ms. -/
def scenario_B_then_tick : List BusEvent :=
  [BusEvent.rx 10 [0xA4], BusEvent.rx 20 [0x05], BusEvent.rx 30 [0x80], BusEvent.rx 40 [0x41],
   BusEvent.rx 50 [0x01], BusEvent.rx 60 [0x01], BusEvent.rx 70 [0x60], BusEvent.tick 71]

/-! # Theorems -/

/-! ## Checksum -/

theorem foldl_xor_init (l : List Nat) (a : Nat) :
    l.foldl (fun a b => a ^^^ b) a = a ^^^ xor_fold l := by
  unfold xor_fold
  induction l generalizing a with
  | nil => simp
  | cons b t ih =>
    simp only [List.foldl_cons]
    rw [ih (a ^^^ b), ih (0 ^^^ b), Nat.zero_xor, Nat.xor_assoc]

theorem xor_fold_append (l₁ l₂ : List Nat) :
    xor_fold (l₁ ++ l₂) = xor_fold l₁ ^^^ xor_fold l₂ := by
  unfold xor_fold
  rw [List.foldl_append, foldl_xor_init]
  rfl

theorem xor_fold_lt (l : List Nat) (h : ∀ b ∈ l, b < 256) : xor_fold l < 256 := by
  induction l using List.reverseRecOn with
  | nil => simp [xor_fold]
  | append_singleton t b ih =>
    rw [xor_fold_append]
    have h1 : xor_fold t < 2 ^ 8 := ih (fun x hx => h x (by simp [hx]))
    have h2 : xor_fold [b] < 2 ^ 8 := by
      have : b < 256 := h b (by simp)
      simpa [xor_fold] using this
    exact Nat.xor_lt_two_pow h1 h2

/-- The loop of `ibus_good_checksum` computes the XOR of the first `k + 1`
bytes. -/
theorem checksum_loop_eq (msg : List Nat) (hb : ∀ b ∈ msg, b < 256) (k : Nat)
    (hk : k + 1 ≤ msg.length) :
    (List.range' 1 k).foldl (fun sum i => (sum ^^^ msg.getD i 0) % 256) (msg.getD 0 0)
      = xor_fold (msg.take (k + 1)) := by
  induction k with
  | zero =>
    cases msg with
    | nil => simp at hk
    | cons a t => simp [xor_fold]
  | succ k ih =>
    have hk1 : k + 1 < msg.length := by omega
    have hopt : msg[k + 1]? = some msg[k + 1] := List.getElem?_eq_getElem hk1
    have ht : List.take (k + 1 + 1) msg = List.take (k + 1) msg ++ [msg[k + 1]] := by
      rw [List.take_succ, hopt]; rfl
    have hget : msg.getD (1 + k) 0 = msg[k + 1] := by
      rw [Nat.add_comm 1 k, List.getD_eq_getElem msg 0 hk1]
    rw [List.range'_1_concat, List.foldl_append, ih (by omega), ht, xor_fold_append]
    simp only [List.foldl_cons, List.foldl_nil, hget]
    have h1 : xor_fold (List.take (k + 1) msg) < 2 ^ 8 :=
      xor_fold_lt _ (fun x hx => hb x (List.mem_of_mem_take hx))
    have h2 : msg[k + 1] < 2 ^ 8 := hb _ (List.getElem_mem _)
    have h3 := Nat.xor_lt_two_pow h1 h2
    have h4 : xor_fold [msg[k + 1]] = msg[k + 1] := by simp [xor_fold]
    rw [h4]
    exact Nat.mod_eq_of_lt h3

/-- The verdict of `ibus_good_checksum` in terms of the XOR of the leading
bytes. -/
theorem good_checksum_iff (msg : List Nat) (n : Nat) (hn : 2 ≤ n) (hlen : n ≤ msg.length)
    (hb : ∀ b ∈ msg, b < 256) :
    ibus_good_checksum msg n = true ↔ xor_fold (msg.take (n - 1)) = msg.getD (n - 1) 0 := by
  unfold ibus_good_checksum
  have h := checksum_loop_eq msg hb (n - 2) (by omega)
  have e : n - 2 + 1 = n - 1 := by omega
  rw [e] at h
  simp only [h]
  by_cases hc : xor_fold (List.take (n - 1) msg) = msg.getD (n - 1) 0 <;> simp [hc]

theorem xor_fold_cons (a : Nat) (t : List Nat) : xor_fold (a :: t) = a ^^^ xor_fold t := by
  have h := xor_fold_append [a] t
  simpa [xor_fold] using h

theorem xor_fold_set (l : List Nat) (j v : Nat) (hj : j < l.length) :
    xor_fold (l.set j v) = xor_fold l ^^^ (l.getD j 0 ^^^ v) := by
  induction l generalizing j with
  | nil => simp at hj
  | cons a t ih =>
    cases j with
    | zero =>
      simp only [List.set_cons_zero, xor_fold_cons, List.getD_cons_zero]
      rw [Nat.xor_comm a (xor_fold t), Nat.xor_assoc, Nat.xor_cancel_left, Nat.xor_comm]
    | succ j =>
      simp only [List.set_cons_succ, xor_fold_cons, List.getD_cons_succ]
      rw [ih j (by simpa using hj), Nat.xor_assoc]

theorem flip_bit_bytes (msg : List Nat) (j k : Nat) (hk : k < 8) (hb : ∀ b ∈ msg, b < 256) :
    ∀ b ∈ flip_bit msg j k, b < 256 := by
  intro b hbm
  unfold flip_bit at hbm
  rcases List.mem_or_eq_of_mem_set hbm with h | h
  · exact hb b h
  · subst h
    have h1 : msg.getD j 0 < 2 ^ 8 := by
      rw [List.getD_eq_getElem?_getD]
      cases hq : msg[j]? with
      | none => simp
      | some x => simpa using hb x (List.getElem?_mem hq)
    have h2 : 2 ^ k < 2 ^ 8 := Nat.pow_lt_pow_right (by decide) hk
    exact Nat.xor_lt_two_pow h1 h2

/-- C3: for every frame of length `n >= 2` (bytes below 256),
`ibus_good_checksum` returns TRUE if and only if the XOR of bytes `0 .. n-2`
equals byte `n-1`; it returns TRUE for the scenario B frame
`A4 05 80 41 01 01 60`, whose last byte 0x60 is the XOR of the six before. -/
theorem C3_checksum_validator (msg : List Nat) (n : Nat) (hn : 2 ≤ n)
    (hlen : msg.length = n) (hb : ∀ b ∈ msg, b < 256) :
    (ibus_good_checksum msg n = true ↔ xor_fold (msg.take (n - 1)) = msg.getD (n - 1) 0) ∧
    ibus_good_checksum scenario_B 7 = true ∧
    xor_fold (scenario_B.take 6) = 0x60 := by
  refine ⟨good_checksum_iff msg n hn (by omega) hb, ?_, ?_⟩
  · decide
  · decide

theorem C3_checksum_validator_witness :
    (ibus_good_checksum [0x80, 0x0C, 0xE7, 0x24, 0x01, 0x00, 0x20, 0x35, 0x3A, 0x30, 0x34,
        0x50, 0x4D, 0x78] 14 = true ↔
      xor_fold (List.take (14 - 1) [0x80, 0x0C, 0xE7, 0x24, 0x01, 0x00, 0x20, 0x35, 0x3A,
        0x30, 0x34, 0x50, 0x4D, 0x78]) =
        List.getD [0x80, 0x0C, 0xE7, 0x24, 0x01, 0x00, 0x20, 0x35, 0x3A, 0x30, 0x34,
        0x50, 0x4D, 0x78] (14 - 1) 0) ∧
    ibus_good_checksum scenario_B 7 = true ∧
    xor_fold (scenario_B.take 6) = 0x60 :=
  C3_checksum_validator [0x80, 0x0C, 0xE7, 0x24, 0x01, 0x00, 0x20, 0x35, 0x3A, 0x30, 0x34,
    0x50, 0x4D, 0x78] 14 (by decide) (by decide) (by decide)

/-- C4: in a frame of length `n >= 4` that `ibus_good_checksum` accepts,
flipping any single bit `k < 8` of any payload byte (offset `3 .. n-2`)
makes `ibus_good_checksum` return FALSE. -/
theorem C4_single_bit_flip_detected (msg : List Nat) (n j k : Nat) (hn : 4 ≤ n)
    (hlen : msg.length = n) (hb : ∀ b ∈ msg, b < 256)
    (hgood : ibus_good_checksum msg n = true)
    (hj : 3 ≤ j) (hj2 : j ≤ n - 2) (hk : k < 8) :
    ibus_good_checksum (flip_bit msg j k) n = false := by
  have hb2 := flip_bit_bytes msg j k hk hb
  have hlen2 : (flip_bit msg j k).length = n := by simp [flip_bit, hlen]
  have h1 := (good_checksum_iff msg n (by omega) (by omega) hb).1 hgood
  cases hc : ibus_good_checksum (flip_bit msg j k) n with
  | false => rfl
  | true =>
    exfalso
    have h2 := (good_checksum_iff _ n (by omega) (by omega) hb2).1 hc
    have hlast : (flip_bit msg j k).getD (n - 1) 0 = msg.getD (n - 1) 0 := by
      unfold flip_bit
      rw [List.getD_eq_getElem?_getD, List.getD_eq_getElem?_getD, List.getElem?_set]
      have : j ≠ n - 1 := by omega
      simp [this]
    have htake : xor_fold ((flip_bit msg j k).take (n - 1)) =
        xor_fold (msg.take (n - 1)) ^^^ 2 ^ k := by
      unfold flip_bit
      rw [List.set_take, xor_fold_set _ _ _ (by simp; omega)]
      have hg : (List.take (n - 1) msg).getD j 0 = msg.getD j 0 := by
        rw [List.getD_eq_getElem?_getD, List.getD_eq_getElem?_getD, List.getElem?_take]
        have : j < n - 1 := by omega
        simp [this]
      rw [hg, Nat.xor_cancel_left]
    rw [htake, hlast, h1] at h2
    have h3 : msg.getD (n - 1) 0 ^^^ 2 ^ k = msg.getD (n - 1) 0 ^^^ 0 := by
      rw [h2, Nat.xor_zero]
    have h4 := Nat.xor_right_injective h3
    exact absurd h4 (by positivity)

theorem C4_single_bit_flip_detected_witness :
    ibus_good_checksum (flip_bit scenario_B 3 6) 7 = false :=
  C4_single_bit_flip_detected scenario_B 7 3 6 (by decide) (by decide) (by decide)
    (by decide) (by decide) (by decide) (by decide)

/-! ## What dispatch leaves alone -/

theorem frames_handed_append (a b : List Effect) :
    frames_handed (a ++ b) = frames_handed a ++ frames_handed b := by
  simp [frames_handed, List.filterMap_append]

theorem frames_handed_replicate_key (n k : Nat) :
    frames_handed (List.replicate n (Effect.keyboard_generate k)) = [] := by
  induction n with
  | zero => rfl
  | succ n ih => rw [List.replicate_succ]; simp [frames_handed]

theorem call_handler_rx (f : Handler) (msg : List Nat) (length : Nat) (s : Ibus) :
    (call_handler f msg length s).1.buf = s.buf ∧
    (call_handler f msg length s).1.last_byte = s.last_byte ∧
    frames_handed (call_handler f msg length s).2 = [] := by
  cases f with
  | ibus_handle_rotary =>
    simp only [call_handler, ibus_handle_rotary]
    split_ifs <;> simp [frames_handed_replicate_key] <;> rfl
  | cdchanger_handle_start => simp [call_handler, cdchanger_handle_start, frames_handed]
  | extern_fn h => simp [call_handler, frames_handed]

theorem fire_event_rx (r : EventRule) (msg : List Nat) (length : Nat) (s : Ibus) :
    (fire_event r msg length s).1.buf = s.buf ∧
    (fire_event r msg length s).1.last_byte = s.last_byte ∧
    frames_handed (fire_event r msg length s).2 = [] := by
  have e1 : frames_handed (if r.key ≠ 0 ∧ s.keyboard_blocked = false then
      [Effect.keyboard_generate r.key] else []) = [] := by
    split_ifs <;> rfl
  have e3 : frames_handed (match r.command with
      | some c => [Effect.system c]
      | none => []) = [] := by
    cases r.command <;> rfl
  unfold fire_event
  cases hf : r.function with
  | none =>
    simp only [frames_handed_append, e1, e3]
    simp [frames_handed]
  | some f =>
    have h := call_handler_rx f msg length s
    simp only [frames_handed_append, e1, e3, h.1, h.2.1, h.2.2]
    simp [frames_handed]

theorem events_loop_rx (rs : List EventRule) (msg : List Nat) (length : Nat) (s : Ibus) :
    (events_loop rs msg length s).1.buf = s.buf ∧
    (events_loop rs msg length s).1.last_byte = s.last_byte ∧
    frames_handed (events_loop rs msg length s).2 = [] := by
  induction rs with
  | nil => simp [events_loop, frames_handed]
  | cons r rs ih =>
    unfold events_loop
    split_ifs
    · exact ih
    · exact fire_event_rx r msg length s
    · exact ih

theorem handle_message_head_rx (msg : List Nat) (length : Nat) (s : Ibus) :
    (handle_message_head msg length s).1.buf = s.buf ∧
    (handle_message_head msg length s).1.last_byte = s.last_byte ∧
    frames_handed (handle_message_head msg length s).2 = [msg.take length] := by
  have hc : frames_handed (is_cdc_message msg length).2 = [] := by
    unfold is_cdc_message
    split_ifs <;> rfl
  have hm : (cdchanger_handle_cdcmode msg length s).1.buf = s.buf ∧
      (cdchanger_handle_cdcmode msg length s).1.last_byte = s.last_byte ∧
      frames_handed (cdchanger_handle_cdcmode msg length s).2 = [] := by
    unfold cdchanger_handle_cdcmode
    split_ifs <;> simp [frames_handed, ibus_set_video, VIDEO_SRC_PI, VIDEO_SRC_BMW]
  have hr : ∀ b : Bool,
      (if b = true then cdchanger_handle_cdcmode msg length s else (s, [])).1.buf = s.buf ∧
      (if b = true then cdchanger_handle_cdcmode msg length s else (s, [])).1.last_byte
        = s.last_byte ∧
      frames_handed (if b = true then cdchanger_handle_cdcmode msg length s else (s, [])).2
        = [] := by
    intro b
    cases b
    · simp [frames_handed]
    · simpa using hm
  have hr1 := hr (is_cdc_message msg length).1
  unfold handle_message_head
  split_ifs <;> simp only [frames_handed_append, hc, hr1.1, hr1.2.1, hr1.2.2] <;>
    simp [frames_handed]

/-- Dispatch reads the buffer and never writes it; it logs its argument once. -/
theorem ibus_handle_message_rx (CTRL_BIT : Nat) (msg : List Nat) (length : Nat) (s : Ibus) :
    (ibus_handle_message CTRL_BIT msg length s).1.buf = s.buf ∧
    (ibus_handle_message CTRL_BIT msg length s).1.last_byte = s.last_byte ∧
    frames_handed (ibus_handle_message CTRL_BIT msg length s).2 = [msg.take length] := by
  have h1 := handle_message_head_rx msg length s
  have h2 := events_loop_rx (events CTRL_BIT) msg length (handle_message_head msg length s).1
  unfold ibus_handle_message
  simp only [frames_handed_append, h2.1, h2.2.1, h2.2.2, h1.1, h1.2.1, h1.2.2]
  simp

/-! ## The frame assembler -/

theorem store_step (s : Ibus) (acc : List Nat) (now c : Nat) (hinv : buffer_holds s acc)
    (hgap : (now + 2 ^ 64 - s.last_byte) % 2 ^ 64 ≤ 64) :
    (ibus_read_store now c s).buf.length = 64 ∧
    (ibus_read_store now c s).bufPos = held (acc ++ [c]) ∧
    (∀ i, i < held (acc ++ [c]) → (ibus_read_store now c s).buf[i]? = (acc ++ [c])[i]?) ∧
    (ibus_read_store now c s).last_byte = now := by
  obtain ⟨hlen, hpos, hbuf, _⟩ := hinv
  have hg : ¬ (now + 2 ^ 64 - s.last_byte) % 2 ^ 64 > 64 := by omega
  unfold ibus_read_store
  simp only [hg, if_false, hpos]
  unfold held at *
  refine ⟨by simp [hlen], ?_, ?_, trivial⟩
  · simp only [List.length_append, List.length_singleton]
    split_ifs <;> omega
  · intro i hi
    simp only [List.length_append, List.length_singleton] at hi
    rw [List.getElem?_set]
    by_cases hlt : acc.length < 63
    · have hm : min acc.length 63 = acc.length := by omega
      rw [hm]
      by_cases hie : acc.length = i
      · subst hie
        simp [hlen]
        omega
      · have hi2 : i < acc.length := by omega
        rw [if_neg hie, List.getElem?_append_left hi2]
        exact hbuf i (by omega)
    · have hm : min acc.length 63 = 63 := by omega
      rw [hm]
      have hi2 : i < 63 := by omega
      have hie : ¬ 63 = i := by omega
      rw [if_neg hie, List.getElem?_append_left (by omega)]
      exact hbuf i (by omega)

theorem complete_iff (s5 : Ibus) (acc : List Nat) (hpos : s5.bufPos = held acc)
    (hbuf : ∀ i, i < held acc → s5.buf[i]? = acc[i]?) :
    (s5.bufPos ≥ 4 ∧ s5.buf.getD LENGTH 0 + 2 = s5.bufPos) ↔ frame_complete acc = true := by
  unfold frame_complete LENGTH
  rw [hpos]
  simp only [Bool.and_eq_true, decide_eq_true_eq, ge_iff_le]
  constructor
  · rintro ⟨h4, h⟩
    refine ⟨h4, ?_⟩
    rw [List.getD_eq_getElem?_getD] at h ⊢
    rw [← hbuf 1 (by omega)]
    exact h
  · rintro ⟨h4, h⟩
    refine ⟨h4, ?_⟩
    rw [List.getD_eq_getElem?_getD] at h ⊢
    rw [hbuf 1 (by omega)]
    exact h

theorem complete_not_saturated (acc : List Nat) (c : Nat)
    (hsat : 63 ≤ acc.length → acc.getD 1 0 + 2 ≠ 63)
    (hc : frame_complete (acc ++ [c]) = true) : (acc ++ [c]).length ≤ 63 := by
  unfold frame_complete held at hc
  simp only [Bool.and_eq_true, decide_eq_true_eq, List.length_append,
    List.length_singleton] at hc
  by_contra hgt
  simp only [List.length_append, List.length_singleton] at hgt
  have h63 : 63 ≤ acc.length := by omega
  have hget : (acc ++ [c]).getD 1 0 = acc.getD 1 0 := by
    rw [List.getD_eq_getElem?_getD, List.getD_eq_getElem?_getD,
      List.getElem?_append_left (by omega)]
  have := hsat h63
  rw [hget] at hc
  omega

theorem take_eq_of_holds (buf acc : List Nat)
    (hbuf : ∀ i, i < acc.length → buf[i]? = acc[i]?) : buf.take acc.length = acc := by
  apply List.ext_getElem?
  intro i
  rw [List.getElem?_take]
  by_cases hi : i < acc.length
  · rw [if_pos hi]; exact hbuf i hi
  · rw [if_neg hi]
    exact (List.getElem?_eq_none (by omega)).symm

theorem ibus_read_single (CTRL_BIT now c : Nat) (s : Ibus) :
    ibus_read CTRL_BIT now [c] ReadEnd.would_block s = ibus_read_byte CTRL_BIT now c s := by
  simp [ibus_read]

theorem buffer_holds_nil (s : Ibus) (hlen : s.buf.length = 64) (hpos : s.bufPos = 0) :
    buffer_holds s [] := by
  refine ⟨hlen, by simpa [held] using hpos, ?_, ?_⟩
  · intro i hi
    simp [held] at hi
  · intro h
    simp at h

/-- One byte without resync gap, when it completes a frame. -/
theorem read_byte_complete (CTRL_BIT : Nat) (s : Ibus) (acc : List Nat) (now c : Nat)
    (hinv : buffer_holds s acc) (hgap : (now + 2 ^ 64 - s.last_byte) % 2 ^ 64 ≤ 64)
    (hc : frame_complete (acc ++ [c]) = true) :
    (ibus_read_byte CTRL_BIT now c s).2 =
      (ibus_handle_message CTRL_BIT (ibus_read_store now c s).buf (acc ++ [c]).length
        (ibus_read_store now c s)).2 ∧
    (ibus_read_store now c s).buf.take (acc ++ [c]).length = acc ++ [c] ∧
    frames_handed (ibus_read_byte CTRL_BIT now c s).2 = [acc ++ [c]] ∧
    (ibus_read_byte CTRL_BIT now c s).1.bufPos = 0 ∧
    buffer_holds (ibus_read_byte CTRL_BIT now c s).1 [] ∧
    (ibus_read_byte CTRL_BIT now c s).1.last_byte = now := by
  obtain ⟨hlen, hpos, hbuf, hlast⟩ := store_step s acc now c hinv hgap
  have hns := complete_not_saturated acc c hinv.2.2.2 hc
  have hheld : held (acc ++ [c]) = (acc ++ [c]).length := by
    unfold held; omega
  have htest := (complete_iff _ _ hpos hbuf).2 hc
  have htake : (ibus_read_store now c s).buf.take (acc ++ [c]).length = acc ++ [c] :=
    take_eq_of_holds _ _ (fun i hi => hbuf i (by rw [hheld]; exact hi))
  have hrx := ibus_handle_message_rx CTRL_BIT (ibus_read_store now c s).buf
    (ibus_read_store now c s).bufPos (ibus_read_store now c s)
  have hpos2 : (ibus_read_store now c s).bufPos = (acc ++ [c]).length := by
    rw [hpos, hheld]
  unfold ibus_read_byte
  simp only [htest, and_self, if_true]
  rw [hpos2] at hrx ⊢
  refine ⟨rfl, htake, ?_, trivial, ?_, ?_⟩
  · rw [hrx.2.2, htake]
  · exact buffer_holds_nil _ (by simp only [hrx.1, hlen]) rfl
  · simp only [hrx.2.1, hlast]

/-- One byte without resync gap, when it completes no frame. -/
theorem read_byte_pending (CTRL_BIT : Nat) (s : Ibus) (acc : List Nat) (now c : Nat)
    (hinv : buffer_holds s acc) (hgap : (now + 2 ^ 64 - s.last_byte) % 2 ^ 64 ≤ 64)
    (hc : frame_complete (acc ++ [c]) = false) :
    ibus_read_byte CTRL_BIT now c s = (ibus_read_store now c s, []) ∧
    buffer_holds (ibus_read_store now c s) (acc ++ [c]) ∧
    (ibus_read_store now c s).last_byte = now := by
  obtain ⟨hlen, hpos, hbuf, hlast⟩ := store_step s acc now c hinv hgap
  have htest : ¬ ((ibus_read_store now c s).bufPos ≥ 4 ∧
      (ibus_read_store now c s).buf.getD LENGTH 0 + 2 = (ibus_read_store now c s).bufPos) := by
    intro h
    have := (complete_iff _ _ hpos hbuf).1 h
    rw [hc] at this
    exact Bool.noConfusion this
  refine ⟨?_, ⟨hlen, hpos, hbuf, ?_⟩, hlast⟩
  · unfold ibus_read_byte
    simp only [htest, if_false]
  · intro h63
    simp only [List.length_append, List.length_singleton] at h63
    unfold frame_complete held at hc
    simp only [List.length_append, List.length_singleton] at hc
    by_cases h : 63 ≤ acc.length
    · have hget : (acc ++ [c]).getD 1 0 = acc.getD 1 0 := by
        rw [List.getD_eq_getElem?_getD, List.getD_eq_getElem?_getD,
          List.getElem?_append_left (by omega)]
      rw [hget]
      exact hinv.2.2.2 h
    · have hm : min (acc.length + 1) 63 = 63 := by omega
      rw [hm] at hc
      intro heq
      rw [heq] at hc
      simp at hc

theorem feed_append (CTRL_BIT : Nat) (es fs : List (Nat × Nat)) (s : Ibus) :
    feed CTRL_BIT (es ++ fs) s =
      ((feed CTRL_BIT fs (feed CTRL_BIT es s).1).1,
        (feed CTRL_BIT es s).2 ++ (feed CTRL_BIT fs (feed CTRL_BIT es s).1).2) := by
  induction es generalizing s with
  | nil => simp [feed]
  | cons e es ih => simp [feed, ih, List.append_assoc]

/-- A gap-free run of single-byte reads refines the specification-level
assembler: same frames, and the buffer holds the pending bytes. -/
theorem feed_refines (CTRL_BIT : Nat) (es rest : List (Nat × Nat)) (s : Ibus)
    (acc : List Nat) (hinv : buffer_holds s acc)
    (hgap : no_gap s.last_byte (es ++ rest) = true) :
    frames_handed (feed CTRL_BIT es s).2 = (assemble acc (es.map Prod.snd)).1 ∧
    buffer_holds (feed CTRL_BIT es s).1 (assemble acc (es.map Prod.snd)).2 ∧
    no_gap (feed CTRL_BIT es s).1.last_byte rest = true := by
  induction es generalizing s acc with
  | nil => exact ⟨rfl, hinv, hgap⟩
  | cons e es ih =>
    simp only [List.cons_append, no_gap, Bool.and_eq_true, decide_eq_true_eq] at hgap
    obtain ⟨hg, hrest⟩ := hgap
    simp only [feed, ibus_read_single, List.map_cons, assemble]
    cases hc : frame_complete (acc ++ [e.2]) with
    | true =>
      obtain ⟨_, _, hfr, _, hinv2, hlast⟩ :=
        read_byte_complete CTRL_BIT s acc e.1 e.2 hinv hg hc
      have h := ih (ibus_read_byte CTRL_BIT e.1 e.2 s).1 [] hinv2 (by rw [hlast]; exact hrest)
      simp only [if_true, frames_handed_append, hfr, h.1]
      exact ⟨rfl, h.2.1, h.2.2⟩
    | false =>
      obtain ⟨heq, hinv2, hlast⟩ := read_byte_pending CTRL_BIT s acc e.1 e.2 hinv hg hc
      have h := ih (ibus_read_store e.1 e.2 s) (acc ++ [e.2]) hinv2 (by rw [hlast]; exact hrest)
      simp only [heq, Bool.false_eq_true, if_false, List.nil_append]
      exact h

/-- C1: bytes are fed one at a time from an empty buffer with no gap above
64 ms. Let `acc` be the bytes received since the last buffer reset, the new
byte `c` included. After `c` is stored the buffer holds `held acc` bytes,
the first `held acc` of `acc` in order. A frame is handed to
`ibus_handle_message` exactly when at least 4 bytes are held and
`buf[1] + 2` is the number held (`frame_complete acc`); it is then exactly
`acc`, it is the only frame handed over for this byte, and `bufPos` is 0
afterwards. Otherwise nothing is emitted. Over the whole run the frames
handed over are those of the specification-level assembler. -/
theorem C1_frame_assembly (CTRL_BIT : Nat) (s0 : Ibus) (pre : List (Nat × Nat))
    (now c : Nat) (hlen : s0.buf.length = 64) (h0 : s0.bufPos = 0)
    (hgap : no_gap s0.last_byte (pre ++ [(now, c)]) = true) :
    ((ibus_read_store now c (feed CTRL_BIT pre s0).1).bufPos
        = held ((assemble [] (pre.map Prod.snd)).2 ++ [c]) ∧
      ∀ i, i < held ((assemble [] (pre.map Prod.snd)).2 ++ [c]) →
        (ibus_read_store now c (feed CTRL_BIT pre s0).1).buf[i]?
          = ((assemble [] (pre.map Prod.snd)).2 ++ [c])[i]?) ∧
    (frame_complete ((assemble [] (pre.map Prod.snd)).2 ++ [c]) = true →
      (ibus_read CTRL_BIT now [c] ReadEnd.would_block (feed CTRL_BIT pre s0).1).2 =
        (ibus_handle_message CTRL_BIT (ibus_read_store now c (feed CTRL_BIT pre s0).1).buf
          ((assemble [] (pre.map Prod.snd)).2 ++ [c]).length
          (ibus_read_store now c (feed CTRL_BIT pre s0).1)).2 ∧
      (ibus_read_store now c (feed CTRL_BIT pre s0).1).buf.take
          ((assemble [] (pre.map Prod.snd)).2 ++ [c]).length
        = (assemble [] (pre.map Prod.snd)).2 ++ [c] ∧
      frames_handed
          (ibus_read CTRL_BIT now [c] ReadEnd.would_block (feed CTRL_BIT pre s0).1).2
        = [(assemble [] (pre.map Prod.snd)).2 ++ [c]] ∧
      (ibus_read CTRL_BIT now [c] ReadEnd.would_block (feed CTRL_BIT pre s0).1).1.bufPos = 0) ∧
    (frame_complete ((assemble [] (pre.map Prod.snd)).2 ++ [c]) = false →
      (ibus_read CTRL_BIT now [c] ReadEnd.would_block (feed CTRL_BIT pre s0).1).2 = [] ∧
      (ibus_read CTRL_BIT now [c] ReadEnd.would_block (feed CTRL_BIT pre s0).1).1.bufPos
        = held ((assemble [] (pre.map Prod.snd)).2 ++ [c])) ∧
    frames_handed (feed CTRL_BIT (pre ++ [(now, c)]) s0).2
      = (assemble [] ((pre ++ [(now, c)]).map Prod.snd)).1 := by
  have hinv0 := buffer_holds_nil s0 hlen h0
  obtain ⟨_, hinv, hg⟩ := feed_refines CTRL_BIT pre [(now, c)] s0 [] hinv0 hgap
  have hall := feed_refines CTRL_BIT (pre ++ [(now, c)]) [] s0 [] hinv0
    (by simpa using hgap)
  simp only [no_gap, Bool.and_true, decide_eq_true_eq] at hg
  obtain ⟨_, hpos, hbuf, _⟩ := store_step _ _ now c hinv hg
  refine ⟨⟨hpos, hbuf⟩, ?_, ?_, hall.1⟩
  · intro hc
    obtain ⟨h1, h2, h3, h4, _, _⟩ := read_byte_complete CTRL_BIT _ _ now c hinv hg hc
    rw [ibus_read_single]
    exact ⟨h1, h2, h3, h4⟩
  · intro hc
    obtain ⟨h1, h2, _⟩ := read_byte_pending CTRL_BIT _ _ now c hinv hg hc
    rw [ibus_read_single, h1]
    exact ⟨rfl, h2.2.1⟩

theorem C1_frame_assembly_witness :
    frames_handed (ibus_read 0 70 [0x60] ReadEnd.would_block
      (feed 0 [(10, 0xA4), (20, 0x05), (30, 0x80), (40, 0x41), (50, 0x01), (60, 0x01)]
        ibus_initial).1).2 = [scenario_B] :=
  ((C1_frame_assembly 0 ibus_initial
    [(10, 0xA4), (20, 0x05), (30, 0x80), (40, 0x41), (50, 0x01), (60, 0x01)] 70 0x60
    (by decide) (by decide) (by decide)).2.1 (by decide)).2.2.1

/-- The checksum verdict depends on the `n` bytes of the frame only. -/
theorem good_checksum_take (msg : List Nat) (n : Nat) (hn : 1 ≤ n) :
    ibus_good_checksum (msg.take n) n = ibus_good_checksum msg n := by
  have hget : ∀ i, i < n → (msg.take n).getD i 0 = msg.getD i 0 := by
    intro i hi
    rw [List.getD_eq_getElem?_getD, List.getD_eq_getElem?_getD, List.getElem?_take, if_pos hi]
  have hloop : ∀ k a, k + 1 < n →
      (List.range' 1 k).foldl (fun sum i => (sum ^^^ (msg.take n).getD i 0) % 256) a =
      (List.range' 1 k).foldl (fun sum i => (sum ^^^ msg.getD i 0) % 256) a := by
    intro k
    induction k with
    | zero => intro a _; rfl
    | succ k ih =>
      intro a hk
      rw [List.range'_1_concat, List.foldl_append, List.foldl_append, ih a (by omega)]
      simp only [List.foldl_cons, List.foldl_nil]
      rw [hget (1 + k) (by omega)]
  unfold ibus_good_checksum
  by_cases h2 : n = 1
  · subst h2
    simp
  · simp only [hloop (n - 2) _ (by omega), hget 0 (by omega), hget (n - 1) (by omega)]

/-! ## Dispatch depends on the frame bytes only -/

theorem getD_take (msg : List Nat) (n i : Nat) (hi : i < n) :
    (msg.take n).getD i 0 = msg.getD i 0 := by
  rw [List.getD_eq_getElem?_getD, List.getD_eq_getElem?_getD, List.getElem?_take, if_pos hi]

theorem is_cdc_message_take (msg : List Nat) (n : Nat) :
    is_cdc_message (msg.take n) n = is_cdc_message msg n := by
  unfold is_cdc_message
  by_cases h20 : n = 20
  · subst h20
    simp only [getD_take msg 20 0 (by omega), getD_take msg 20 6 (by omega),
      getD_take msg 20 7 (by omega), getD_take msg 20 8 (by omega),
      getD_take msg 20 9 (by omega), getD_take msg 20 10 (by omega),
      getD_take msg 20 13 (by omega), getD_take msg 20 19 (by omega)]
    simp
  · by_cases h25 : n = 25
    · subst h25
      simp only [getD_take msg 25 0 (by omega), getD_take msg 25 6 (by omega),
        getD_take msg 25 7 (by omega), getD_take msg 25 8 (by omega),
        getD_take msg 25 9 (by omega), getD_take msg 25 10 (by omega),
        getD_take msg 25 13 (by omega), getD_take msg 25 19 (by omega),
        getD_take msg 25 15 (by omega), getD_take msg 25 16 (by omega),
        getD_take msg 25 18 (by omega), getD_take msg 25 20 (by omega),
        getD_take msg 25 21 (by omega), getD_take msg 25 24 (by omega)]
    · by_cases h16 : n ≥ 16
      · simp only [getD_take msg n 0 (by omega), getD_take msg n 6 (by omega),
          getD_take msg n 7 (by omega), getD_take msg n 8 (by omega),
          getD_take msg n 9 (by omega), getD_take msg n 10 (by omega), h20, h25,
          false_and, if_false]
      · simp only [h20, h25, h16, false_and, if_false]

theorem call_handler_take (f : Handler) (msg : List Nat) (n : Nat) (s : Ibus) :
    call_handler f (msg.take n) n s = call_handler f msg n s := by
  cases f with
  | ibus_handle_rotary =>
    simp only [call_handler, ibus_handle_rotary]
    by_cases h5 : n < 5
    · simp only [h5, true_or, if_true]
    · rw [getD_take msg n 4 (by omega)]
  | cdchanger_handle_start => rfl
  | extern_fn h => simp [call_handler]

theorem fire_event_take (r : EventRule) (msg : List Nat) (n : Nat) (s : Ibus) :
    fire_event r (msg.take n) n s = fire_event r msg n s := by
  unfold fire_event
  cases r.function with
  | none => rfl
  | some f => simp only [call_handler_take]

theorem events_loop_take (rs : List EventRule) (msg : List Nat) (n : Nat) (s : Ibus) :
    events_loop rs (msg.take n) n s = events_loop rs msg n s := by
  induction rs with
  | nil => simp [events_loop]
  | cons r rs ih =>
    unfold events_loop
    by_cases hgt : r.match_length > n
    · simp only [hgt, if_true, ih]
    · have hm : memcmp_eq (msg.take n) r.ibusmsg r.match_length
          = memcmp_eq msg r.ibusmsg r.match_length := by
        unfold memcmp_eq
        rw [List.take_take, Nat.min_eq_left (by omega)]
      simp only [hgt, if_false, hm, ih, fire_event_take]

/-- The dispatcher reads only the `n` bytes of the frame it is given. -/
theorem ibus_handle_message_take (CTRL_BIT : Nat) (msg : List Nat) (n : Nat) (s : Ibus)
    (hn : 1 ≤ n) :
    ibus_handle_message CTRL_BIT (msg.take n) n s = ibus_handle_message CTRL_BIT msg n s := by
  have hh : handle_message_head (msg.take n) n s = handle_message_head msg n s := by
    unfold handle_message_head
    simp only [is_cdc_message_take, good_checksum_take msg n hn, List.take_take,
      Nat.min_self, getD_take msg n 0 (by omega)]
    rfl
  unfold ibus_handle_message
  simp only [hh, events_loop_take]

/-- While the specification-level assembler completes no frame, a gap-free
run performs no effect at all. -/
theorem feed_quiet (CTRL_BIT : Nat) (es rest : List (Nat × Nat)) (s : Ibus)
    (acc : List Nat) (hinv : buffer_holds s acc)
    (hgap : no_gap s.last_byte (es ++ rest) = true)
    (hnone : (assemble acc (es.map Prod.snd)).1 = []) :
    (feed CTRL_BIT es s).2 = [] := by
  induction es generalizing s acc with
  | nil => rfl
  | cons e es ih =>
    simp only [List.cons_append, no_gap, Bool.and_eq_true, decide_eq_true_eq] at hgap
    obtain ⟨hg, hrest⟩ := hgap
    simp only [List.map_cons, assemble] at hnone
    simp only [feed, ibus_read_single]
    cases hc : frame_complete (acc ++ [e.2]) with
    | true => simp [hc] at hnone
    | false =>
      obtain ⟨heq, hinv2, hlast⟩ := read_byte_pending CTRL_BIT s acc e.1 e.2 hinv hg hc
      simp only [hc, Bool.false_eq_true, if_false] at hnone
      have h := ih (ibus_read_store e.1 e.2 s) (acc ++ [e.2]) hinv2
        (by rw [hlast]; exact hrest) hnone
      simp only [heq, List.nil_append, h]

/-- Dispatch of the scenario A frame: logged as corrupt, counted as a radio
frame, matched by no rule, handed to `ibus_remove_from_queue`. -/
theorem scenario_A_dispatch (CTRL_BIT : Nat) (s : Ibus) :
    ibus_handle_message CTRL_BIT scenario_A 14 s =
      ({ s with radio_msgs := s.radio_msgs + 1 },
        [Effect.ibus_log "", Effect.dump_hex scenario_A true,
          Effect.ibus_remove_from_queue scenario_A 14]) := by
  have hck : ibus_good_checksum scenario_A 14 = false := by decide
  have hcdc : is_cdc_message scenario_A 14 = (false, []) := by decide
  have hloop : events_loop (events CTRL_BIT) scenario_A 14 { s with radio_msgs := s.radio_msgs + 1 }
      = ({ s with radio_msgs := s.radio_msgs + 1 },
          [Effect.ibus_remove_from_queue scenario_A 14]) := by
    simp [events_loop, events, memcmp_eq, scenario_A]
  have hhead : handle_message_head scenario_A 14 s =
      ({ s with radio_msgs := s.radio_msgs + 1 },
        [Effect.ibus_log "", Effect.dump_hex scenario_A true]) := by
    unfold handle_message_head
    rw [hck, hcdc]
    simp [scenario_A]
  unfold ibus_handle_message
  rw [hhead]
  simp only [hloop, List.cons_append, List.nil_append]

/-- C2 as stated fails: `ibus_good_checksum` returns FALSE on the 14-byte
frame of scenario A (the XOR of its first 13 bytes is 0x88, its last byte
0x78), and the run logs the frame as corrupt. -/
theorem C2_scenario_A_checksum_fails :
    ibus_good_checksum scenario_A 14 = false ∧
    xor_fold (scenario_A.take 13) = 0x88 ∧
    Effect.dump_hex scenario_A true ∈ (feed 0 scenario_A_run ibus_initial).2 := by
  refine ⟨by decide, by decide, ?_⟩
  decide

/-- C2 (amended): feeding the 14 bytes of scenario A one at a time, without
resync gap, into an empty buffer produces no effect during the first 13
bytes; the 14th byte completes exactly one frame, the 14 bytes themselves;
`ibus_good_checksum` returns FALSE for it, so it is logged as corrupt; no
entry of `events` matches it and it is handed to `ibus_remove_from_queue`;
the buffer is empty afterwards. -/
theorem C2_scenario_A (CTRL_BIT : Nat) (s0 : Ibus) (es : List (Nat × Nat))
    (hes : es.map Prod.snd = scenario_A) (hlen : s0.buf.length = 64) (h0 : s0.bufPos = 0)
    (hgap : no_gap s0.last_byte es = true) :
    (feed CTRL_BIT (es.take 13) s0).2 = [] ∧
    (feed CTRL_BIT es s0).2 =
      [Effect.ibus_log "", Effect.dump_hex scenario_A true,
        Effect.ibus_remove_from_queue scenario_A 14] ∧
    frames_handed (feed CTRL_BIT es s0).2 = [scenario_A] ∧
    ibus_good_checksum scenario_A 14 = false ∧
    (feed CTRL_BIT es s0).1.bufPos = 0 := by
  have hsplit : es = es.take 13 ++ es.drop 13 := (List.take_append_drop 13 es).symm
  have hpre : (es.take 13).map Prod.snd = scenario_A.take 13 := by
    rw [List.map_take, hes]
  have hpost : (es.drop 13).map Prod.snd = [0x78] := by
    rw [List.map_drop, hes]; rfl
  obtain ⟨e, he⟩ : ∃ e, es.drop 13 = [e] := by
    have h1 : (es.drop 13).length = 1 := by
      have := congrArg List.length hpost
      simpa using this
    exact List.length_eq_one.1 h1
  have he2 : e.2 = 0x78 := by
    rw [he] at hpost
    simpa using hpost
  rw [he] at hsplit
  have hgap2 : no_gap s0.last_byte (es.take 13 ++ [e]) = true := by
    rw [← hsplit]; exact hgap
  have hinv0 := buffer_holds_nil s0 hlen h0
  have hasm : assemble [] (scenario_A.take 13) = ([], scenario_A.take 13) := by decide
  obtain ⟨_, hinv, hg⟩ := feed_refines CTRL_BIT (es.take 13) [e] s0 [] hinv0 hgap2
  have hq := feed_quiet CTRL_BIT (es.take 13) [e] s0 [] hinv0 hgap2 (by rw [hpre, hasm])
  rw [hpre, hasm] at hinv
  simp only [no_gap, Bool.and_true, decide_eq_true_eq] at hg
  have hc : frame_complete (scenario_A.take 13 ++ [e.2]) = true := by
    rw [he2]; decide
  obtain ⟨h1, h2, _, h4, _, _⟩ :=
    read_byte_complete CTRL_BIT _ _ e.1 e.2 hinv hg hc
  have hacc : scenario_A.take 13 ++ [e.2] = scenario_A := by
    rw [he2]; rfl
  rw [hacc] at h1 h2
  have hl : scenario_A.length = 14 := rfl
  rw [hl] at h1 h2
  rw [← ibus_handle_message_take CTRL_BIT _ 14 _ (by omega), h2, scenario_A_dispatch] at h1
  have hfeed : feed CTRL_BIT es s0 =
      ((ibus_read_byte CTRL_BIT e.1 e.2 (feed CTRL_BIT (es.take 13) s0).1).1,
        (ibus_read_byte CTRL_BIT e.1 e.2 (feed CTRL_BIT (es.take 13) s0).1).2) := by
    conv_lhs => rw [hsplit]
    rw [feed_append, hq]
    simp [feed, ibus_read_single]
  refine ⟨hq, ?_, ?_, by decide, ?_⟩
  · rw [hfeed]; exact h1
  · rw [hfeed]
    simp only [h1]
    rfl
  · rw [hfeed]; exact h4

theorem C2_scenario_A_witness :
    (feed 0 scenario_A_run ibus_initial).2 =
      [Effect.ibus_log "", Effect.dump_hex scenario_A true,
        Effect.ibus_remove_from_queue scenario_A 14] :=
  (C2_scenario_A 0 ibus_initial scenario_A_run (by decide) (by decide) (by decide)
    (by decide)).2.1

/-! ## Dispatch priority -/

theorem fire_event_eq (r : EventRule) (msg : List Nat) (length : Nat) (s : Ibus) :
    fire_event r msg length s = (rule_state r msg length s, rule_effects r msg length s) := by
  unfold fire_event rule_state rule_effects
  cases r.function <;> simp

theorem events_loop_skip (r : EventRule) (rs : List EventRule) (msg : List Nat)
    (length : Nat) (s : Ibus) (h : rule_matches r msg length = false) :
    events_loop (r :: rs) msg length s = events_loop rs msg length s := by
  unfold rule_matches at h
  rw [events_loop]
  by_cases hgt : r.match_length > length
  · simp only [hgt, if_true]
  · have hle : r.match_length ≤ length := by omega
    simp only [hle, decide_True, Bool.true_and, decide_eq_false_iff_not] at h
    have hm : memcmp_eq msg r.ibusmsg r.match_length = false := by
      unfold memcmp_eq
      simpa using h
    simp only [hgt, if_false, hm, Bool.false_eq_true]

theorem events_loop_hit (r : EventRule) (rs : List EventRule) (msg : List Nat)
    (length : Nat) (s : Ibus) (h : rule_matches r msg length = true) :
    events_loop (r :: rs) msg length s = fire_event r msg length s := by
  unfold rule_matches at h
  simp only [Bool.and_eq_true, decide_eq_true_eq] at h
  rw [events_loop]
  have hgt : ¬ r.match_length > length := by omega
  have hm : memcmp_eq msg r.ibusmsg r.match_length = true := by
    unfold memcmp_eq
    simpa using h.2
  simp only [hgt, if_false, hm, if_true]

theorem events_loop_first (rs : List EventRule) (msg : List Nat) (length : Nat) (s : Ibus)
    (i : Nat) (r : EventRule) (h : first_match rs msg length i r) :
    events_loop rs msg length s = fire_event r msg length s := by
  induction rs generalizing i with
  | nil =>
    obtain ⟨h1, _, _⟩ := h
    simp at h1
  | cons a rs ih =>
    obtain ⟨h1, h2, h3⟩ := h
    cases i with
    | zero =>
      simp only [List.getElem?_cons_zero, Option.some.injEq] at h1
      subst h1
      exact events_loop_hit a rs msg length s h2
    | succ i =>
      rw [events_loop_skip a rs msg length s (h3 0 a (by omega) (by simp))]
      apply ih i
      refine ⟨by simpa using h1, h2, ?_⟩
      intro j r' hj hr'
      exact h3 (j + 1) r' (by omega) (by simpa using hr')

theorem events_loop_none (rs : List EventRule) (msg : List Nat) (length : Nat) (s : Ibus)
    (h : ∀ r ∈ rs, rule_matches r msg length = false) :
    events_loop rs msg length s =
      (s, [Effect.ibus_remove_from_queue (msg.take length) length]) := by
  induction rs with
  | nil => rfl
  | cons a rs ih =>
    rw [events_loop_skip a rs msg length s (h a (by simp))]
    exact ih (fun r hr => h r (by simp [hr]))

theorem first_match_or_none (rs : List EventRule) (msg : List Nat) (length : Nat) :
    (∃ i r, first_match rs msg length i r) ∨ (∀ r ∈ rs, rule_matches r msg length = false) := by
  induction rs with
  | nil => right; simp
  | cons a rs ih =>
    cases ha : rule_matches a msg length with
    | true =>
      left
      exact ⟨0, a, by simp, ha, fun j r' hj _ => absurd hj (by omega)⟩
    | false =>
      rcases ih with ⟨i, r, h1, h2, h3⟩ | hnone
      · left
        refine ⟨i + 1, r, by simpa using h1, h2, ?_⟩
        intro j r' hj hr'
        cases j with
        | zero =>
          simp only [List.getElem?_cons_zero, Option.some.injEq] at hr'
          subst hr'
          exact ha
        | succ j => exact h3 j r' (by omega) (by simpa using hr')
      · right
        intro r hr
        rcases List.mem_cons.1 hr with h | h
        · subst h; exact ha
        · exact hnone r h

/-- The dispatcher when some entry is the first match. -/
theorem handle_message_first (CTRL_BIT : Nat) (msg : List Nat) (length : Nat) (s : Ibus)
    (i : Nat) (r : EventRule) (h : first_match (events CTRL_BIT) msg length i r) :
    ibus_handle_message CTRL_BIT msg length s =
      (rule_state r msg length (handle_message_head msg length s).1,
        (handle_message_head msg length s).2 ++
          rule_effects r msg length (handle_message_head msg length s).1) := by
  unfold ibus_handle_message
  simp only [events_loop_first _ _ _ _ i r h, fire_event_eq]

/-- The dispatcher when no entry matches. -/
theorem handle_message_none (CTRL_BIT : Nat) (msg : List Nat) (length : Nat) (s : Ibus)
    (h : ∀ r ∈ events CTRL_BIT, rule_matches r msg length = false) :
    ibus_handle_message CTRL_BIT msg length s =
      ((handle_message_head msg length s).1,
        (handle_message_head msg length s).2 ++
          [Effect.ibus_remove_from_queue (msg.take length) length]) := by
  unfold ibus_handle_message
  simp only [events_loop_none _ _ _ _ h]

/-- C5: for every frame, with `h` the state and output of the statements
before the table scan: if the entry at index `i` is the first in table order
whose `match_length` is at most the frame length and whose first
`match_length` pattern bytes equal those of the frame, the result is that
of this one rule (key event unless the keyboard is blocked, log line, shell
command if present, handler if present) and of no later rule; if no entry
matches, no rule effect occurs and the frame goes to
`ibus_remove_from_queue`; one of the two cases always applies. -/
theorem C5_dispatch_priority (CTRL_BIT : Nat) (msg : List Nat) (length : Nat) (s : Ibus) :
    (∀ i r, first_match (events CTRL_BIT) msg length i r →
      ibus_handle_message CTRL_BIT msg length s =
        (rule_state r msg length (handle_message_head msg length s).1,
          (handle_message_head msg length s).2 ++
            rule_effects r msg length (handle_message_head msg length s).1)) ∧
    ((∀ r ∈ events CTRL_BIT, rule_matches r msg length = false) →
      ibus_handle_message CTRL_BIT msg length s =
        ((handle_message_head msg length s).1,
          (handle_message_head msg length s).2 ++
            [Effect.ibus_remove_from_queue (msg.take length) length])) ∧
    ((∃ i r, first_match (events CTRL_BIT) msg length i r) ∨
      (∀ r ∈ events CTRL_BIT, rule_matches r msg length = false)) := by
  exact ⟨fun i r h => handle_message_first CTRL_BIT msg length s i r h,
    fun h => handle_message_none CTRL_BIT msg length s h, first_match_or_none _ _ _⟩

theorem C5_dispatch_priority_witness :
    ibus_handle_message 0 [0xF0, 0x04, 0x68, 0x48, 0x00, 0xD4] 6 ibus_unblocked =
      ({ ibus_unblocked with playing := true },
        [Effect.ibus_log "", Effect.dump_hex [0xF0, 0x04, 0x68, 0x48, 0x00, 0xD4] false,
          Effect.keyboard_generate KEY_DOT, Effect.ibus_log "ibus event: cd-next",
          Effect.ibus_send (-1) start_playing 12 0]) :=
  (C5_dispatch_priority 0 [0xF0, 0x04, 0x68, 0x48, 0x00, 0xD4] 6 ibus_unblocked).1 13
    ⟨6, [0xF0, 0x04, 0x68, 0x48, 0x00, 0xD4], "cd-next", none, KEY_DOT,
      some Handler.cdchanger_handle_start⟩
    ⟨by decide, by decide, by
      intro j r' hj h
      interval_cases j <;> simp [events] at h <;> subst h <;> decide⟩

/-! ## The rotary gesture -/

theorem key_events_append (a b : List Effect) :
    key_events (a ++ b) = key_events a ++ key_events b := by
  simp [key_events, List.filterMap_append]

theorem key_events_replicate (n k : Nat) :
    key_events (List.replicate n (Effect.keyboard_generate k)) = List.replicate n k := by
  induction n with
  | zero => rfl
  | succ n ih =>
    rw [List.replicate_succ, List.replicate_succ]
    have h : key_events (Effect.keyboard_generate k :: List.replicate n (Effect.keyboard_generate k))
        = k :: key_events (List.replicate n (Effect.keyboard_generate k)) := rfl
    rw [h, ih]

theorem rotary_first_match (CTRL_BIT : Nat) (msg : List Nat) (length : Nat)
    (hlen : 5 ≤ length) (hpre : msg.take 4 = [0xF0, 0x04, 0x3B, 0x49]) :
    first_match (events CTRL_BIT) msg length 3
      ⟨4, [0xF0, 0x04, 0x3B, 0x49], "rotary", none, 0, some Handler.ibus_handle_rotary⟩ := by
  refine ⟨rfl, ?_, ?_⟩
  · unfold rule_matches
    simp only [Bool.and_eq_true, decide_eq_true_eq]
    exact ⟨by omega, by rw [hpre]; rfl⟩
  · intro j r' hj hr'
    have hno : ∀ (k : Nat) (pat : List Nat), 4 ≤ k →
        (pat.take k).take 4 ≠ [0xF0, 0x04, 0x3B, 0x49] → msg.take k ≠ pat.take k := by
      intro k pat hk hne heq
      apply hne
      rw [← heq, List.take_take, Nat.min_eq_left hk, hpre]
    unfold rule_matches
    interval_cases j <;> simp [events] at hr' <;> subst hr' <;>
      simp only [Bool.and_eq_false_iff, decide_eq_false_iff_not] <;> right <;>
      exact hno _ _ (by decide) (by decide)

theorem rotary_head (msg : List Nat) (length : Nat) (s : Ibus)
    (hpre : msg.take 4 = [0xF0, 0x04, 0x3B, 0x49]) :
    handle_message_head msg length s =
      (s, [Effect.ibus_log "",
        Effect.dump_hex (msg.take length) (!ibus_good_checksum msg length)]) := by
  have h0 : msg.getD 0 0 = 0xF0 := by
    rw [← getD_take msg 4 0 (by omega), hpre]; rfl
  have h0' : msg[0]?.getD 0 = 0xF0 := by
    rw [← List.getD_eq_getElem?_getD]; exact h0
  have hcdc : is_cdc_message msg length = (false, []) := by
    unfold is_cdc_message
    simp [h0']
  unfold handle_message_head
  rw [hcdc]
  simp [h0']

/-- C6: a frame of length at least 5 that begins `F0 04 3B 49`, dispatched
in state `s`, emits as its keyboard events: nothing while
`keyboard_blocked` is true; otherwise `msg[4] & 0x0F` times `KEY_UP` when
`msg[4] & 0xF0` is 0x80, `msg[4] & 0x0F` times `KEY_DOWN` when it is 0x00,
nothing for any other value. The frame `F0 04 3B 49 82 04` with the keyboard
unblocked yields its log lines and exactly two `KEY_UP` events. -/
theorem C6_rotary_gesture (CTRL_BIT : Nat) (msg : List Nat) (length : Nat) (s : Ibus)
    (hlen : 5 ≤ length) (hpre : msg.take 4 = [0xF0, 0x04, 0x3B, 0x49]) :
    key_events (ibus_handle_message CTRL_BIT msg length s).2 =
      (if s.keyboard_blocked = true then []
       else if msg.getD 4 0 &&& 0xF0 = 0x80 then List.replicate (msg.getD 4 0 &&& 0x0F) KEY_UP
       else if msg.getD 4 0 &&& 0xF0 = 0x00 then List.replicate (msg.getD 4 0 &&& 0x0F) KEY_DOWN
       else []) ∧
    (s.keyboard_blocked = false →
      (ibus_handle_message CTRL_BIT rotary_frame 6 s).2 =
        [Effect.ibus_log "", Effect.dump_hex rotary_frame false,
          Effect.ibus_log "ibus event: rotary",
          Effect.keyboard_generate KEY_UP, Effect.keyboard_generate KEY_UP]) := by
  have hgen : ∀ (m : List Nat) (n : Nat), 5 ≤ n → m.take 4 = [0xF0, 0x04, 0x3B, 0x49] →
      (ibus_handle_message CTRL_BIT m n s).2 =
        [Effect.ibus_log "", Effect.dump_hex (m.take n) (!ibus_good_checksum m n),
          Effect.ibus_log "ibus event: rotary"] ++ (ibus_handle_rotary m n s).2 := by
    intro m n hn hm
    rw [handle_message_first CTRL_BIT m n s 3 _ (rotary_first_match CTRL_BIT m n hn hm),
      rotary_head m n s hm]
    simp [rule_effects, call_handler]
  constructor
  · rw [hgen msg length hlen hpre, key_events_append]
    have hk : key_events [Effect.ibus_log "",
        Effect.dump_hex (msg.take length) (!ibus_good_checksum msg length),
        Effect.ibus_log "ibus event: rotary"] = [] := rfl
    rw [hk, List.nil_append]
    unfold ibus_handle_rotary
    have h5 : ¬ length < 5 := by omega
    cases hb : s.keyboard_blocked with
    | true => simp [key_events]
    | false =>
      simp only [h5, false_or, Bool.false_eq_true, if_false]
      split_ifs <;> simp [key_events_replicate, key_events]
  · intro hb
    rw [hgen rotary_frame 6 (by omega) rfl]
    have hck : ibus_good_checksum rotary_frame 6 = true := by decide
    have hrot : ibus_handle_rotary rotary_frame 6 s =
        (s, [Effect.keyboard_generate KEY_UP, Effect.keyboard_generate KEY_UP]) := by
      unfold ibus_handle_rotary
      have h1 : ¬ (6 < 5 ∨ s.keyboard_blocked = true) := by simp [hb]
      have h2 : rotary_frame.getD 4 0 &&& 0xF0 = 0x80 := by decide
      have h3 : rotary_frame.getD 4 0 &&& 0x0F = 2 := by decide
      simp only [h1, h2, h3, if_true, if_false]
      rfl
    rw [hck, hrot]
    rfl

theorem C6_rotary_gesture_witness :
    key_events (ibus_handle_message 0 rotary_frame 6 ibus_unblocked).2 = [KEY_UP, KEY_UP] :=
  (C6_rotary_gesture 0 rotary_frame 6 ibus_unblocked (by decide) (by decide)).1

/-! ## The transmit window -/

theorem announce_cdc_window (s : Ibus) :
    (announce_cdc s).1.send_window_open = s.send_window_open ∧
    (announce_cdc s).1.bufPos = s.bufPos ∧
    (announce_cdc s).1.gpio_number = s.gpio_number := by
  unfold announce_cdc
  split_ifs <;> simp

/-- What a tick does to the transmit window: it opens it exactly when line
monitoring is on, the window is closed and no frame is in progress; it never
closes it. No count of ticks or of elapsed time enters. -/
theorem tick_window (now : Nat) (s : Ibus) :
    (ibus_tick now s).1.send_window_open =
      (if s.gpio_number > 0 ∧ s.send_window_open = false ∧ s.bufPos = 0 then true
       else s.send_window_open) := by
  have ha := announce_cdc_window s
  unfold ibus_tick
  by_cases h600 : s.tick_j + 1 ≥ 600 <;> by_cases hmk : s.mk3_announce = true <;>
    by_cases hg : s.gpio_number > 0 <;>
    by_cases hw : s.send_window_open = false <;>
    by_cases hp : s.bufPos = 0 <;>
    simp [h600, hmk, hg, hw, hp, ha.1, ha.2.1, ha.2.2]

/-- C7 as worded does not hold: with line monitoring on, after the complete
frame of scenario B (last byte at 70 ms) the window flag is false and no
frame is in progress; the first tick, at 71 ms, sets the flag, one tick and
1 ms after the last received byte. That tick hands `ibus_service_queue` the
value FALSE, the flag as it was on entry. -/
theorem C7_window_opens_after_one_tick :
    (feed 0 scenario_B_run ibus_monitoring).1.send_window_open = false ∧
    (feed 0 scenario_B_run ibus_monitoring).1.last_byte = 70 ∧
    (feed 0 scenario_B_run ibus_monitoring).1.bufPos = 0 ∧
    (ibus_tick 71 (feed 0 scenario_B_run ibus_monitoring).1).1.send_window_open = true ∧
    queue_services (ibus_tick 71 (feed 0 scenario_B_run ibus_monitoring).1).2 = [false] := by
  decide

/-! ## Clock harvesting -/

/-- C8 fails on the code at noon: for the text `12:08PM` the handler
stores `24:08`, not the 24-hour time `12:08`, because it adds 12 to every
hour that carries the PM marker. For `04:08PM` and ` 4:08PM` it stores
`16:08`. -/
theorem C8_noon_stored_as_24 :
    (ibus_handle_time time_frame_1208PM 14 ibus_initial).1.hhmm = ascii "24:08" ∧
    (ibus_handle_time time_frame_1208PM 14 ibus_initial).1.have_time = true ∧
    (ibus_handle_time time_frame_1208PM 14 ibus_initial).1.hhmm ≠
      fmt_02d (pm_hour 12) ++ ascii ":08" ∧
    ibus_good_checksum time_frame_1208PM 14 = true ∧
    (ibus_handle_time time_frame_0408PM 14 ibus_initial).1.hhmm = ascii "16:08" ∧
    (ibus_handle_time time_frame_408PM 14 ibus_initial).1.hhmm = ascii "16:08" := by
  decide

theorem clock_run_append (cs ds : List ClockCall) (s : Ibus) :
    clock_run (cs ++ ds) s =
      ((clock_run ds (clock_run cs s).1).1,
        (clock_run cs s).2 ++ (clock_run ds (clock_run cs s).1).2) := by
  induction cs generalizing s with
  | nil => simp [clock_run]
  | cons c cs ih => simp [clock_run, ih, List.append_assoc]

/-- C10: handling a CD-changer poll request in any state (so in every state
with `cd_polled = false`) transmits exactly one frame, the six bytes
`18 04 FF 02 00 E1`, sets `cd_polled` and changes no other field;
afterwards, and in every state in which `cd_polled` is set, `announce_cdc`
transmits nothing and changes nothing. -/
theorem C10_poll_response (msg : List Nat) (length : Nat) (s : Ibus) :
    cdchanger_handle_poll msg length s =
      ({ s with cd_polled := true },
        [Effect.ibus_send s.ifd [0x18, 0x04, 0xFF, 0x02, 0x00, 0xE1] 6 s.gpio_number]) ∧
    announce_cdc (cdchanger_handle_poll msg length s).1 =
      ((cdchanger_handle_poll msg length s).1, []) ∧
    (∀ s' : Ibus, s'.cd_polled = true → announce_cdc s' = (s', [])) := by
  refine ⟨rfl, ?_, ?_⟩
  · simp [announce_cdc, cdchanger_handle_poll]
  · intro s' h
    simp [announce_cdc, h]

theorem C10_poll_response_witness :
    announce_cdc { ibus_initial with cd_polled := true, radio_msgs := 3 } =
      ({ ibus_initial with cd_polled := true, radio_msgs := 3 }, []) :=
  (C10_poll_response scenario_B 7 ibus_initial).2.2
    { ibus_initial with cd_polled := true, radio_msgs := 3 } rfl

theorem getD_of_drop (msg : List Nat) (n k : Nat) :
    msg.getD (n + k) 0 = (msg.drop n).getD k 0 := by
  rw [List.getD_eq_getElem?_getD, List.getD_eq_getElem?_getD, List.getElem?_drop]

/-- What does hold of the PM conversion: for the hours 1 to 11, written with
a leading blank, a leading zero or two digits, the stored text is the
24-hour time. -/
theorem handle_time_pm_before_noon (msg : List Nat) (length : Nat) (s : Ibus)
    (h a b m1 m2 : Nat) (rest : List Nat) (hl : length > 12) (ht : s.have_time = false)
    (hmsg : msg.drop 6 = [a, b, 58, m1, m2, 80] ++ rest) (h1 : 1 ≤ h) (h11 : h ≤ 11)
    (henc : ((a = 32 ∨ a = 48) ∧ h < 10 ∧ b = 48 + h) ∨ (a = 49 ∧ 10 ≤ h ∧ b = 38 + h)) :
    (ibus_handle_time msg length s).1.hhmm = fmt_02d (pm_hour h) ++ [58, m1, m2] ∧
    (ibus_handle_time msg length s).1.have_time = true := by
  have g9 : msg.getD 9 0 = m1 := by rw [getD_of_drop msg 6 3, hmsg]; rfl
  have g10 : msg.getD 10 0 = m2 := by rw [getD_of_drop msg 6 4, hmsg]; rfl
  have g11 : msg.getD 11 0 = 80 := by rw [getD_of_drop msg 6 5, hmsg]; rfl
  have hat : atoi (msg.drop 6) = (h : Int) := by
    rw [hmsg]
    rcases henc with ⟨ha, h10, hb⟩ | ⟨ha, h10, hb⟩
    · rcases ha with ha | ha <;> subst ha <;> subst hb <;> interval_cases h <;> rfl
    · subst ha; subst hb; interval_cases h <;> rfl
  have hfmt : (fmt_02d ((h : Int) + 12)).length = 2 ∧
      fmt_02d ((h : Int) + 12) = fmt_02d (pm_hour h) := by
    interval_cases h <;> exact ⟨rfl, rfl⟩
  unfold ibus_handle_time
  simp only [hl, ht, and_self, if_true, g9, g10, g11, hat]
  refine ⟨?_, trivial⟩
  rw [← hfmt.2]
  apply List.take_of_length_le
  simp [hfmt.1]

/-! ## Stop, pause, start -/

/-- C11: in every state each of `cdchanger_handle_stop`,
`cdchanger_handle_pause` and `cdchanger_handle_start` transmits exactly one
frame, its 12-byte status frame (`not_playing`, `pause_playing`,
`start_playing`), sets `playing` to false, false, true and changes no other
field; the three frames are the arrays of the source. -/
theorem C11_stop_pause_start (msg : List Nat) (length : Nat) (s : Ibus) :
    cdchanger_handle_stop msg length s =
      ({ s with playing := false }, [Effect.ibus_send s.ifd not_playing 12 s.gpio_number]) ∧
    cdchanger_handle_pause msg length s =
      ({ s with playing := false }, [Effect.ibus_send s.ifd pause_playing 12 s.gpio_number]) ∧
    cdchanger_handle_start msg length s =
      ({ s with playing := true }, [Effect.ibus_send s.ifd start_playing 12 s.gpio_number]) ∧
    frames_sent (cdchanger_handle_stop msg length s).2 =
      [[0x18, 0x0a, 0x68, 0x39, 0x00, 0x02, 0x00, 0x01, 0x00, 0x01, 0x04, 0x45]] ∧
    frames_sent (cdchanger_handle_pause msg length s).2 =
      [[0x18, 0x0a, 0x68, 0x39, 0x01, 0x0c, 0x00, 0x01, 0x00, 0x01, 0x04, 0x4a]] ∧
    frames_sent (cdchanger_handle_start msg length s).2 =
      [[0x18, 0x0a, 0x68, 0x39, 0x02, 0x09, 0x00, 0x01, 0x00, 0x01, 0x04, 0x4c]] :=
  ⟨rfl, rfl, rfl, rfl, rfl, rfl⟩

/-! ## Outside key, tone key, phone button -/

/-- C14 as stated fails: on hardware revision 0 with the keyboard unblocked,
`ibus_handle_tonekey` changes nothing, so `keyboard_blocked` is still false
after it ran. -/
theorem C14_tonekey_below_rev4_does_nothing :
    ibus_unblocked.hw_version = 0 ∧
    ibus_handle_tonekey scenario_B 7 ibus_unblocked = (ibus_unblocked, []) ∧
    (ibus_handle_tonekey scenario_B 7 ibus_unblocked).1.keyboard_blocked = false := by
  decide

/-- C14 (amended): after `ibus_handle_outsidekey` `keyboard_blocked` is true
on every hardware revision; from revision 4 on, `ibus_handle_outsidekey` and
`ibus_handle_tonekey` both block the keyboard, reset `videoSource` to BMW and
write relay = 0, pin17 = 0, changing nothing else; below revision 4
`ibus_handle_outsidekey` only blocks the keyboard and writes no output, and
`ibus_handle_tonekey` changes nothing at all. -/
theorem C14_outside_and_tone_key (msg : List Nat) (length : Nat) (s : Ibus) :
    (ibus_handle_outsidekey msg length s).1.keyboard_blocked = true ∧
    (s.hw_version ≥ 4 →
      ibus_handle_outsidekey msg length s =
        ({ s with keyboard_blocked := true, videoSource := VIDEO_SRC_BMW },
          [Effect.gpio_write GPIO_RELAY_CTL 0, Effect.gpio_write GPIO_PIN17_CTL 0]) ∧
      ibus_handle_tonekey msg length s = ibus_handle_outsidekey msg length s) ∧
    (s.hw_version < 4 →
      ibus_handle_outsidekey msg length s = ({ s with keyboard_blocked := true }, []) ∧
      ibus_handle_tonekey msg length s = (s, [])) := by
  refine ⟨?_, ?_, ?_⟩
  · unfold ibus_handle_outsidekey
    split_ifs <;> rfl
  · intro h
    simp [ibus_handle_outsidekey, ibus_handle_tonekey, h, ibus_set_video]
  · intro h
    have h' : ¬ s.hw_version ≥ 4 := by omega
    simp [ibus_handle_outsidekey, ibus_handle_tonekey, h']

theorem C14_outside_and_tone_key_witness :
    ibus_handle_tonekey scenario_B 7 ibus_rev4 =
      ibus_handle_outsidekey scenario_B 7 ibus_rev4 :=
  ((C14_outside_and_tone_key scenario_B 7 ibus_rev4).2.1 (by decide)).2

/-- C16: with hardware revision 4 or more and no bluetooth, a phone-button
press moves `videoSource` one step along BMW, PI, CAMERA, BMW and writes the
pair (relay, pin17) of the new source, (0,1) for PI, (1,1) for CAMERA, (0,0)
for BMW, changing nothing else; three presses from any of the three sources
give back the original state. With bluetooth or below revision 4 a press
changes nothing and writes nothing. -/
theorem C16_video_source_cycling (msg : List Nat) (length : Nat) (s : Ibus) :
    (s.hw_version ≥ 4 → s.bluetooth = false →
      (s.videoSource = VIDEO_SRC_BMW →
        ibus_handle_phone msg length s =
          ({ s with videoSource := VIDEO_SRC_PI },
            [Effect.gpio_write GPIO_RELAY_CTL 0, Effect.gpio_write GPIO_PIN17_CTL 1])) ∧
      (s.videoSource = VIDEO_SRC_PI →
        ibus_handle_phone msg length s =
          ({ s with videoSource := VIDEO_SRC_CAMERA },
            [Effect.gpio_write GPIO_RELAY_CTL 1, Effect.gpio_write GPIO_PIN17_CTL 1])) ∧
      (s.videoSource = VIDEO_SRC_CAMERA →
        ibus_handle_phone msg length s =
          ({ s with videoSource := VIDEO_SRC_BMW },
            [Effect.gpio_write GPIO_RELAY_CTL 0, Effect.gpio_write GPIO_PIN17_CTL 0])) ∧
      (s.videoSource ≤ VIDEO_SRC_LAST →
        (ibus_handle_phone msg length
          (ibus_handle_phone msg length (ibus_handle_phone msg length s).1).1).1 = s)) ∧
    ((s.bluetooth = true ∨ s.hw_version < 4) → ibus_handle_phone msg length s = (s, [])) := by
  constructor
  · intro hv hb
    refine ⟨?_, ?_, ?_, ?_⟩
    · intro h
      simp [ibus_handle_phone, hv, hb, h, ibus_set_video, VIDEO_SRC_BMW, VIDEO_SRC_PI,
        VIDEO_SRC_LAST]
    · intro h
      simp [ibus_handle_phone, hv, hb, h, ibus_set_video, VIDEO_SRC_BMW, VIDEO_SRC_PI,
        VIDEO_SRC_CAMERA, VIDEO_SRC_LAST]
    · intro h
      simp [ibus_handle_phone, hv, hb, h, ibus_set_video, VIDEO_SRC_BMW,
        VIDEO_SRC_CAMERA, VIDEO_SRC_LAST]
    · intro h
      unfold VIDEO_SRC_LAST at h
      obtain ⟨f1, f2, f3, f4, f5, f6, f7, f8, f9, f10, f11, f12, f13, f14, f15, f16, f17,
        f18, v, f20, f21, f22, f23, f24⟩ := s
      simp only at hv hb h
      subst hb
      interval_cases v <;> simp [ibus_handle_phone, hv, VIDEO_SRC_LAST]
  · intro h
    have h' : ¬ (s.hw_version ≥ 4 ∧ s.bluetooth = false) := by
      rcases h with h | h
      · simp [h]
      · omega
    simp [ibus_handle_phone, h']

theorem C16_video_source_cycling_witness :
    (ibus_handle_phone scenario_B 7
      (ibus_handle_phone scenario_B 7 (ibus_handle_phone scenario_B 7 ibus_rev4).1).1).1
      = ibus_rev4 :=
  ((C16_video_source_cycling scenario_B 7 ibus_rev4).1 (by decide) (by decide)).2.2.2
    (by decide)

/-! ## Date harvesting -/

/-- C19 fails on the code: for the sample frame of the source comment, text
`01/26/2010` broadcast on 26 January 2010, `ibus_handle_date` sets
`have_date` and stores `2010-26-01` (year, then the digits at offsets 9-10,
then those at offsets 6-7), not `2010-01-26`. -/
theorem C19_sample_date_stored_day_before_month :
    (ibus_handle_date date_frame_sample 17 ibus_initial).1.have_date = true ∧
    (ibus_handle_date date_frame_sample 17 ibus_initial).1.yyyymmdd = ascii "2010-26-01" ∧
    (ibus_handle_date date_frame_sample 17 ibus_initial).1.yyyymmdd ≠ ascii "2010-01-26" ∧
    ibus_good_checksum date_frame_sample 17 = true := by
  decide

/-- What `ibus_handle_date` stores in general: the bytes at offsets 12 to
15, a dash, those at offsets 9 and 10, a dash, those at offsets 6 and 7. -/
theorem handle_date_stores (msg : List Nat) (length : Nat) (s : Ibus) (hl : length > 15)
    (hd : s.have_date = false) :
    (ibus_handle_date msg length s).1.have_date = true ∧
    (ibus_handle_date msg length s).1.yyyymmdd =
      [msg.getD 12 0, msg.getD 13 0, msg.getD 14 0, msg.getD 15 0, 45,
        msg.getD 9 0, msg.getD 10 0, 45, msg.getD 6 0, msg.getD 7 0] := by
  simp [ibus_handle_date, hl, hd]

/-! ## Wire format of transmitted frames -/

theorem ibus_init_set_ok (bluetooth camera : Bool) :
    wire_ok (Effect.ibus_send 0 (ibus_init_set bluetooth camera) 6 0) = true := by
  cases bluetooth <;> cases camera <;> decide

theorem wire_ok_send (ifd gpio : Int) (data : List Nat) (length : Nat) :
    wire_ok (Effect.ibus_send ifd data length gpio) = wire_ok (Effect.ibus_send 0 data length 0) :=
  rfl

/-- C20: every frame built for transmission obeys the wire format: the time
and date requests, `not_playing`, `start_playing` and `pause_playing`
wherever they are sent (stop, pause, start, info reply, disk change), the
poll reply, the announcement, and the legacy configuration frame of
`ibus_init` for every combination of the bluetooth and camera flags; for
each the number of bytes passed to `ibus_send` is the length byte plus 2
and `ibus_good_checksum` returns TRUE. Below revision 4 `ibus_init` sends
the legacy frame exactly when bluetooth is present or the camera absent. -/
theorem C20_transmitted_frames_wire_format (s : Ibus) (msg : List Nat) (length now : Nat)
    (bluetooth camera mk3 : Bool) (cdc_info_interval gpio_number hw_version : Int) :
    (∀ e ∈ ibus_request_time s, wire_ok e = true) ∧
    (∀ e ∈ ibus_request_date s, wire_ok e = true) ∧
    (∀ e ∈ (cdchanger_handle_stop msg length s).2, wire_ok e = true) ∧
    (∀ e ∈ (cdchanger_handle_pause msg length s).2, wire_ok e = true) ∧
    (∀ e ∈ (cdchanger_handle_start msg length s).2, wire_ok e = true) ∧
    (∀ e ∈ (cdchanger_send_inforeq s).2, wire_ok e = true) ∧
    (∀ e ∈ (cdchanger_handle_diskchange msg length s).2, wire_ok e = true) ∧
    (∀ e ∈ (cdchanger_handle_poll msg length s).2, wire_ok e = true) ∧
    (∀ e ∈ (announce_cdc s).2, wire_ok e = true) ∧
    (∀ e ∈ (ibus_init_configure now bluetooth camera mk3 cdc_info_interval gpio_number
        hw_version s).2, wire_ok e = true) ∧
    (hw_version < 4 →
      frames_sent (ibus_init_configure now bluetooth camera mk3 cdc_info_interval gpio_number
        hw_version s).2 =
        (if bluetooth = true ∨ camera = false then [ibus_init_set bluetooth camera] else [])) ∧
    wire_ok (Effect.ibus_send 0 request_time_frame 7 0) = true ∧
    wire_ok (Effect.ibus_send 0 request_date_frame 7 0) = true ∧
    wire_ok (Effect.ibus_send 0 not_playing 12 0) = true ∧
    wire_ok (Effect.ibus_send 0 start_playing 12 0) = true ∧
    wire_ok (Effect.ibus_send 0 pause_playing 12 0) = true ∧
    wire_ok (Effect.ibus_send 0 cdc_im_here 6 0) = true ∧
    wire_ok (Effect.ibus_send 0 cdc_announce 6 0) = true := by
  have hrt : wire_ok (Effect.ibus_send 0 request_time_frame 7 0) = true := by decide
  have hrd : wire_ok (Effect.ibus_send 0 request_date_frame 7 0) = true := by decide
  have hnp : wire_ok (Effect.ibus_send 0 not_playing 12 0) = true := by decide
  have hsp : wire_ok (Effect.ibus_send 0 start_playing 12 0) = true := by decide
  have hpp : wire_ok (Effect.ibus_send 0 pause_playing 12 0) = true := by decide
  have hih : wire_ok (Effect.ibus_send 0 cdc_im_here 6 0) = true := by decide
  have han : wire_ok (Effect.ibus_send 0 cdc_announce 6 0) = true := by decide
  refine ⟨?_, ?_, ?_, ?_, ?_, ?_, ?_, ?_, ?_, ?_, ?_, hrt, hrd, hnp, hsp, hpp, hih, han⟩
  · intro e he
    simp only [ibus_request_time, List.mem_singleton] at he
    subst he; rw [wire_ok_send]; exact hrt
  · intro e he
    simp only [ibus_request_date, List.mem_singleton] at he
    subst he; rw [wire_ok_send]; exact hrd
  · intro e he
    simp only [cdchanger_handle_stop, List.mem_singleton] at he
    subst he; rw [wire_ok_send]; exact hnp
  · intro e he
    simp only [cdchanger_handle_pause, List.mem_singleton] at he
    subst he; rw [wire_ok_send]; exact hpp
  · intro e he
    simp only [cdchanger_handle_start, List.mem_singleton] at he
    subst he; rw [wire_ok_send]; exact hsp
  · intro e he
    unfold cdchanger_send_inforeq at he
    split_ifs at he <;> simp only [List.mem_singleton] at he <;> subst he <;>
      rw [wire_ok_send]
    · exact hsp
    · exact hnp
  · intro e he
    unfold cdchanger_handle_diskchange at he
    split_ifs at he
    · simp at he
    · simp only [List.mem_singleton] at he
      subst he; rw [wire_ok_send]; exact hsp
  · intro e he
    simp only [cdchanger_handle_poll, List.mem_singleton] at he
    subst he; rw [wire_ok_send]; exact hih
  · intro e he
    unfold announce_cdc at he
    split_ifs at he
    · simp only [List.mem_singleton] at he
      subst he; rw [wire_ok_send]; exact han
    · simp at he
    · simp at he
  · intro e he
    unfold ibus_init_configure at he
    split_ifs at he
    · simp only [List.mem_cons, List.mem_singleton, List.not_mem_nil, or_false] at he
      rcases he with h | h | h | h <;> subst h <;> rfl
    · simp only [List.mem_singleton] at he
      subst he; rw [wire_ok_send]; exact ibus_init_set_ok bluetooth camera
    · simp at he
  · intro hv
    have hv' : ¬ hw_version ≥ 4 := by omega
    unfold ibus_init_configure
    simp only [hv', if_false]
    split_ifs <;> simp [frames_sent, ibus_init_set]

theorem C20_transmitted_frames_wire_format_witness :
    frames_sent (ibus_init_configure 0 true true true 0 18 0 ibus_initial).2 =
      [[0xd7, 0x04, 0xd8, 0x70, 0x01, 0x7a]] :=
  (C20_transmitted_frames_wire_format ibus_initial scenario_B 7 0 true true true 0 18
    0).2.2.2.2.2.2.2.2.2.2.1 (by decide)

/-! ## Resynchronisation and the bounded buffer -/

theorem read_store_eq (now c : Nat) (s : Ibus) :
    ibus_read_store now c s =
      { s with bufPos := (if write_index now s < 63 then write_index now s + 1
                           else write_index now s),
               last_byte := now, buf := s.buf.set (write_index now s) c,
               send_window_open := false } := by
  unfold ibus_read_store write_index
  rfl

theorem read_byte_bufPos (CTRL_BIT now c : Nat) (s : Ibus) :
    ((ibus_read_byte CTRL_BIT now c s).1.bufPos = 0 ∧
      frames_handed (ibus_read_byte CTRL_BIT now c s).2 =
        [(ibus_read_store now c s).buf.take (ibus_read_store now c s).bufPos] ∧
      (ibus_read_byte CTRL_BIT now c s).1.buf = (ibus_read_store now c s).buf) ∨
    (ibus_read_byte CTRL_BIT now c s = (ibus_read_store now c s, [])) := by
  unfold ibus_read_byte
  by_cases h : (ibus_read_store now c s).bufPos ≥ 4 ∧
      (ibus_read_store now c s).buf.getD LENGTH 0 + 2 = (ibus_read_store now c s).bufPos
  · left
    simp only [h, and_self, if_true]
    exact ⟨trivial, (ibus_handle_message_rx CTRL_BIT _ _ _).2.2,
      (ibus_handle_message_rx CTRL_BIT _ _ _).1⟩
  · right
    simp only [h, if_false]

theorem take_succ_set (l : List Nat) (n c : Nat) (hn : n < l.length) :
    (l.set n c).take (n + 1) = l.take n ++ [c] := by
  apply List.ext_getElem?
  intro i
  rw [List.getElem?_take, List.getElem?_set]
  by_cases hi : i < n
  · have h1 : i < n + 1 := by omega
    have h2 : ¬ n = i := by omega
    rw [if_pos h1, if_neg h2, List.getElem?_append_left (by simp; omega),
      List.getElem?_take, if_pos hi]
  · by_cases hie : i = n
    · subst hie
      rw [if_pos (by omega), if_pos rfl, if_pos hn,
        List.getElem?_append_right (by simp)]
      simp [Nat.min_eq_left (Nat.le_of_lt hn)]
    · rw [if_neg (by omega), List.getElem?_append_right (by simp; omega)]
      simp [Nat.min_eq_left (Nat.le_of_lt hn)]
      omega

theorem take_set_ge (l : List Nat) (n c : Nat) : (l.set n c).take n = l.take n := by
  rw [List.set_take]
  apply List.set_eq_of_length_le
  simp

set_option maxRecDepth 1000000 in
/-- C17 as stated fails for a full buffer: after the 64 bytes of
`overlong_run` `bufPos` is 63 and slot 63 holds the 64th byte, 191; the next
byte, 0x55, arriving 1 ms later, is not appended: `bufPos` is still 63, no
frame is emitted, and slot 63 now holds 0x55, the 64th byte being lost. -/
theorem C17_full_buffer_byte_not_appended :
    (feed 0 overlong_run ibus_initial).1.bufPos = 63 ∧
    (feed 0 overlong_run ibus_initial).1.buf.getD 63 0 = 191 ∧
    (feed 0 overlong_run ibus_initial).1.last_byte = 64 ∧
    (ibus_read_byte 0 65 0x55 (feed 0 overlong_run ibus_initial).1).1.bufPos = 63 ∧
    (ibus_read_byte 0 65 0x55 (feed 0 overlong_run ibus_initial).1).1.buf.getD 63 0 = 0x55 ∧
    (ibus_read_byte 0 65 0x55 (feed 0 overlong_run ibus_initial).1).2 = [] := by
  decide

/-- C17 (amended): a byte processed when more than 64 ms passed since the
previous one discards the partial frame: afterwards `bufPos = 1`,
`buf[0]` is that byte and no frame is emitted. A byte arriving within 64 ms
while fewer than 63 bytes are held is appended: the held bytes are the old
ones followed by it, and either nothing is emitted or exactly these bytes
are handed over as a frame. With 63 bytes held the byte is not appended: it
replaces the content of slot 63, the 63 held bytes and `bufPos` stay. -/
theorem C17_resynchronisation (CTRL_BIT : Nat) (s : Ibus) (now c : Nat)
    (hlen : s.buf.length = 64) (hpos : s.bufPos ≤ 63) :
    ((now + 2 ^ 64 - s.last_byte) % 2 ^ 64 > 64 →
      ibus_read_byte CTRL_BIT now c s =
        ({ s with bufPos := 1, last_byte := now, buf := s.buf.set 0 c,
                  send_window_open := false }, []) ∧
      (ibus_read_byte CTRL_BIT now c s).1.buf.getD 0 0 = c) ∧
    ((now + 2 ^ 64 - s.last_byte) % 2 ^ 64 ≤ 64 → s.bufPos < 63 →
      (ibus_read_store now c s).bufPos = s.bufPos + 1 ∧
      (ibus_read_store now c s).buf.take (s.bufPos + 1) = s.buf.take s.bufPos ++ [c] ∧
      (ibus_read_byte CTRL_BIT now c s = (ibus_read_store now c s, []) ∨
        (frames_handed (ibus_read_byte CTRL_BIT now c s).2 = [s.buf.take s.bufPos ++ [c]] ∧
          (ibus_read_byte CTRL_BIT now c s).1.bufPos = 0))) ∧
    ((now + 2 ^ 64 - s.last_byte) % 2 ^ 64 ≤ 64 → s.bufPos = 63 →
      (ibus_read_store now c s).bufPos = 63 ∧
      (ibus_read_store now c s).buf = s.buf.set 63 c ∧
      (ibus_read_store now c s).buf.take 63 = s.buf.take 63) := by
  refine ⟨?_, ?_, ?_⟩
  · intro hgap
    have hw : write_index now s = 0 := by unfold write_index; rw [if_pos hgap]
    have hst : ibus_read_store now c s =
        { s with bufPos := 1, last_byte := now, buf := s.buf.set 0 c,
                 send_window_open := false } := by
      rw [read_store_eq, hw]; rfl
    have hb : ibus_read_byte CTRL_BIT now c s = (ibus_read_store now c s, []) := by
      unfold ibus_read_byte
      have : ¬ ((ibus_read_store now c s).bufPos ≥ 4 ∧
          (ibus_read_store now c s).buf.getD LENGTH 0 + 2 = (ibus_read_store now c s).bufPos) := by
        rw [hst]; simp
      simp only [this, if_false]
    rw [hb, hst]
    refine ⟨rfl, ?_⟩
    simp only
    rw [List.getD_eq_getElem?_getD, List.getElem?_set]
    simp [hlen]
  · intro hgap hlt
    have hw : write_index now s = s.bufPos := by
      have : ¬ (now + 2 ^ 64 - s.last_byte) % 2 ^ 64 > 64 := by omega
      unfold write_index; rw [if_neg this]
    have hst := read_store_eq now c s
    rw [hw] at hst
    have h1 : (ibus_read_store now c s).bufPos = s.bufPos + 1 := by
      rw [hst]; simp [hlt]
    have h2 : (ibus_read_store now c s).buf.take (s.bufPos + 1) = s.buf.take s.bufPos ++ [c] := by
      rw [hst]
      exact take_succ_set s.buf s.bufPos c (by omega)
    refine ⟨h1, h2, ?_⟩
    rcases read_byte_bufPos CTRL_BIT now c s with ⟨h0, hf, _⟩ | h
    · right
      rw [h1, h2] at hf
      exact ⟨hf, h0⟩
    · left; exact h
  · intro hgap h63
    have hw : write_index now s = 63 := by
      have : ¬ (now + 2 ^ 64 - s.last_byte) % 2 ^ 64 > 64 := by omega
      unfold write_index; rw [if_neg this, h63]
    have hst := read_store_eq now c s
    rw [hw] at hst
    rw [hst]
    exact ⟨rfl, rfl, take_set_ge s.buf 63 c⟩

theorem C17_resynchronisation_witness :
    ibus_read_byte 0 500 0xA4 (feed 0 (scenario_B_run.take 3) ibus_initial).1 =
      ({ (feed 0 (scenario_B_run.take 3) ibus_initial).1 with
          bufPos := 1, last_byte := 500,
          buf := (feed 0 (scenario_B_run.take 3) ibus_initial).1.buf.set 0 0xA4,
          send_window_open := false }, []) :=
  ((C17_resynchronisation 0 (feed 0 (scenario_B_run.take 3) ibus_initial).1 500 0xA4
    (by decide) (by decide)).1 (by decide)).1

theorem announce_cdc_state (s : Ibus) :
    (announce_cdc s).1 = s ∨ (announce_cdc s).1 = { s with radio_msgs := 0 } := by
  unfold announce_cdc
  split_ifs
  · right; rfl
  · left; rfl
  · left; rfl

/-- The state a tick leaves: that of `announce_cdc` or the old one, with the
two counters and the window flag set. -/
theorem tick_state (now : Nat) (s : Ibus) :
    ∃ (a : Ibus) (i j : Nat) (w : Bool),
      (a = s ∨ a = { s with radio_msgs := 0 }) ∧
      (ibus_tick now s).1 = { a with tick_i := i, tick_j := j, send_window_open := w } := by
  unfold ibus_tick
  by_cases h600 : s.tick_j + 1 ≥ 600
  · by_cases hmk : s.mk3_announce = true
    · by_cases hg : (announce_cdc s).1.gpio_number > 0
      · simp only [if_pos h600, if_pos hmk, if_pos hg]
        exact ⟨_, _, _, _, announce_cdc_state s, rfl⟩
      · simp only [if_pos h600, if_pos hmk, if_neg hg]
        exact ⟨_, _, _, _, announce_cdc_state s, rfl⟩
    · by_cases hg : s.gpio_number > 0
      · simp only [if_pos h600, if_neg hmk, if_pos hg]
        exact ⟨_, _, _, _, Or.inl rfl, rfl⟩
      · simp only [if_pos h600, if_neg hmk, if_neg hg]
        exact ⟨_, _, _, _, Or.inl rfl, rfl⟩
  · by_cases hg : s.gpio_number > 0
    · simp only [if_neg h600, if_pos hg]
      exact ⟨_, _, _, _, Or.inl rfl, rfl⟩
    · simp only [if_neg h600, if_neg hg]
      exact ⟨_, _, _, _, Or.inl rfl, rfl⟩

/-- A tick touches neither the buffer nor the time of the last byte. -/
theorem tick_rx (now : Nat) (s : Ibus) :
    (ibus_tick now s).1.bufPos = s.bufPos ∧ (ibus_tick now s).1.buf = s.buf ∧
    (ibus_tick now s).1.last_byte = s.last_byte := by
  obtain ⟨a, i, j, w, ha, h⟩ := tick_state now s
  rw [h]
  rcases ha with ha | ha <;> subst ha <;> exact ⟨rfl, rfl, rfl⟩

theorem read_store_bounds (now c : Nat) (s : Ibus) (hlen : s.buf.length = 64)
    (hpos : s.bufPos ≤ 63) :
    write_index now s ≤ 63 ∧ (ibus_read_store now c s).bufPos ≤ 63 ∧
    (ibus_read_store now c s).buf.length = 64 := by
  have hw : write_index now s ≤ 63 := by
    unfold write_index; split_ifs <;> omega
  rw [read_store_eq]
  refine ⟨hw, ?_, ?_⟩
  · simp only
    split_ifs <;> omega
  · simp [hlen]

theorem read_byte_bounds (CTRL_BIT now c : Nat) (s : Ibus) (hlen : s.buf.length = 64)
    (hpos : s.bufPos ≤ 63) :
    (ibus_read_byte CTRL_BIT now c s).1.bufPos ≤ 63 ∧
    (ibus_read_byte CTRL_BIT now c s).1.buf.length = 64 := by
  obtain ⟨_, h1, h2⟩ := read_store_bounds now c s hlen hpos
  rcases read_byte_bufPos CTRL_BIT now c s with ⟨h0, _, hb⟩ | h
  · exact ⟨by omega, by rw [hb]; exact h2⟩
  · rw [h]; exact ⟨h1, h2⟩

theorem ibus_read_bounds (CTRL_BIT now : Nat) (bytes : List Nat) (fin : ReadEnd) (s : Ibus)
    (hlen : s.buf.length = 64) (hpos : s.bufPos ≤ 63) :
    (ibus_read CTRL_BIT now bytes fin s).1.bufPos ≤ 63 ∧
    (ibus_read CTRL_BIT now bytes fin s).1.buf.length = 64 := by
  induction bytes generalizing s with
  | nil => cases fin <;> exact ⟨hpos, hlen⟩
  | cons c cs ih =>
    obtain ⟨h1, h2⟩ := read_byte_bounds CTRL_BIT now c s hlen hpos
    simp only [ibus_read]
    exact ih _ h2 h1

theorem bus_step_bounds (CTRL_BIT : Nat) (e : BusEvent) (s : Ibus)
    (hlen : s.buf.length = 64) (hpos : s.bufPos ≤ 63) :
    (bus_step CTRL_BIT e s).1.bufPos ≤ 63 ∧ (bus_step CTRL_BIT e s).1.buf.length = 64 := by
  cases e with
  | rx now bytes => exact ibus_read_bounds CTRL_BIT now bytes _ s hlen hpos
  | tick now =>
    have h := tick_rx now s
    unfold bus_step
    simp only [h.1, h.2.1]
    exact ⟨hpos, hlen⟩

theorem bus_run_bounds (CTRL_BIT : Nat) (evs : List BusEvent) (s : Ibus)
    (hlen : s.buf.length = 64) (hpos : s.bufPos ≤ 63) :
    (bus_run CTRL_BIT evs s).1.bufPos ≤ 63 ∧ (bus_run CTRL_BIT evs s).1.buf.length = 64 := by
  induction evs generalizing s with
  | nil => exact ⟨hpos, hlen⟩
  | cons e es ih =>
    obtain ⟨h1, h2⟩ := bus_step_bounds CTRL_BIT e s hlen hpos
    simp only [bus_run]
    exact ih _ h2 h1

/-- C18: from a state with `0 <= bufPos <= 63` every sequence of reads (of
any number of bytes, at any times) and ticks leaves `bufPos <= 63` and the
buffer 64 bytes long, so this holds before and after every byte; the slot a
byte is written to is at most 63, inside the buffer. Once `bufPos` is 63 a
further byte without resync gap is stored at index 63, replacing its
content, and `bufPos` stays 63 unless that byte completes a frame, which
resets it to 0. -/
theorem C18_bounded_buffer (CTRL_BIT : Nat) (s : Ibus) (evs : List BusEvent) (now c : Nat)
    (hlen : s.buf.length = 64) (hpos : s.bufPos ≤ 63) :
    (bus_run CTRL_BIT evs s).1.bufPos ≤ 63 ∧
    (bus_run CTRL_BIT evs s).1.buf.length = 64 ∧
    write_index now s < s.buf.length ∧
    (ibus_read_store now c s).buf = s.buf.set (write_index now s) c ∧
    (ibus_read_byte CTRL_BIT now c s).1.bufPos ≤ 63 ∧
    (s.bufPos = 63 → (now + 2 ^ 64 - s.last_byte) % 2 ^ 64 ≤ 64 →
      write_index now s = 63 ∧
      (ibus_read_store now c s).buf.getD 63 0 = c ∧
      (ibus_read_store now c s).bufPos = 63 ∧
      ((ibus_read_byte CTRL_BIT now c s).1.bufPos = 63 ∨
        ((ibus_read_byte CTRL_BIT now c s).1.bufPos = 0 ∧
          frames_handed (ibus_read_byte CTRL_BIT now c s).2 =
            [(ibus_read_store now c s).buf.take 63]))) := by
  obtain ⟨hb1, hb2⟩ := bus_run_bounds CTRL_BIT evs s hlen hpos
  obtain ⟨hw, _, _⟩ := read_store_bounds now c s hlen hpos
  refine ⟨hb1, hb2, by omega, by rw [read_store_eq], (read_byte_bounds CTRL_BIT now c s hlen hpos).1,
    ?_⟩
  intro h63 hgap
  have hwi : write_index now s = 63 := by
    have : ¬ (now + 2 ^ 64 - s.last_byte) % 2 ^ 64 > 64 := by omega
    unfold write_index; rw [if_neg this, h63]
  have hst := read_store_eq now c s
  rw [hwi] at hst
  have hp : (ibus_read_store now c s).bufPos = 63 := by rw [hst]; rfl
  refine ⟨hwi, ?_, hp, ?_⟩
  · rw [hst]
    simp only
    rw [List.getD_eq_getElem?_getD, List.getElem?_set]
    simp [hlen]
  · rcases read_byte_bufPos CTRL_BIT now c s with ⟨h0, hf, _⟩ | h
    · right
      rw [hp] at hf
      exact ⟨h0, hf⟩
    · left
      rw [h]; exact hp

set_option maxRecDepth 1000000 in
theorem C18_bounded_buffer_witness :
    (ibus_read_byte 0 65 0x55 (feed 0 overlong_run ibus_initial).1).1.bufPos ≤ 63 :=
  (C18_bounded_buffer 0 (feed 0 overlong_run ibus_initial).1 [] 65 0x55 (by decide)
    (by decide)).2.2.2.2.1

/-! ## What the table scan can do -/

theorem call_handler_state (f : Handler) (msg : List Nat) (length : Nat) (s : Ibus) :
    ((call_handler f msg length s).1 = s ∨
      (call_handler f msg length s).1 = { s with playing := true }) ∧
    ∀ e ∈ (call_handler f msg length s).2, dispatch_effect e = true := by
  cases f with
  | ibus_handle_rotary =>
    simp only [call_handler, ibus_handle_rotary]
    split_ifs <;> refine ⟨Or.inl rfl, ?_⟩ <;> intro e he
    · simp at he
    · rw [List.eq_of_mem_replicate he]; rfl
    · rw [List.eq_of_mem_replicate he]; rfl
    · simp at he
  | cdchanger_handle_start =>
    refine ⟨Or.inr rfl, ?_⟩
    intro e he
    simp only [call_handler, cdchanger_handle_start, List.mem_singleton] at he
    subst he; rfl
  | extern_fn h =>
    refine ⟨Or.inl rfl, ?_⟩
    intro e he
    simp only [call_handler, List.mem_singleton] at he
    subst he; rfl

theorem fire_event_state (r : EventRule) (msg : List Nat) (length : Nat) (s : Ibus) :
    ((fire_event r msg length s).1 = s ∨
      (fire_event r msg length s).1 = { s with playing := true }) ∧
    ∀ e ∈ (fire_event r msg length s).2, dispatch_effect e = true := by
  rw [fire_event_eq]
  unfold rule_state rule_effects
  have hk : ∀ e ∈ (if r.key ≠ 0 ∧ s.keyboard_blocked = false then
      [Effect.keyboard_generate r.key] else []), dispatch_effect e = true := by
    intro e he
    split_ifs at he
    · simp only [List.mem_singleton] at he; subst he; rfl
    · simp at he
  have hc : ∀ e ∈ (match r.command with
      | some c => [Effect.system c]
      | none => []), dispatch_effect e = true := by
    intro e he
    cases hcmd : r.command with
    | none => rw [hcmd] at he; simp at he
    | some c => rw [hcmd] at he; simp only [List.mem_singleton] at he; subst he; rfl
  cases hf : r.function with
  | none =>
    refine ⟨Or.inl rfl, ?_⟩
    intro e he
    simp only [List.mem_append, List.mem_singleton, List.not_mem_nil, or_false] at he
    rcases he with (he | he) | he
    · exact hk e he
    · subst he; rfl
    · exact hc e he
  | some f =>
    have h := call_handler_state f msg length s
    refine ⟨h.1, ?_⟩
    intro e he
    simp only [List.mem_append, List.mem_singleton] at he
    rcases he with ((he | he) | he) | he
    · exact hk e he
    · subst he; rfl
    · exact hc e he
    · exact h.2 e he

/-- The table scan, for any table: it leaves the state alone or sets
`playing`, and performs only dispatch effects. -/
theorem events_loop_state (rs : List EventRule) (msg : List Nat) (length : Nat) (s : Ibus) :
    ((events_loop rs msg length s).1 = s ∨
      (events_loop rs msg length s).1 = { s with playing := true }) ∧
    ∀ e ∈ (events_loop rs msg length s).2, dispatch_effect e = true := by
  induction rs with
  | nil =>
    refine ⟨Or.inl rfl, ?_⟩
    intro e he
    simp only [events_loop, List.mem_singleton] at he
    subst he; rfl
  | cons r rs ih =>
    unfold events_loop
    split_ifs
    · exact ih
    · exact fire_event_state r msg length s
    · exact ih

theorem gpio_writes_append (a b : List Effect) :
    gpio_writes (a ++ b) = gpio_writes a ++ gpio_writes b := by
  simp [gpio_writes, List.filterMap_append]

theorem gpio_writes_dispatch (l : List Effect) (h : ∀ e ∈ l, dispatch_effect e = true) :
    gpio_writes l = [] := by
  induction l with
  | nil => rfl
  | cons e t ih =>
    have he := h e (by simp)
    have ht := ih (fun x hx => h x (by simp [hx]))
    cases e <;> simp [dispatch_effect] at he <;> simpa [gpio_writes] using ht

/-! ## CDC-mode entry -/

theorem is_cdc_message_shape (msg : List Nat) (length : Nat) :
    (is_cdc_message msg length).1 = cdc_shape msg length := by
  unfold is_cdc_message cdc_shape
  generalize msg.getD 0 0 = b0
  generalize msg.getD 6 0 = b6
  generalize msg.getD 7 0 = b7
  generalize msg.getD 8 0 = b8
  generalize msg.getD 9 0 = b9
  generalize msg.getD 10 0 = b10
  generalize msg.getD 13 0 = b13
  generalize msg.getD 15 0 = b15
  generalize msg.getD 16 0 = b16
  generalize msg.getD 18 0 = b18
  generalize msg.getD 19 0 = b19
  generalize msg.getD 20 0 = b20
  generalize msg.getD 21 0 = b21
  generalize msg.getD 24 0 = b24
  split_ifs with h1 h2 h3
  · obtain ⟨a1, a2, a3, a4, a5⟩ := h1
    simp [a1, a2, a3, a4, a5]
  · obtain ⟨a1, a2, a3, a4, a5, a6, a7⟩ := h2
    simp [a1, a2, a3, a4, a5, a6, a7]
  · obtain ⟨a1, a2, a3, a4, a5, a6, a7, a8⟩ := h3
    simp [a1, a2, a3, a4, a5, a6, a7, a8]
  · symm
    simp only [Bool.and_eq_false_iff, Bool.or_eq_false_iff, decide_eq_false_iff_not,
      Bool.and_eq_true, Bool.or_eq_true, decide_eq_true_eq]
    by_cases hb : b0 = 104
    · right
      refine ⟨⟨?_, ?_⟩, ?_⟩
      · by_contra hc
        simp only [not_or, not_not] at hc
        exact h1 ⟨hc.1.1.1, hb, hc.1.1.2, hc.1.2, hc.2⟩
      · by_contra hc
        simp only [not_or, not_not] at hc
        exact h2 ⟨hc.1.1.1.1.1, hb, hc.1.1.1.1.2, hc.1.1.1.2, hc.1.1.2, hc.1.2, hc.2⟩
      · by_contra hc
        simp only [not_or, not_not] at hc
        exact h3 ⟨hc.1.1.1.1.1.1, hb, hc.1.1.1.1.1.2, hc.1.1.1.1.2, hc.1.1.1.2, hc.1.1.2,
          hc.1.2, hc.2⟩
    · left; exact hb

theorem is_cdc_message_log (msg : List Nat) (length : Nat) :
    gpio_writes (is_cdc_message msg length).2 = [] := by
  unfold is_cdc_message
  split_ifs <;> rfl

theorem cdc_head (msg : List Nat) (length : Nat) (s : Ibus) :
    (cdc_shape msg length = true →
      (handle_message_head msg length s).1.keyboard_blocked = false ∧
      (handle_message_head msg length s).1.playing = true ∧
      (handle_message_head msg length s).1.videoSource =
        (if s.hw_version ≥ 4 then VIDEO_SRC_PI else s.videoSource) ∧
      gpio_writes (handle_message_head msg length s).2 =
        (if s.hw_version ≥ 4 then [(GPIO_RELAY_CTL, 0), (GPIO_PIN17_CTL, 1)] else [])) ∧
    (cdc_shape msg length = false →
      (handle_message_head msg length s).1.keyboard_blocked = s.keyboard_blocked ∧
      (handle_message_head msg length s).1.playing = s.playing ∧
      (handle_message_head msg length s).1.videoSource = s.videoSource ∧
      gpio_writes (handle_message_head msg length s).2 = []) := by
  have hlog := is_cdc_message_log msg length
  have hsh := is_cdc_message_shape msg length
  constructor
  · intro h
    rw [h] at hsh
    unfold handle_message_head
    simp only [hsh, if_true, gpio_writes_append, hlog]
    unfold cdchanger_handle_cdcmode
    by_cases hv : s.hw_version ≥ 4 <;> by_cases h0 : msg.getD 0 0 = 0x68 <;>
      simp only [hv, h0, if_true, if_false] <;>
      refine ⟨?_, ?_, ?_, ?_⟩ <;> trivial
  · intro h
    rw [h] at hsh
    unfold handle_message_head
    simp only [hsh, Bool.false_eq_true, if_false, gpio_writes_append, hlog]
    by_cases h0 : msg.getD 0 0 = 0x68 <;> simp only [h0, if_true, if_false] <;>
      refine ⟨?_, ?_, ?_, ?_⟩ <;> trivial

/-- C13 as stated fails: the `TR 04` shape is not tied to one frame length.
The 16-byte and the 20-byte `TR 04` frames of the disabled table entries
both make `ibus_handle_message` enter CDC mode, so no choice of an exact
length for that shape describes the recogniser. -/
theorem C13_tr04_has_no_exact_length :
    (ibus_handle_message 0 tr04_short 16 ibus_initial).1.keyboard_blocked = false ∧
    (ibus_handle_message 0 tr04_long 20 ibus_initial).1.keyboard_blocked = false ∧
    ibus_initial.keyboard_blocked = true ∧
    ¬ ∃ L : Nat, ∀ (msg : List Nat) (length : Nat),
      ((is_cdc_message msg length).1 = true ↔ cdc_shape_exact L msg length = true) := by
  refine ⟨by decide, by decide, rfl, ?_⟩
  rintro ⟨L, h⟩
  have h1 := (h tr04_short 16).1 (by decide)
  have h2 := (h tr04_long 20).1 (by decide)
  have e1 : L = 16 := by
    by_contra hne
    have : cdc_shape_exact L tr04_short 16 = false := by
      have hd : decide (16 = L) = false := by
        simp only [decide_eq_false_iff_not]; omega
      simp [cdc_shape_exact, tr04_short, hd]
    rw [this] at h1
    exact Bool.noConfusion h1
  have e2 : L = 20 := by
    by_contra hne
    have : cdc_shape_exact L tr04_long 20 = false := by
      have hd : decide (20 = L) = false := by
        simp only [decide_eq_false_iff_not]; omega
      simp [cdc_shape_exact, tr04_long, hd]
    rw [this] at h2
    exact Bool.noConfusion h2
  omega

/-- C13 (amended): the recogniser accepts a frame exactly when it has one of
the three shapes, the first and third with an exact length (20 and 25), the
`TR 04` shape with any length of at least 16. For such a frame
`ibus_handle_message` leaves `keyboard_blocked` false and `playing` true and,
from revision 4 on, `videoSource` PI with the outputs relay = 0, pin17 = 1
written (no output below revision 4). For any other frame it leaves
`keyboard_blocked` and `videoSource` unchanged and writes no output. This is
so whatever the table scan does, for every table of rules. -/
theorem C13_cdc_mode_entry (CTRL_BIT : Nat) (rs : List EventRule) (msg : List Nat)
    (length : Nat) (s : Ibus) :
    (is_cdc_message msg length).1 = cdc_shape msg length ∧
    ibus_handle_message CTRL_BIT msg length s =
      ((events_loop (events CTRL_BIT) msg length (handle_message_head msg length s).1).1,
        (handle_message_head msg length s).2 ++
          (events_loop (events CTRL_BIT) msg length (handle_message_head msg length s).1).2) ∧
    (cdc_shape msg length = true →
      (events_loop rs msg length (handle_message_head msg length s).1).1.keyboard_blocked
        = false ∧
      (events_loop rs msg length (handle_message_head msg length s).1).1.playing = true ∧
      (events_loop rs msg length (handle_message_head msg length s).1).1.videoSource =
        (if s.hw_version ≥ 4 then VIDEO_SRC_PI else s.videoSource) ∧
      gpio_writes ((handle_message_head msg length s).2 ++
          (events_loop rs msg length (handle_message_head msg length s).1).2) =
        (if s.hw_version ≥ 4 then [(GPIO_RELAY_CTL, 0), (GPIO_PIN17_CTL, 1)] else [])) ∧
    (cdc_shape msg length = false →
      (events_loop rs msg length (handle_message_head msg length s).1).1.keyboard_blocked
        = s.keyboard_blocked ∧
      (handle_message_head msg length s).1.playing = s.playing ∧
      (events_loop rs msg length (handle_message_head msg length s).1).1.videoSource
        = s.videoSource ∧
      gpio_writes ((handle_message_head msg length s).2 ++
          (events_loop rs msg length (handle_message_head msg length s).1).2) = []) := by
  obtain ⟨hst, heff⟩ := events_loop_state rs msg length (handle_message_head msg length s).1
  have hg := gpio_writes_dispatch _ heff
  obtain ⟨hyes, hno⟩ := cdc_head msg length s
  refine ⟨is_cdc_message_shape msg length, rfl, ?_, ?_⟩
  · intro h
    obtain ⟨a1, a2, a3, a4⟩ := hyes h
    rw [gpio_writes_append, hg, List.append_nil]
    rcases hst with e | e <;> rw [e]
    · exact ⟨a1, a2, a3, a4⟩
    · exact ⟨a1, rfl, a3, a4⟩
  · intro h
    obtain ⟨a1, a2, a3, a4⟩ := hno h
    rw [gpio_writes_append, hg, List.append_nil]
    rcases hst with e | e <;> rw [e]
    · exact ⟨a1, a2, a3, a4⟩
    · exact ⟨a1, a2, a3, a4⟩

theorem C13_cdc_mode_entry_witness :
    (events_loop (events 0) tr04_short 16
      (handle_message_head tr04_short 16 ibus_rev4).1).1.videoSource = VIDEO_SRC_PI :=
  ((C13_cdc_mode_entry 0 (events 0) tr04_short 16 ibus_rev4).2.2.1 (by decide)).2.2.1

/-! ## The periodic announcement -/

theorem announcements_append (a b : List Effect) :
    announcements (a ++ b) = announcements a + announcements b := by
  simp [announcements, List.countP_append]

theorem announcements_dispatch (l : List Effect) (h : ∀ e ∈ l, dispatch_effect e = true) :
    announcements l = 0 := by
  unfold announcements
  rw [List.countP_eq_zero]
  intro e he
  have hd := h e he
  cases e <;> simp [dispatch_effect] at hd <;> simp [is_announce]
  obtain ⟨h1, h2⟩ := hd
  subst h1; subst h2
  decide

theorem head_announce (msg : List Nat) (length : Nat) (s : Ibus) :
    announcements (handle_message_head msg length s).2 = 0 ∧
    (handle_message_head msg length s).1.cd_polled = s.cd_polled ∧
    (handle_message_head msg length s).1.mk3_announce = s.mk3_announce ∧
    (handle_message_head msg length s).1.radio_msgs =
      (if msg.getD 0 0 = 0x68 then s.radio_msgs + 1 else s.radio_msgs) := by
  have hc : announcements (is_cdc_message msg length).2 = 0 := by
    unfold is_cdc_message
    split_ifs <;> rfl
  have hm : announcements (cdchanger_handle_cdcmode msg length s).2 = 0 ∧
      (cdchanger_handle_cdcmode msg length s).1.cd_polled = s.cd_polled ∧
      (cdchanger_handle_cdcmode msg length s).1.mk3_announce = s.mk3_announce ∧
      (cdchanger_handle_cdcmode msg length s).1.radio_msgs = s.radio_msgs := by
    unfold cdchanger_handle_cdcmode
    split_ifs <;> exact ⟨rfl, rfl, rfl, rfl⟩
  unfold handle_message_head
  simp only [announcements_append, hc]
  by_cases h1 : (is_cdc_message msg length).1 = true <;>
    by_cases h0 : msg.getD 0 0 = 0x68 <;>
    simp only [h1, h0, if_true, if_false, Bool.false_eq_true, hm.1, hm.2.1, hm.2.2.1,
      hm.2.2.2] <;>
    refine ⟨?_, ?_, ?_, ?_⟩ <;> first | rfl | trivial

/-- Dispatch transmits no announcement, leaves `cd_polled` and
`mk3_announce` alone and counts the frame when its source is 0x68. -/
theorem handle_message_announce (CTRL_BIT : Nat) (msg : List Nat) (length : Nat) (s : Ibus) :
    announcements (ibus_handle_message CTRL_BIT msg length s).2 = 0 ∧
    (ibus_handle_message CTRL_BIT msg length s).1.cd_polled = s.cd_polled ∧
    (ibus_handle_message CTRL_BIT msg length s).1.mk3_announce = s.mk3_announce ∧
    (ibus_handle_message CTRL_BIT msg length s).1.radio_msgs =
      (if msg.getD 0 0 = 0x68 then s.radio_msgs + 1 else s.radio_msgs) := by
  obtain ⟨h1, h2, h3, h4⟩ := head_announce msg length s
  obtain ⟨hst, heff⟩ := events_loop_state (events CTRL_BIT) msg length
    (handle_message_head msg length s).1
  unfold ibus_handle_message
  simp only [announcements_append, h1, announcements_dispatch _ heff]
  rcases hst with e | e <;> rw [e] <;> exact ⟨trivial, h2, h3, h4⟩

/-- A byte that hands over no frame of source 0x68 transmits no
announcement and leaves the three fields of the announce heuristic alone. -/
theorem read_byte_announce (CTRL_BIT now c : Nat) (s : Ibus)
    (hq : ∀ f ∈ frames_handed (ibus_read_byte CTRL_BIT now c s).2, f.getD 0 0 ≠ 0x68) :
    announcements (ibus_read_byte CTRL_BIT now c s).2 = 0 ∧
    (ibus_read_byte CTRL_BIT now c s).1.cd_polled = s.cd_polled ∧
    (ibus_read_byte CTRL_BIT now c s).1.mk3_announce = s.mk3_announce ∧
    (ibus_read_byte CTRL_BIT now c s).1.radio_msgs = s.radio_msgs := by
  by_cases h : (ibus_read_store now c s).bufPos ≥ 4 ∧
      (ibus_read_store now c s).buf.getD LENGTH 0 + 2 = (ibus_read_store now c s).bufPos
  · have hrx := ibus_handle_message_rx CTRL_BIT (ibus_read_store now c s).buf
      (ibus_read_store now c s).bufPos (ibus_read_store now c s)
    obtain ⟨a1, a2, a3, a4⟩ := handle_message_announce CTRL_BIT (ibus_read_store now c s).buf
      (ibus_read_store now c s).bufPos (ibus_read_store now c s)
    have hsrc : (ibus_read_store now c s).buf.getD 0 0 ≠ 0x68 := by
      have hf : frames_handed (ibus_read_byte CTRL_BIT now c s).2 =
          [(ibus_read_store now c s).buf.take (ibus_read_store now c s).bufPos] := by
        unfold ibus_read_byte
        simp only [h, and_self, if_true]
        exact hrx.2.2
      have := hq ((ibus_read_store now c s).buf.take (ibus_read_store now c s).bufPos)
        (by rw [hf]; exact List.mem_singleton.2 rfl)
      rwa [getD_take _ _ 0 (by omega)] at this
    unfold ibus_read_byte
    simp only [h, and_self, if_true, a1, a2, a3, a4, if_neg hsrc]
    exact ⟨trivial, rfl, rfl, rfl⟩
  · unfold ibus_read_byte
    simp only [h, if_false]
    exact ⟨rfl, rfl, rfl, rfl⟩

theorem ibus_read_announce (CTRL_BIT now : Nat) (bytes : List Nat) (s : Ibus)
    (hq : ∀ f ∈ frames_handed (ibus_read CTRL_BIT now bytes ReadEnd.would_block s).2,
      f.getD 0 0 ≠ 0x68) :
    announcements (ibus_read CTRL_BIT now bytes ReadEnd.would_block s).2 = 0 ∧
    (ibus_read CTRL_BIT now bytes ReadEnd.would_block s).1.cd_polled = s.cd_polled ∧
    (ibus_read CTRL_BIT now bytes ReadEnd.would_block s).1.mk3_announce = s.mk3_announce ∧
    (ibus_read CTRL_BIT now bytes ReadEnd.would_block s).1.radio_msgs = s.radio_msgs := by
  induction bytes generalizing s with
  | nil => exact ⟨rfl, rfl, rfl, rfl⟩
  | cons c cs ih =>
    simp only [ibus_read, frames_handed_append, List.mem_append] at hq ⊢
    obtain ⟨a1, a2, a3, a4⟩ := read_byte_announce CTRL_BIT now c s (fun f hf => hq f (Or.inl hf))
    obtain ⟨b1, b2, b3, b4⟩ := ih (ibus_read_byte CTRL_BIT now c s).1
      (fun f hf => hq f (Or.inr hf))
    rw [announcements_append, a1, b1, b2, b3, b4, a2, a3, a4]
    exact ⟨rfl, rfl, rfl, rfl⟩

/-- The announcements of one tick and what it does to the fields of the
announce heuristic. -/
theorem tick_announce (now : Nat) (s : Ibus) :
    announcements (ibus_tick now s).2 =
      (if s.tick_j + 1 ≥ 600 ∧ s.mk3_announce = true ∧ s.cd_polled = false ∧ s.radio_msgs ≠ 0
        then 1 else 0) ∧
    (ibus_tick now s).1.cd_polled = s.cd_polled ∧
    (ibus_tick now s).1.mk3_announce = s.mk3_announce ∧
    (ibus_tick now s).1.radio_msgs =
      (if s.tick_j + 1 ≥ 600 ∧ s.mk3_announce = true ∧ s.cd_polled = false ∧ s.radio_msgs ≠ 0
        then 0 else s.radio_msgs) := by
  have e1 : ∀ p : Prop, ∀ [Decidable p], announcements
      (if p then [Effect.ibus_log "idle timeout", Effect.power_off] else []) = 0 := by
    intro p _; split_ifs <;> rfl
  have e2 : ∀ (i : Nat), announcements (if s.hw_version ≥ 4 then
      (if i < 2 then [Effect.gpio_write GPIO_LED_CTL 1] else [Effect.gpio_write GPIO_LED_CTL 0])
      else []) = 0 := by
    intro i; split_ifs <;> rfl
  have e4 : ∀ (p : Prop) [Decidable p] (a : Ibus), announcements (if p then
      (if a.have_time = false then ibus_request_time a else []) ++
      (if a.have_date = false then ibus_request_date a else []) else []) = 0 := by
    intro p _ a
    split_ifs <;> rfl
  have e5 : ∀ (a : Ibus), announcements
      [Effect.ibus_service_queue a.ifd a.send_window_open a.gpio_number] = 0 := fun _ => rfl
  have ha : announcements (announce_cdc s).2 =
        (if s.cd_polled = false ∧ s.radio_msgs ≠ 0 then 1 else 0) ∧
      (announce_cdc s).1.cd_polled = s.cd_polled ∧
      (announce_cdc s).1.mk3_announce = s.mk3_announce ∧
      (announce_cdc s).1.radio_msgs =
        (if s.cd_polled = false ∧ s.radio_msgs ≠ 0 then 0 else s.radio_msgs) := by
    unfold announce_cdc
    by_cases hp : s.cd_polled = false
    · by_cases hr : s.radio_msgs ≠ 0
      · rw [if_pos hp, if_pos hr, if_pos ⟨hp, hr⟩, if_pos ⟨hp, hr⟩]
        exact ⟨rfl, rfl, rfl, rfl⟩
      · rw [if_pos hp, if_neg hr, if_neg (fun h => hr h.2), if_neg (fun h => hr h.2)]
        exact ⟨rfl, rfl, rfl, rfl⟩
    · rw [if_neg hp, if_neg (fun h => hp h.1), if_neg (fun h => hp h.1)]
      exact ⟨rfl, rfl, rfl, rfl⟩
  unfold ibus_tick
  by_cases h600 : s.tick_j + 1 ≥ 600
  · by_cases hmk : s.mk3_announce = true
    · by_cases hg : (announce_cdc s).1.gpio_number > 0
      · simp only [if_pos h600, if_pos hmk, if_pos hg, announcements_append, e1, e2, e4, e5]
        have hf : announcements (Effect.fflush_log :: (announce_cdc s).2)
            = announcements (announce_cdc s).2 := rfl
        rw [hf, ha.1]
        simp only [h600, hmk, true_and, ha.2.1, ha.2.2.1, ha.2.2.2]
        exact ⟨by simp, trivial⟩
      · simp only [if_pos h600, if_pos hmk, if_neg hg, announcements_append, e1, e2, e4]
        have hf : announcements (Effect.fflush_log :: (announce_cdc s).2)
            = announcements (announce_cdc s).2 := rfl
        rw [hf, ha.1]
        simp only [h600, hmk, true_and, ha.2.1, ha.2.2.1, ha.2.2.2]
        exact ⟨by simp, trivial⟩
    · have hno : ¬ (s.tick_j + 1 ≥ 600 ∧ s.mk3_announce = true ∧ s.cd_polled = false ∧
          s.radio_msgs ≠ 0) := fun h => hmk h.2.1
      by_cases hg : s.gpio_number > 0
      · simp only [if_pos h600, if_neg hmk, if_pos hg, announcements_append, e1, e2, e4, e5,
          if_neg hno]
        exact ⟨rfl, trivial, trivial, trivial⟩
      · simp only [if_pos h600, if_neg hmk, if_neg hg, announcements_append, e1, e2, e4,
          if_neg hno]
        exact ⟨rfl, trivial, trivial, trivial⟩
  · have hno : ¬ (s.tick_j + 1 ≥ 600 ∧ s.mk3_announce = true ∧ s.cd_polled = false ∧
        s.radio_msgs ≠ 0) := fun h => h600 h.1
    by_cases hg : s.gpio_number > 0
    · simp only [if_neg h600, if_pos hg, announcements_append, e1, e2, e4, e5, if_neg hno]
      exact ⟨rfl, trivial, trivial, trivial⟩
    · simp only [if_neg h600, if_neg hg, announcements_append, e1, e2, e4, if_neg hno]
      exact ⟨rfl, trivial, trivial, trivial⟩

theorem bus_run_append (CTRL_BIT : Nat) (es fs : List BusEvent) (s : Ibus) :
    bus_run CTRL_BIT (es ++ fs) s =
      ((bus_run CTRL_BIT fs (bus_run CTRL_BIT es s).1).1,
        (bus_run CTRL_BIT es s).2 ++ (bus_run CTRL_BIT fs (bus_run CTRL_BIT es s).1).2) := by
  induction es generalizing s with
  | nil => simp [bus_run]
  | cons e es ih => simp [bus_run, ih, List.append_assoc]

theorem tick_idle (now : Nat) (s : Ibus) (h : announce_idle s) :
    announcements (ibus_tick now s).2 = 0 ∧ announce_idle (ibus_tick now s).1 := by
  obtain ⟨a1, a2, a3, a4⟩ := tick_announce now s
  have hno : ¬ (s.tick_j + 1 ≥ 600 ∧ s.mk3_announce = true ∧ s.cd_polled = false ∧
      s.radio_msgs ≠ 0) := by
    rintro ⟨_, h1, h2, h3⟩
    rcases h with h | h | h
    · rw [h1] at h; exact Bool.noConfusion h
    · rw [h2] at h; exact Bool.noConfusion h
    · exact h3 h
  rw [if_neg hno] at a1 a4
  refine ⟨a1, ?_⟩
  unfold announce_idle
  rw [a2, a3, a4]
  exact h

theorem tick_makes_idle (now : Nat) (s : Ibus) (h600 : s.tick_j + 1 ≥ 600) :
    announce_idle (ibus_tick now s).1 := by
  obtain ⟨_, a2, a3, a4⟩ := tick_announce now s
  unfold announce_idle
  rw [a2, a3, a4]
  cases hmk : s.mk3_announce with
  | false => left; rfl
  | true =>
    cases hp : s.cd_polled with
    | true => right; left; rfl
    | false =>
      right; right
      by_cases hr : s.radio_msgs = 0
      · rw [if_neg (fun h => h.2.2.2 hr)]; exact hr
      · rw [if_pos ⟨h600, rfl, rfl, hr⟩]

theorem bus_run_idle (CTRL_BIT : Nat) (evs : List BusEvent) (s : Ibus) (h : announce_idle s)
    (hq : ∀ f ∈ frames_handed (bus_run CTRL_BIT evs s).2, f.getD 0 0 ≠ 0x68) :
    announcements (bus_run CTRL_BIT evs s).2 = 0 ∧ announce_idle (bus_run CTRL_BIT evs s).1 := by
  induction evs generalizing s with
  | nil => exact ⟨rfl, h⟩
  | cons e es ih =>
    simp only [bus_run, frames_handed_append, List.mem_append] at hq ⊢
    have hstep : announcements (bus_step CTRL_BIT e s).2 = 0 ∧
        announce_idle (bus_step CTRL_BIT e s).1 := by
      cases e with
      | rx now bytes =>
        obtain ⟨b1, b2, b3, b4⟩ := ibus_read_announce CTRL_BIT now bytes s
          (fun f hf => hq f (Or.inl hf))
        refine ⟨b1, ?_⟩
        unfold announce_idle bus_step
        simp only [b2, b3, b4]
        exact h
      | tick now => exact tick_idle now s h
    obtain ⟨c1, c2⟩ := ih (bus_step CTRL_BIT e s).1 hstep.2 (fun f hf => hq f (Or.inr hf))
    rw [announcements_append, hstep.1, c1]
    exact ⟨rfl, c2⟩

/-- C12: on a 600th tick (the counter `j` reaches 600) with `mk3_announce`
set, the frame `18 04 FF 02 01 E0` is transmitted, once, if and only if
`cd_polled` is false and `radio_msgs` is not zero, and then `radio_msgs` is
reset to 0; otherwise `radio_msgs` keeps its value. On any other tick, or
with `mk3_announce` off, nothing is announced. After a 600th tick, as long as
no frame of source 0x68 is dispatched, no read and no tick announces
anything, so two successive announce points with no such frame between them
produce at most one announcement. -/
theorem C12_periodic_announce (CTRL_BIT : Nat) (s : Ibus) (now now2 : Nat)
    (mid : List BusEvent) :
    (s.tick_j + 1 ≥ 600 → s.mk3_announce = true →
      announcements (ibus_tick now s).2 =
        (if s.cd_polled = false ∧ s.radio_msgs ≠ 0 then 1 else 0) ∧
      (ibus_tick now s).1.radio_msgs =
        (if s.cd_polled = false ∧ s.radio_msgs ≠ 0 then 0 else s.radio_msgs)) ∧
    (¬ (s.tick_j + 1 ≥ 600 ∧ s.mk3_announce = true) →
      announcements (ibus_tick now s).2 = 0 ∧
      (ibus_tick now s).1.radio_msgs = s.radio_msgs) ∧
    (s.tick_j + 1 ≥ 600 →
      (∀ f ∈ frames_handed (bus_run CTRL_BIT mid (ibus_tick now s).1).2, f.getD 0 0 ≠ 0x68) →
      announcements
        (bus_run CTRL_BIT (mid ++ [BusEvent.tick now2]) (ibus_tick now s).1).2 = 0 ∧
      announcements
        (bus_run CTRL_BIT (BusEvent.tick now :: (mid ++ [BusEvent.tick now2])) s).2 ≤ 1) := by
  obtain ⟨a1, _, _, a4⟩ := tick_announce now s
  refine ⟨?_, ?_, ?_⟩
  · intro h600 hmk
    rw [a1, a4]
    by_cases hc : s.cd_polled = false ∧ s.radio_msgs ≠ 0
    · rw [if_pos ⟨h600, hmk, hc.1, hc.2⟩, if_pos hc, if_pos ⟨h600, hmk, hc.1, hc.2⟩, if_pos hc]
      exact ⟨rfl, rfl⟩
    · rw [if_neg (fun h => hc ⟨h.2.2.1, h.2.2.2⟩), if_neg hc,
        if_neg (fun h => hc ⟨h.2.2.1, h.2.2.2⟩), if_neg hc]
      exact ⟨rfl, rfl⟩
  · intro hno
    rw [a1, a4, if_neg (fun h => hno ⟨h.1, h.2.1⟩), if_neg (fun h => hno ⟨h.1, h.2.1⟩)]
    exact ⟨rfl, rfl⟩
  · intro h600 hq
    have hidle := tick_makes_idle now s h600
    obtain ⟨m1, m2⟩ := bus_run_idle CTRL_BIT mid _ hidle hq
    have hlast := tick_idle now2 _ m2
    have hrest : announcements
        (bus_run CTRL_BIT (mid ++ [BusEvent.tick now2]) (ibus_tick now s).1).2 = 0 := by
      rw [bus_run_append]
      simp only [announcements_append, m1, bus_run, bus_step, List.append_nil, hlast.1]
    refine ⟨hrest, ?_⟩
    have hfirst : announcements (ibus_tick now s).2 ≤ 1 := by
      rw [a1]; split_ifs <;> omega
    simp only [bus_run, bus_step, announcements_append, hrest]
    omega

theorem C12_periodic_announce_witness :
    announcements (bus_run 0
      (BusEvent.tick 30000 ::
        ([BusEvent.rx 30010 scenario_B, BusEvent.tick 30050] ++ [BusEvent.tick 60000]))
      ibus_at_announce).2 ≤ 1 :=
  ((C12_periodic_announce 0 ibus_at_announce 30000 60000
    [BusEvent.rx 30010 scenario_B, BusEvent.tick 30050]).2.2 (by decide) (by decide)).2

/-! ## The CD-info timer -/

theorem read_byte_frames (CTRL_BIT now c : Nat) (s : Ibus) (hlen : s.buf.length = 64)
    (hpos : s.bufPos ≤ 63) :
    ∀ f ∈ frames_handed (ibus_read_byte CTRL_BIT now c s).2, frame_ok f = true := by
  obtain ⟨_, h1, h2⟩ := read_store_bounds now c s hlen hpos
  intro f hf
  by_cases h : (ibus_read_store now c s).bufPos ≥ 4 ∧
      (ibus_read_store now c s).buf.getD LENGTH 0 + 2 = (ibus_read_store now c s).bufPos
  · have hfr : frames_handed (ibus_read_byte CTRL_BIT now c s).2 =
        [(ibus_read_store now c s).buf.take (ibus_read_store now c s).bufPos] := by
      unfold ibus_read_byte
      simp only [h, and_self, if_true]
      exact (ibus_handle_message_rx CTRL_BIT _ _ _).2.2
    rw [hfr, List.mem_singleton] at hf
    subst hf
    have hl : ((ibus_read_store now c s).buf.take (ibus_read_store now c s).bufPos).length
        = (ibus_read_store now c s).bufPos := by
      rw [List.length_take, h2]; omega
    have hg := getD_take (ibus_read_store now c s).buf (ibus_read_store now c s).bufPos 1
      (by omega)
    unfold frame_ok
    rw [hl, hg]
    have h3 := h.2
    unfold LENGTH at h3
    simp only [Bool.and_eq_true, decide_eq_true_eq]
    omega
  · have hfr : (ibus_read_byte CTRL_BIT now c s).2 = [] := by
      unfold ibus_read_byte
      simp only [h, if_false]
    rw [hfr] at hf
    simp [frames_handed] at hf

theorem ibus_read_frames (CTRL_BIT now : Nat) (bytes : List Nat) (s : Ibus)
    (hlen : s.buf.length = 64) (hpos : s.bufPos ≤ 63) :
    ∀ f ∈ frames_handed (ibus_read CTRL_BIT now bytes ReadEnd.would_block s).2,
      frame_ok f = true := by
  induction bytes generalizing s with
  | nil => intro f hf; simp [ibus_read, frames_handed] at hf
  | cons c cs ih =>
    obtain ⟨b1, b2⟩ := read_byte_bounds CTRL_BIT now c s hlen hpos
    intro f hf
    simp only [ibus_read, frames_handed_append, List.mem_append] at hf
    rcases hf with hf | hf
    · exact read_byte_frames CTRL_BIT now c s hlen hpos f hf
    · exact ih _ b2 b1 f hf

theorem tick_all (now : Nat) (s : Ibus) :
    (ibus_tick now s).2.all tick_effect = true := by
  have e1 : ∀ p : Prop, ∀ [Decidable p],
      (if p then [Effect.ibus_log "idle timeout", Effect.power_off] else []).all tick_effect
        = true := by
    intro p _; split_ifs <;> rfl
  have e2 : ∀ (i : Nat), (if s.hw_version ≥ 4 then
      (if i < 2 then [Effect.gpio_write GPIO_LED_CTL 1] else [Effect.gpio_write GPIO_LED_CTL 0])
      else []).all tick_effect = true := by
    intro i; split_ifs <;> rfl
  have e4 : ∀ (p : Prop) [Decidable p] (a : Ibus), (if p then
      (if a.have_time = false then ibus_request_time a else []) ++
      (if a.have_date = false then ibus_request_date a else []) else []).all tick_effect
        = true := by
    intro p _ a
    split_ifs <;> rfl
  have e5 : ∀ (a : Ibus),
      [Effect.ibus_service_queue a.ifd a.send_window_open a.gpio_number].all tick_effect
        = true := fun _ => rfl
  have ea : (announce_cdc s).2.all tick_effect = true := by
    unfold announce_cdc
    split_ifs <;> rfl
  have ef : (Effect.fflush_log :: (announce_cdc s).2).all tick_effect = true := by
    rw [List.all_cons, ea]; rfl
  unfold ibus_tick
  by_cases h600 : s.tick_j + 1 ≥ 600
  · by_cases hmk : s.mk3_announce = true
    · by_cases hg : (announce_cdc s).1.gpio_number > 0
      · simp only [if_pos h600, if_pos hmk, if_pos hg, List.all_append, e1, e2, e4, e5, ef,
          Bool.and_self]
      · simp only [if_pos h600, if_pos hmk, if_neg hg, List.all_append, e1, e2, e4, ef,
          Bool.and_self]
    · by_cases hg : s.gpio_number > 0
      · simp only [if_pos h600, if_neg hmk, if_pos hg, List.all_append, e1, e2, e4, e5,
          Bool.and_self]
        rfl
      · simp only [if_pos h600, if_neg hmk, if_neg hg, List.all_append, e1, e2, e4,
          Bool.and_self]
        rfl
  · by_cases hg : s.gpio_number > 0
    · simp only [if_neg h600, if_pos hg, List.all_append, e1, e2, e4, e5, Bool.and_self]
      rfl
    · simp only [if_neg h600, if_neg hg, List.all_append, e1, e2, e4, Bool.and_self]
      rfl

theorem all_tick_effect (now : Nat) (s : Ibus) :
    ∀ e ∈ (ibus_tick now s).2, tick_effect e = true :=
  List.all_eq_true.1 (tick_all now s)

theorem frames_handed_tick (l : List Effect) (h : ∀ e ∈ l, tick_effect e = true) :
    frames_handed l = [] := by
  induction l with
  | nil => rfl
  | cons e t ih =>
    have he := h e (by simp)
    have ht := ih (fun x hx => h x (by simp [hx]))
    cases e <;> simp [tick_effect] at he <;> simpa [frames_handed] using ht

theorem bus_step_frames (CTRL_BIT : Nat) (e : BusEvent) (s : Ibus)
    (hlen : s.buf.length = 64) (hpos : s.bufPos ≤ 63) :
    ∀ f ∈ frames_handed (bus_step CTRL_BIT e s).2, frame_ok f = true := by
  cases e with
  | rx now bytes => exact ibus_read_frames CTRL_BIT now bytes s hlen hpos
  | tick now =>
    intro f hf
    have h0 : frames_handed (bus_step CTRL_BIT (BusEvent.tick now) s).2 = [] :=
      frames_handed_tick _ (all_tick_effect now s)
    rw [h0] at hf
    simp at hf

theorem bus_run_frames (CTRL_BIT : Nat) (evs : List BusEvent) (s : Ibus)
    (hlen : s.buf.length = 64) (hpos : s.bufPos ≤ 63) :
    ∀ f ∈ frames_handed (bus_run CTRL_BIT evs s).2, frame_ok f = true := by
  induction evs generalizing s with
  | nil => intro f hf; simp [bus_run, frames_handed] at hf
  | cons e es ih =>
    obtain ⟨b1, b2⟩ := bus_step_bounds CTRL_BIT e s hlen hpos
    intro f hf
    simp only [bus_run, frames_handed_append, List.mem_append] at hf
    rcases hf with hf | hf
    · exact bus_step_frames CTRL_BIT e s hlen hpos f hf
    · exact ih _ b2 b1 f hf

/-- One byte within the resync gap in a dead accumulation: it is stored, no
frame is handed over, and the accumulation stays dead. -/
theorem read_byte_dead (CTRL_BIT now c : Nat) (s : Ibus) (hlen : s.buf.length = 64)
    (hpos : s.bufPos ≤ 63) (hdead : dead_buffer s = true)
    (hgap : (now + 2 ^ 64 - s.last_byte) % 2 ^ 64 ≤ 64) :
    (ibus_read_byte CTRL_BIT now c s).2 = [] ∧
    (ibus_read_byte CTRL_BIT now c s).1.buf.length = 64 ∧
    (ibus_read_byte CTRL_BIT now c s).1.bufPos ≤ 63 ∧
    dead_buffer (ibus_read_byte CTRL_BIT now c s).1 = true ∧
    (ibus_read_byte CTRL_BIT now c s).1.last_byte = now := by
  unfold dead_buffer at hdead
  simp only [Bool.and_eq_true, Bool.or_eq_true, decide_eq_true_eq] at hdead
  obtain ⟨h2, hb⟩ := hdead
  have hw : write_index now s = s.bufPos := by
    have : ¬ (now + 2 ^ 64 - s.last_byte) % 2 ^ 64 > 64 := by omega
    unfold write_index; rw [if_neg this]
  have hst := read_store_eq now c s
  rw [hw] at hst
  have hp : (ibus_read_store now c s).bufPos =
      (if s.bufPos < 63 then s.bufPos + 1 else s.bufPos) := by rw [hst]
  have hbuf : (ibus_read_store now c s).buf = s.buf.set s.bufPos c := by rw [hst]
  have hlast : (ibus_read_store now c s).last_byte = now := by rw [hst]
  have hget : (ibus_read_store now c s).buf.getD LENGTH 0 = s.buf.getD LENGTH 0 := by
    rw [hbuf, List.getD_eq_getElem?_getD, List.getD_eq_getElem?_getD, List.getElem?_set_ne]
    unfold LENGTH; omega
  have hp2 : 2 ≤ (ibus_read_store now c s).bufPos ∧ (ibus_read_store now c s).bufPos ≤ 63 := by
    rw [hp]; split_ifs <;> omega
  have htest : ¬ ((ibus_read_store now c s).bufPos ≥ 4 ∧
      (ibus_read_store now c s).buf.getD LENGTH 0 + 2 = (ibus_read_store now c s).bufPos) := by
    rw [hget]; omega
  have hrb : ibus_read_byte CTRL_BIT now c s = (ibus_read_store now c s, []) := by
    unfold ibus_read_byte
    simp only [htest, if_false]
  rw [hrb]
  refine ⟨rfl, ?_, hp2.2, ?_, hlast⟩
  · show (ibus_read_store now c s).buf.length = 64
    rw [hbuf, List.length_set, hlen]
  · show dead_buffer (ibus_read_store now c s) = true
    unfold dead_buffer
    simp only [Bool.and_eq_true, Bool.or_eq_true, decide_eq_true_eq, hget]
    exact ⟨hp2.1, hb⟩

/-- The bytes of one call of `ibus_read`, in a dead accumulation whose last
byte came within the gap. -/
theorem ibus_read_dead (CTRL_BIT now : Nat) (cs : List Nat) (s : Ibus)
    (hlen : s.buf.length = 64) (hpos : s.bufPos ≤ 63) (hdead : dead_buffer s = true)
    (hgap : (now + 2 ^ 64 - s.last_byte) % 2 ^ 64 ≤ 64) :
    (ibus_read CTRL_BIT now cs ReadEnd.would_block s).2 = [] ∧
    (ibus_read CTRL_BIT now cs ReadEnd.would_block s).1.buf.length = 64 ∧
    (ibus_read CTRL_BIT now cs ReadEnd.would_block s).1.bufPos ≤ 63 ∧
    dead_buffer (ibus_read CTRL_BIT now cs ReadEnd.would_block s).1 = true ∧
    (ibus_read CTRL_BIT now cs ReadEnd.would_block s).1.last_byte =
      (if cs = [] then s.last_byte else now) := by
  induction cs generalizing s with
  | nil => exact ⟨rfl, hlen, hpos, hdead, rfl⟩
  | cons c cs ih =>
    obtain ⟨e1, l1, p1, d1, t1⟩ := read_byte_dead CTRL_BIT now c s hlen hpos hdead hgap
    have hg1 : (now + 2 ^ 64 - (ibus_read_byte CTRL_BIT now c s).1.last_byte) % 2 ^ 64 ≤ 64 := by
      rw [t1]; omega
    obtain ⟨e2, l2, p2, d2, t2⟩ := ih _ l1 p1 d1 hg1
    simp only [ibus_read, e1, e2, List.append_nil]
    refine ⟨trivial, l2, p2, d2, ?_⟩
    rw [t2, t1]
    simp

/-- A run of reads and ticks without resync gap, from a dead accumulation,
hands no frame to `ibus_handle_message`. -/
theorem bus_run_dead (CTRL_BIT : Nat) (evs : List BusEvent) (s : Ibus)
    (hlen : s.buf.length = 64) (hpos : s.bufPos ≤ 63) (hdead : dead_buffer s = true)
    (hgap : within_gap s.last_byte evs = true) :
    frames_handed (bus_run CTRL_BIT evs s).2 = [] ∧
    dead_buffer (bus_run CTRL_BIT evs s).1 = true := by
  induction evs generalizing s with
  | nil => exact ⟨rfl, hdead⟩
  | cons e es ih =>
    cases e with
    | tick now =>
      obtain ⟨hp, hb, hl⟩ := tick_rx now s
      have h0 : frames_handed (ibus_tick now s).2 = [] :=
        frames_handed_tick _ (all_tick_effect now s)
      have hd : dead_buffer (ibus_tick now s).1 = true := by
        unfold dead_buffer at hdead ⊢
        rw [hp, hb]; exact hdead
      have hg : within_gap (ibus_tick now s).1.last_byte es = true := by
        rw [hl]; simpa [within_gap] using hgap
      obtain ⟨f2, d2⟩ := ih (ibus_tick now s).1 (by rw [hb]; exact hlen)
        (by rw [hp]; exact hpos) hd hg
      simp only [bus_run, bus_step, frames_handed_append, h0, f2, List.append_nil]
      exact ⟨trivial, d2⟩
    | rx now bytes =>
      cases bytes with
      | nil =>
        have hg : within_gap s.last_byte es = true := by simpa [within_gap] using hgap
        obtain ⟨f2, d2⟩ := ih s hlen hpos hdead hg
        simp only [bus_run, bus_step, ibus_read, frames_handed_append, f2, List.append_nil]
        exact ⟨rfl, d2⟩
      | cons c cs =>
        simp only [within_gap, Bool.and_eq_true, decide_eq_true_eq] at hgap
        obtain ⟨e1, l1, p1, d1, t1⟩ :=
          ibus_read_dead CTRL_BIT now (c :: cs) s hlen hpos hdead hgap.1
        have hg : within_gap
            (ibus_read CTRL_BIT now (c :: cs) ReadEnd.would_block s).1.last_byte es = true := by
          rw [t1]; simpa using hgap.2
        obtain ⟨f2, d2⟩ := ih _ l1 p1 d1 hg
        simp only [bus_run, bus_step, frames_handed_append, e1, f2, List.append_nil]
        exact ⟨rfl, d2⟩

/-- C21: from a state with `bufPos <= 63`, every frame handed to
`ibus_handle_message` in any run of reads and ticks has between 4 and 63
bytes, and as many as its length byte `buf[1]` plus 2. Consequently, once
the buffer holds at least two bytes and the length byte `buf[1]` is less
than 2 or greater than 61, a run in which no byte arrives more than 64 ms
after the previous one hands over no frame at all, whatever its bytes. -/
theorem C21_frame_length_bounds (CTRL_BIT : Nat) (s : Ibus) (evs : List BusEvent)
    (hlen : s.buf.length = 64) (hpos : s.bufPos ≤ 63) :
    (∀ f ∈ frames_handed (bus_run CTRL_BIT evs s).2,
      4 ≤ f.length ∧ f.length ≤ 63 ∧ f.length = f.getD 1 0 + 2) ∧
    (2 ≤ s.bufPos → (s.buf.getD LENGTH 0 < 2 ∨ s.buf.getD LENGTH 0 > 61) →
      within_gap s.last_byte evs = true →
      frames_handed (bus_run CTRL_BIT evs s).2 = []) := by
  constructor
  · intro f hf
    have h := bus_run_frames CTRL_BIT evs s hlen hpos f hf
    unfold frame_ok at h
    simp only [Bool.and_eq_true, decide_eq_true_eq] at h
    exact ⟨h.1.1, h.1.2, h.2⟩
  · intro h2 hb hgap
    have hd : dead_buffer s = true := by
      unfold dead_buffer
      simp only [Bool.and_eq_true, Bool.or_eq_true, decide_eq_true_eq]
      exact ⟨h2, hb⟩
    exact (bus_run_dead CTRL_BIT evs s hlen hpos hd hgap).1

/-- The bytes `68 3E` are held at time 20; the 62 bytes that follow within
the gap, a tick among them, complete no frame. -/
theorem C21_frame_length_bounds_witness :
    frames_handed (bus_run 0
      [BusEvent.rx 30 [0xFF, 0x24, 0x01, 0x00], BusEvent.tick 50,
       BusEvent.rx 90 (List.replicate 58 0x4A)]
      (bus_run 0 [BusEvent.rx 10 [0x68], BusEvent.rx 20 [0x3E]] ibus_initial).1).2 = [] :=
  (C21_frame_length_bounds 0
    (bus_run 0 [BusEvent.rx 10 [0x68], BusEvent.rx 20 [0x3E]] ibus_initial).1
    [BusEvent.rx 30 [0xFF, 0x24, 0x01, 0x00], BusEvent.tick 50,
     BusEvent.rx 90 (List.replicate 58 0x4A)]
    (by decide) (by decide)).2 (by decide) (by decide) (by decide)

/-! ## What dispatch and ticks leave alone -/

theorem extern_calls_append (a b : List Effect) :
    extern_calls (a ++ b) = extern_calls a ++ extern_calls b := by
  simp [extern_calls, List.filterMap_append]

theorem frames_sent_append (a b : List Effect) :
    frames_sent (a ++ b) = frames_sent a ++ frames_sent b := by
  simp [frames_sent, List.filterMap_append]

theorem changer_untouched_refl (s : Ibus) : changer_untouched s (s, []) :=
  ⟨rfl, rfl, rfl, by simp [frames_sent]⟩

/-- Two steps in a row that each leave the changer alone. -/
theorem changer_untouched_trans (s s1 s2 : Ibus) (e1 e2 : List Effect)
    (h1 : changer_untouched s (s1, e1)) (h2 : changer_untouched s1 (s2, e2)) :
    changer_untouched s (s2, e1 ++ e2) := by
  obtain ⟨a1, a2, a3, a4⟩ := h1
  obtain ⟨b1, b2, b3, b4⟩ := h2
  refine ⟨b1.trans a1, b2.trans a2, ?_, ?_⟩
  · show extern_calls (e1 ++ e2) = []
    rw [extern_calls_append]
    simp only at a3 b3
    rw [a3, b3]; rfl
  · show cdc_im_here ∉ frames_sent (e1 ++ e2)
    rw [frames_sent_append, List.mem_append]
    rintro (h | h)
    · exact a4 h
    · exact b4 h

/-- A trace of tick effects calls no external handler and transmits only
the time request, the date request and the announcement. -/
theorem tick_effects_quiet (l : List Effect) (h : ∀ e ∈ l, tick_effect e = true) :
    extern_calls l = [] ∧ cdc_im_here ∉ frames_sent l := by
  induction l with
  | nil => exact ⟨rfl, by simp [frames_sent]⟩
  | cons e t ih =>
    have he := h e (by simp)
    obtain ⟨i1, i2⟩ := ih (fun x hx => h x (by simp [hx]))
    cases e with
    | ibus_send ifd data length gpio =>
      simp only [tick_effect, decide_eq_true_eq] at he
      refine ⟨by simpa [extern_calls] using i1, ?_⟩
      have hne : data.take length ≠ cdc_im_here := by
        rcases he with ⟨h1, h2⟩ | ⟨h1, h2⟩ | ⟨h1, h2⟩ <;> subst h1 <;> subst h2 <;> decide
      intro hm
      simp only [frames_sent, List.filterMap_cons, List.mem_cons] at hm
      rcases hm with hm | hm
      · exact hne hm.symm
      · exact i2 hm
    | extern_handler x y z => simp [tick_effect] at he
    | _ => exact ⟨by simpa [extern_calls] using i1, by simpa [frames_sent] using i2⟩

/-- A tick leaves the changer alone. -/
theorem tick_untouched (now : Nat) (s : Ibus) :
    changer_untouched s (ibus_tick now s) := by
  obtain ⟨a, i, j, w, ha, h⟩ := tick_state now s
  obtain ⟨q1, q2⟩ := tick_effects_quiet _ (all_tick_effect now s)
  refine ⟨?_, ?_, q1, q2⟩
  · rw [h]; rcases ha with ha | ha <;> subst ha <;> rfl
  · rw [h]; rcases ha with ha | ha <;> subst ha <;> rfl

/-- A trace of dispatch effects transmits nothing but `start_playing`. -/
theorem dispatch_effects_sent (l : List Effect) (h : ∀ e ∈ l, dispatch_effect e = true) :
    cdc_im_here ∉ frames_sent l := by
  induction l with
  | nil => simp [frames_sent]
  | cons e t ih =>
    have he := h e (by simp)
    have i2 := ih (fun x hx => h x (by simp [hx]))
    cases e with
    | ibus_send ifd data length gpio =>
      simp only [dispatch_effect, Bool.and_eq_true, decide_eq_true_eq] at he
      obtain ⟨h1, h2⟩ := he
      subst h1; subst h2
      intro hm
      simp only [frames_sent, List.filterMap_cons, List.mem_cons] at hm
      rcases hm with hm | hm
      · exact absurd hm (by decide)
      · exact i2 hm
    | _ => simpa [frames_sent] using i2

/-- The statements before the table scan leave the changer alone. -/
theorem head_untouched (msg : List Nat) (length : Nat) (s : Ibus) :
    changer_untouched s (handle_message_head msg length s) := by
  have hc : extern_calls (is_cdc_message msg length).2 = [] ∧
      frames_sent (is_cdc_message msg length).2 = [] := by
    unfold is_cdc_message
    split_ifs <;> exact ⟨rfl, rfl⟩
  have hm : (cdchanger_handle_cdcmode msg length s).1.cd_polled = s.cd_polled ∧
      (cdchanger_handle_cdcmode msg length s).1.cdc_info_tag = s.cdc_info_tag ∧
      extern_calls (cdchanger_handle_cdcmode msg length s).2 = [] ∧
      frames_sent (cdchanger_handle_cdcmode msg length s).2 = [] := by
    unfold cdchanger_handle_cdcmode
    split_ifs <;> exact ⟨rfl, rfl, rfl, rfl⟩
  unfold changer_untouched handle_message_head
  simp only [extern_calls_append, frames_sent_append, hc.1, hc.2]
  by_cases h1 : (is_cdc_message msg length).1 = true <;>
    by_cases h0 : msg.getD 0 0 = 0x68 <;>
    simp only [h1, h0, if_true, if_false, Bool.false_eq_true, hm.1, hm.2.1, hm.2.2.1,
      hm.2.2.2] <;>
    refine ⟨?_, ?_, ?_, ?_⟩ <;> first | rfl | trivial | simp [frames_sent]

/-- One rule that is not a sensor rule calls no external handler. -/
theorem fire_event_extern (r : EventRule) (msg : List Nat) (length : Nat) (s : Ibus)
    (h : is_sensor_rule r = false) : extern_calls (fire_event r msg length s).2 = [] := by
  have hk : extern_calls (if r.key ≠ 0 ∧ s.keyboard_blocked = false then
      [Effect.keyboard_generate r.key] else []) = [] := by
    split_ifs <;> rfl
  have hc : extern_calls (match r.command with
      | some c => [Effect.system c]
      | none => []) = [] := by
    cases r.command <;> rfl
  have hrot : extern_calls (ibus_handle_rotary msg length s).2 = [] := by
    unfold ibus_handle_rotary
    split_ifs
    · rfl
    · simp [extern_calls, List.filterMap_replicate]
    · simp [extern_calls, List.filterMap_replicate]
    · rfl
  have hl : extern_calls [Effect.ibus_log ("ibus event: " ++ r.desc)] = [] := rfl
  rw [fire_event_eq]
  unfold rule_effects
  simp only [extern_calls_append, hk, hc, hl, List.nil_append, List.append_nil]
  unfold is_sensor_rule at h
  cases hf : r.function with
  | none => rfl
  | some f =>
    rw [hf] at h
    cases f with
    | ibus_handle_rotary => exact hrot
    | cdchanger_handle_start => rfl
    | extern_fn x => simp at h

/-- The table scan, for any table none of whose sensor rules matches the
frame: no external handler is called. -/
theorem events_loop_extern (rs : List EventRule) (msg : List Nat) (length : Nat) (s : Ibus)
    (h : rs.any (fun r => is_sensor_rule r && rule_matches r msg length) = false) :
    extern_calls (events_loop rs msg length s).2 = [] := by
  induction rs with
  | nil => rfl
  | cons r rs ih =>
    simp only [List.any_cons, Bool.or_eq_false_iff] at h
    cases hm : rule_matches r msg length with
    | false =>
      rw [events_loop_skip r rs msg length s hm]
      exact ih h.2
    | true =>
      rw [events_loop_hit r rs msg length s hm]
      have hs : is_sensor_rule r = false := by
        have := h.1
        rw [hm, Bool.and_true] at this
        exact this
      exact fire_event_extern r msg length s hs

/-- Dispatch of a frame that matches no sensor rule leaves the changer
alone. -/
theorem handle_message_untouched (CTRL_BIT : Nat) (msg : List Nat) (length : Nat) (s : Ibus)
    (h : sensor_frame CTRL_BIT msg length = false) :
    changer_untouched s (ibus_handle_message CTRL_BIT msg length s) := by
  obtain ⟨hst, heff⟩ := events_loop_state (events CTRL_BIT) msg length
    (handle_message_head msg length s).1
  have hx := events_loop_extern (events CTRL_BIT) msg length
    (handle_message_head msg length s).1 h
  have hs := dispatch_effects_sent _ heff
  have hl : changer_untouched (handle_message_head msg length s).1
      (events_loop (events CTRL_BIT) msg length (handle_message_head msg length s).1) := by
    refine ⟨?_, ?_, hx, hs⟩
    · rcases hst with e | e <;> rw [e]
    · rcases hst with e | e <;> rw [e]
  exact changer_untouched_trans s _ _ _ _ (head_untouched msg length s) hl

theorem rule_matches_take (r : EventRule) (msg : List Nat) (n : Nat) :
    rule_matches r (msg.take n) n = rule_matches r msg n := by
  unfold rule_matches
  by_cases hle : r.match_length ≤ n
  · rw [List.take_take, Nat.min_eq_left hle]
  · simp only [hle, decide_False, Bool.false_and]

/-- Whether a frame matches a sensor rule depends on its `n` bytes only. -/
theorem sensor_frame_take (CTRL_BIT : Nat) (msg : List Nat) (n : Nat) :
    sensor_frame CTRL_BIT (msg.take n) n = sensor_frame CTRL_BIT msg n := by
  unfold sensor_frame
  simp only [rule_matches_take]

/-- One byte of a read leaves the changer alone, unless it completes a frame
that matches a sensor rule. -/
theorem read_byte_untouched (CTRL_BIT now c : Nat) (s : Ibus) (hlen : s.buf.length = 64)
    (hpos : s.bufPos ≤ 63)
    (hq : ∀ f ∈ frames_handed (ibus_read_byte CTRL_BIT now c s).2,
      sensor_frame CTRL_BIT f f.length = false) :
    changer_untouched s (ibus_read_byte CTRL_BIT now c s) := by
  obtain ⟨_, hp5, hl5⟩ := read_store_bounds now c s hlen hpos
  have hs5 : (ibus_read_store now c s).cd_polled = s.cd_polled ∧
      (ibus_read_store now c s).cdc_info_tag = s.cdc_info_tag := by
    rw [read_store_eq]; exact ⟨rfl, rfl⟩
  by_cases h : (ibus_read_store now c s).bufPos ≥ 4 ∧
      (ibus_read_store now c s).buf.getD LENGTH 0 + 2 = (ibus_read_store now c s).bufPos
  · have hrx := ibus_handle_message_rx CTRL_BIT (ibus_read_store now c s).buf
      (ibus_read_store now c s).bufPos (ibus_read_store now c s)
    have hf : frames_handed (ibus_read_byte CTRL_BIT now c s).2 =
        [(ibus_read_store now c s).buf.take (ibus_read_store now c s).bufPos] := by
      unfold ibus_read_byte
      simp only [h, and_self, if_true]
      exact hrx.2.2
    have hsf : sensor_frame CTRL_BIT (ibus_read_store now c s).buf
        (ibus_read_store now c s).bufPos = false := by
      have := hq ((ibus_read_store now c s).buf.take (ibus_read_store now c s).bufPos)
        (by rw [hf]; exact List.mem_singleton.2 rfl)
      rw [List.length_take, hl5, Nat.min_eq_left (by omega), sensor_frame_take] at this
      exact this
    obtain ⟨a1, a2, a3, a4⟩ := handle_message_untouched CTRL_BIT (ibus_read_store now c s).buf
      (ibus_read_store now c s).bufPos (ibus_read_store now c s) hsf
    unfold ibus_read_byte
    simp only [h, and_self, if_true]
    exact ⟨a1.trans hs5.1, a2.trans hs5.2, a3, a4⟩
  · unfold ibus_read_byte
    simp only [h, if_false]
    exact ⟨hs5.1, hs5.2, rfl, by simp [frames_sent]⟩

theorem ibus_read_untouched (CTRL_BIT now : Nat) (bytes : List Nat) (s : Ibus)
    (hlen : s.buf.length = 64) (hpos : s.bufPos ≤ 63)
    (hq : ∀ f ∈ frames_handed (ibus_read CTRL_BIT now bytes ReadEnd.would_block s).2,
      sensor_frame CTRL_BIT f f.length = false) :
    changer_untouched s (ibus_read CTRL_BIT now bytes ReadEnd.would_block s) := by
  induction bytes generalizing s with
  | nil => exact changer_untouched_refl s
  | cons c cs ih =>
    simp only [ibus_read, frames_handed_append, List.mem_append] at hq ⊢
    obtain ⟨b1, b2⟩ := read_byte_bounds CTRL_BIT now c s hlen hpos
    have h1 := read_byte_untouched CTRL_BIT now c s hlen hpos (fun f hf => hq f (Or.inl hf))
    have h2 := ih (ibus_read_byte CTRL_BIT now c s).1 b2 b1 (fun f hf => hq f (Or.inr hf))
    exact changer_untouched_trans s _ _ _ _ h1 h2

/-- A run of reads and ticks in which no handed frame matches a sensor rule
leaves the changer alone. -/
theorem bus_run_untouched (CTRL_BIT : Nat) (evs : List BusEvent) (s : Ibus)
    (hlen : s.buf.length = 64) (hpos : s.bufPos ≤ 63)
    (hq : ∀ f ∈ frames_handed (bus_run CTRL_BIT evs s).2,
      sensor_frame CTRL_BIT f f.length = false) :
    changer_untouched s (bus_run CTRL_BIT evs s) := by
  induction evs generalizing s with
  | nil => exact changer_untouched_refl s
  | cons e es ih =>
    simp only [bus_run, frames_handed_append, List.mem_append] at hq ⊢
    obtain ⟨b1, b2⟩ := bus_step_bounds CTRL_BIT e s hlen hpos
    have h1 : changer_untouched s (bus_step CTRL_BIT e s) := by
      cases e with
      | rx now bytes =>
        exact ibus_read_untouched CTRL_BIT now bytes s hlen hpos (fun f hf => hq f (Or.inl hf))
      | tick now => exact tick_untouched now s
    have h2 := ih (bus_step CTRL_BIT e s).1 b2 b1 (fun f hf => hq f (Or.inr hf))
    exact changer_untouched_trans s _ _ _ _ h1 h2

/-- A trace of dispatch effects transmits `start_playing` and nothing else. -/
theorem dispatch_effects_start (l : List Effect) (h : ∀ e ∈ l, dispatch_effect e = true) :
    ∀ f ∈ frames_sent l, f = start_playing := by
  induction l with
  | nil => intro f hf; simp [frames_sent] at hf
  | cons e t ih =>
    have he := h e (by simp)
    have i2 := ih (fun x hx => h x (by simp [hx]))
    cases e with
    | ibus_send ifd data length gpio =>
      simp only [dispatch_effect, Bool.and_eq_true, decide_eq_true_eq] at he
      obtain ⟨h1, h2⟩ := he
      subst h1; subst h2
      intro f hm
      simp only [frames_sent, List.filterMap_cons, List.mem_cons] at hm
      rcases hm with hm | hm
      · rw [hm]; rfl
      · exact i2 f hm
    | _ => simpa [frames_sent] using i2

/-- The statements before the table scan transmit nothing. -/
theorem head_sent (msg : List Nat) (length : Nat) (s : Ibus) :
    frames_sent (handle_message_head msg length s).2 = [] := by
  have hc : frames_sent (is_cdc_message msg length).2 = [] := by
    unfold is_cdc_message
    split_ifs <;> rfl
  have hm : frames_sent (cdchanger_handle_cdcmode msg length s).2 = [] := by
    unfold cdchanger_handle_cdcmode
    split_ifs <;> rfl
  unfold handle_message_head
  simp only [frames_sent_append, hc]
  by_cases h1 : (is_cdc_message msg length).1 = true <;>
    simp only [h1, if_true, if_false, Bool.false_eq_true, hm] <;> rfl

/-- Dispatch transmits `start_playing` and nothing else. -/
theorem handle_message_sent (CTRL_BIT : Nat) (msg : List Nat) (length : Nat) (s : Ibus) :
    ∀ f ∈ frames_sent (ibus_handle_message CTRL_BIT msg length s).2, f = start_playing := by
  obtain ⟨_, heff⟩ := events_loop_state (events CTRL_BIT) msg length
    (handle_message_head msg length s).1
  intro f hf
  unfold ibus_handle_message at hf
  simp only [frames_sent_append, head_sent, List.nil_append] at hf
  exact dispatch_effects_start _ heff f hf

/-- C22: every entry of `events` has no handler, `ibus_handle_rotary`,
`cdchanger_handle_start` or a handler defined outside `ibus.c`, and the
entries of the last kind are the five sensor rules; none refers to the poll,
info-request, stop, pause, disk-change or immobilizer handler. So, for a
frame that matches none of the five sensor rules, `ibus_handle_message`
leaves `cd_polled` and the timer tag `cdc_info_tag` as they are, calls no
handler from outside the file and transmits nothing but `start_playing`,
hence not the reply `cdc_im_here`; it calls neither of the two handlers
that register or cancel a timer. And in a run of reads and ticks from
`cd_polled = false` in which no handed frame matches a sensor rule,
`cd_polled` is false at the end, the timer tag is unchanged, no outside
handler is called and `cdc_im_here` is never transmitted. -/
theorem C22_dispatch_never_polls (CTRL_BIT : Nat) (s : Ibus) (msg : List Nat) (length : Nat)
    (evs : List BusEvent) (hlen : s.buf.length = 64) (hpos : s.bufPos ≤ 63) :
    (∀ r ∈ events CTRL_BIT, r.function = none ∨
      r.function = some Handler.ibus_handle_rotary ∨
      r.function = some Handler.cdchanger_handle_start ∨ is_sensor_rule r = true) ∧
    ((events CTRL_BIT).filter is_sensor_rule).map (fun r => r.desc) =
      ["coolant-temp", "fuel-consumption", "outside-temp", "battery-voltage",
       "re-battery-voltage"] ∧
    (sensor_frame CTRL_BIT msg length = false →
      (ibus_handle_message CTRL_BIT msg length s).1.cd_polled = s.cd_polled ∧
      (ibus_handle_message CTRL_BIT msg length s).1.cdc_info_tag = s.cdc_info_tag ∧
      extern_calls (ibus_handle_message CTRL_BIT msg length s).2 = [] ∧
      (∀ f ∈ frames_sent (ibus_handle_message CTRL_BIT msg length s).2,
        f = start_playing)) ∧
    ((∀ f ∈ frames_handed (bus_run CTRL_BIT evs s).2,
        sensor_frame CTRL_BIT f f.length = false) →
      s.cd_polled = false →
      (bus_run CTRL_BIT evs s).1.cd_polled = false ∧
      (bus_run CTRL_BIT evs s).1.cdc_info_tag = s.cdc_info_tag ∧
      extern_calls (bus_run CTRL_BIT evs s).2 = [] ∧
      cdc_im_here ∉ frames_sent (bus_run CTRL_BIT evs s).2) := by
  refine ⟨?_, rfl, ?_, ?_⟩
  · intro r _
    unfold is_sensor_rule
    cases r.function with
    | none => exact Or.inl rfl
    | some f =>
      cases f with
      | ibus_handle_rotary => exact Or.inr (Or.inl rfl)
      | cdchanger_handle_start => exact Or.inr (Or.inr (Or.inl rfl))
      | extern_fn x => exact Or.inr (Or.inr (Or.inr rfl))
  · intro h
    obtain ⟨a1, a2, a3, _⟩ := handle_message_untouched CTRL_BIT msg length s h
    exact ⟨a1, a2, a3, handle_message_sent CTRL_BIT msg length s⟩
  · intro hq h0
    obtain ⟨a1, a2, a3, a4⟩ := bus_run_untouched CTRL_BIT evs s hlen hpos hq
    exact ⟨a1.trans h0, a2, a3, a4⟩

/-- The poll `68 03 18 01 72` is received and handed to the dispatcher, a tick
follows: `cd_polled` is still false. -/
theorem C22_dispatch_never_polls_witness :
    frames_handed (bus_run 0 [BusEvent.rx 10 poll_frame, BusEvent.tick 50] ibus_initial).2 =
      [poll_frame] ∧
    (bus_run 0 [BusEvent.rx 10 poll_frame, BusEvent.tick 50] ibus_initial).1.cd_polled = false :=
  ⟨by decide,
    ((C22_dispatch_never_polls 0 ibus_initial poll_frame 5
      [BusEvent.rx 10 poll_frame, BusEvent.tick 50] (by decide) (by decide)).2.2.2
      (by decide) (by decide)).1⟩

/-! ## The transmit window in a run -/

theorem queue_services_append (a b : List Effect) :
    queue_services (a ++ b) = queue_services a ++ queue_services b := by
  simp [queue_services, List.filterMap_append]

/-- A trace of dispatch effects does not call `ibus_service_queue`. -/
theorem dispatch_effects_queue (l : List Effect) (h : ∀ e ∈ l, dispatch_effect e = true) :
    queue_services l = [] := by
  induction l with
  | nil => rfl
  | cons e t ih =>
    have he := h e (by simp)
    have i2 := ih (fun x hx => h x (by simp [hx]))
    cases e with
    | ibus_service_queue a b c => simp [dispatch_effect] at he
    | _ => simpa [queue_services] using i2

/-- The statements before the table scan leave the window flag alone and do
not call `ibus_service_queue`. -/
theorem head_window (msg : List Nat) (length : Nat) (s : Ibus) :
    (handle_message_head msg length s).1.send_window_open = s.send_window_open ∧
    queue_services (handle_message_head msg length s).2 = [] := by
  have hc : queue_services (is_cdc_message msg length).2 = [] := by
    unfold is_cdc_message
    split_ifs <;> rfl
  have hm : (cdchanger_handle_cdcmode msg length s).1.send_window_open = s.send_window_open ∧
      queue_services (cdchanger_handle_cdcmode msg length s).2 = [] := by
    unfold cdchanger_handle_cdcmode
    split_ifs <;> exact ⟨rfl, rfl⟩
  unfold handle_message_head
  simp only [queue_services_append, hc]
  by_cases h1 : (is_cdc_message msg length).1 = true <;>
    by_cases h0 : msg.getD 0 0 = 0x68 <;>
    simp only [h1, h0, if_true, if_false, Bool.false_eq_true, hm.1, hm.2] <;>
    refine ⟨?_, ?_⟩ <;> first | rfl | trivial

/-- Dispatch leaves the window flag alone and does not call
`ibus_service_queue`. -/
theorem handle_message_window (CTRL_BIT : Nat) (msg : List Nat) (length : Nat) (s : Ibus) :
    (ibus_handle_message CTRL_BIT msg length s).1.send_window_open = s.send_window_open ∧
    queue_services (ibus_handle_message CTRL_BIT msg length s).2 = [] := by
  obtain ⟨h1, h2⟩ := head_window msg length s
  obtain ⟨hst, heff⟩ := events_loop_state (events CTRL_BIT) msg length
    (handle_message_head msg length s).1
  have hq := dispatch_effects_queue _ heff
  unfold ibus_handle_message
  simp only [queue_services_append, h2, hq]
  rcases hst with e | e <;> rw [e] <;> exact ⟨h1, rfl⟩

/-- Every received byte closes the window, and a byte never calls
`ibus_service_queue`. -/
theorem read_byte_window (CTRL_BIT now c : Nat) (s : Ibus) :
    (ibus_read_byte CTRL_BIT now c s).1.send_window_open = false ∧
    queue_services (ibus_read_byte CTRL_BIT now c s).2 = [] := by
  have hs5 : (ibus_read_store now c s).send_window_open = false := by
    rw [read_store_eq]
  by_cases h : (ibus_read_store now c s).bufPos ≥ 4 ∧
      (ibus_read_store now c s).buf.getD LENGTH 0 + 2 = (ibus_read_store now c s).bufPos
  · obtain ⟨a1, a2⟩ := handle_message_window CTRL_BIT (ibus_read_store now c s).buf
      (ibus_read_store now c s).bufPos (ibus_read_store now c s)
    unfold ibus_read_byte
    simp only [h, and_self, if_true]
    exact ⟨a1.trans hs5, a2⟩
  · unfold ibus_read_byte
    simp only [h, if_false]
    exact ⟨hs5, rfl⟩

/-- A call of `ibus_read` closes the window if it receives a byte and
leaves the flag alone otherwise; it never calls `ibus_service_queue`. -/
theorem ibus_read_window (CTRL_BIT now : Nat) (bytes : List Nat) (s : Ibus) :
    (ibus_read CTRL_BIT now bytes ReadEnd.would_block s).1.send_window_open =
      (if bytes = [] then s.send_window_open else false) ∧
    queue_services (ibus_read CTRL_BIT now bytes ReadEnd.would_block s).2 = [] := by
  induction bytes generalizing s with
  | nil => exact ⟨rfl, rfl⟩
  | cons c cs ih =>
    obtain ⟨a1, a2⟩ := read_byte_window CTRL_BIT now c s
    obtain ⟨b1, b2⟩ := ih (ibus_read_byte CTRL_BIT now c s).1
    have hfin : (ibus_read CTRL_BIT now cs ReadEnd.would_block
        (ibus_read_byte CTRL_BIT now c s).1).1.send_window_open = false := by
      rw [b1, a1]
      split_ifs <;> rfl
    simp only [ibus_read, queue_services_append, a2, b2, hfin]
    exact ⟨by simp, rfl⟩

/-- What a tick hands to `ibus_service_queue`: with line monitoring on, the
value the window flag has on entry, before the tick updates it; without
line monitoring the queue is not serviced. -/
theorem tick_queue (now : Nat) (s : Ibus) :
    queue_services (ibus_tick now s).2 =
      (if s.gpio_number > 0 then [s.send_window_open] else []) := by
  have ha := announce_cdc_window s
  have e1 : ∀ p : Prop, ∀ [Decidable p], queue_services
      (if p then [Effect.ibus_log "idle timeout", Effect.power_off] else []) = [] := by
    intro p _; split_ifs <;> rfl
  have e2 : ∀ (i : Nat), queue_services (if s.hw_version ≥ 4 then
      (if i < 2 then [Effect.gpio_write GPIO_LED_CTL 1] else [Effect.gpio_write GPIO_LED_CTL 0])
      else []) = [] := by
    intro i; split_ifs <;> rfl
  have e4 : ∀ (p : Prop) [Decidable p] (a : Ibus), queue_services (if p then
      (if a.have_time = false then ibus_request_time a else []) ++
      (if a.have_date = false then ibus_request_date a else []) else []) = [] := by
    intro p _ a
    split_ifs <;> rfl
  have e5 : ∀ (a : Ibus), queue_services
      [Effect.ibus_service_queue a.ifd a.send_window_open a.gpio_number] =
        [a.send_window_open] := fun _ => rfl
  have ea : queue_services (announce_cdc s).2 = [] := by
    unfold announce_cdc
    split_ifs <;> rfl
  have ef : queue_services (Effect.fflush_log :: (announce_cdc s).2) = [] := by
    simpa [queue_services] using ea
  have ef0 : queue_services [Effect.fflush_log] = [] := rfl
  have en : queue_services ([] : List Effect) = [] := rfl
  unfold ibus_tick
  by_cases h600 : s.tick_j + 1 ≥ 600
  · by_cases hmk : s.mk3_announce = true
    · by_cases hg : s.gpio_number > 0
      · have hg2 : (announce_cdc s).1.gpio_number > 0 := by rw [ha.2.2]; exact hg
        simp only [if_pos h600, if_pos hmk, if_pos hg2, if_pos hg, queue_services_append, e1, e2,
          e4, e5, ef, ha.1, List.nil_append]
        rfl
      · have hg2 : ¬ (announce_cdc s).1.gpio_number > 0 := by rw [ha.2.2]; exact hg
        simp only [if_pos h600, if_pos hmk, if_neg hg2, if_neg hg, queue_services_append, e1, e2,
          e4, ef, List.nil_append]
    · by_cases hg : s.gpio_number > 0
      · simp only [if_pos h600, if_neg hmk, if_pos hg, queue_services_append, e1, e2, e4, e5,
          ef0, List.nil_append]
      · simp only [if_pos h600, if_neg hmk, if_neg hg, queue_services_append, e1, e2, e4,
          ef0, List.nil_append]
  · by_cases hg : s.gpio_number > 0
    · simp only [if_neg h600, if_pos hg, queue_services_append, e1, e2, e4, e5, en,
        List.nil_append]
    · simp only [if_neg h600, if_neg hg, queue_services_append, e1, e2, e4, en,
        List.nil_append]

theorem quiet_ticks_from_tick (n : Nat) (pre : List BusEvent) (now : Nat) :
    quiet_ticks_from n (pre ++ [BusEvent.tick now]) = quiet_ticks_from n pre + 1 := by
  induction pre generalizing n with
  | nil => rfl
  | cons e es ih =>
    cases e with
    | tick t => exact ih (n + 1)
    | rx t bytes =>
      cases bytes with
      | nil => exact ih n
      | cons c cs => exact ih 0

/-- In a run, the window flag is set only when at least one tick has passed
since the last received byte and no frame is in progress. -/
theorem window_open_run (CTRL_BIT : Nat) (evs : List BusEvent) (s : Ibus) (n : Nat)
    (h : s.send_window_open = true → 1 ≤ n ∧ s.bufPos = 0) :
    (bus_run CTRL_BIT evs s).1.send_window_open = true →
      1 ≤ quiet_ticks_from n evs ∧ (bus_run CTRL_BIT evs s).1.bufPos = 0 := by
  induction evs generalizing s n with
  | nil => exact h
  | cons e es ih =>
    cases e with
    | tick now =>
      have hw := tick_window now s
      have hp := (tick_rx now s).1
      have h2 : (ibus_tick now s).1.send_window_open = true →
          1 ≤ n + 1 ∧ (ibus_tick now s).1.bufPos = 0 := by
        intro ht
        refine ⟨by omega, ?_⟩
        rw [hp]
        rw [hw] at ht
        by_cases hc : s.gpio_number > 0 ∧ s.send_window_open = false ∧ s.bufPos = 0
        · exact hc.2.2
        · rw [if_neg hc] at ht
          exact (h ht).2
      exact ih (ibus_tick now s).1 (n + 1) h2
    | rx now bytes =>
      cases bytes with
      | nil => exact ih s n h
      | cons c cs =>
        have hf := (ibus_read_window CTRL_BIT now (c :: cs) s).1
        have h2 : (ibus_read CTRL_BIT now (c :: cs) ReadEnd.would_block s).1.send_window_open
            = true → 1 ≤ 0 ∧
            (ibus_read CTRL_BIT now (c :: cs) ReadEnd.would_block s).1.bufPos = 0 := by
          intro ht
          rw [hf] at ht
          simp at ht
        exact ih _ 0 h2

/-- C7 (amended): in every run of reads and ticks that starts with the
window flag false, a read never sets the flag (it clears it when a byte
arrives) and never services the queue; a tick changes the flag from false
to true exactly when line monitoring is on and no frame is in progress
(`bufPos = 0`), with no count of ticks; the tick hands `ibus_service_queue`
the value the flag had on entry, before that update; so whenever
`ibus_service_queue` is handed TRUE, at least 2 consecutive ticks have
occurred since the last received byte with no byte in between (this tick
and an earlier one), and no frame is in progress. -/
theorem C7_transmit_window (CTRL_BIT : Nat) (s : Ibus) (pre : List BusEvent) (now : Nat)
    (bytes : List Nat) (hw : s.send_window_open = false) :
    ((ibus_read CTRL_BIT now bytes ReadEnd.would_block
        (bus_run CTRL_BIT pre s).1).1.send_window_open =
        (if bytes = [] then (bus_run CTRL_BIT pre s).1.send_window_open else false) ∧
      queue_services (ibus_read CTRL_BIT now bytes ReadEnd.would_block
        (bus_run CTRL_BIT pre s).1).2 = []) ∧
    ((bus_run CTRL_BIT pre s).1.send_window_open = false →
      ((ibus_tick now (bus_run CTRL_BIT pre s).1).1.send_window_open = true ↔
        (bus_run CTRL_BIT pre s).1.gpio_number > 0 ∧ (bus_run CTRL_BIT pre s).1.bufPos = 0)) ∧
    queue_services (ibus_tick now (bus_run CTRL_BIT pre s).1).2 =
      (if (bus_run CTRL_BIT pre s).1.gpio_number > 0
        then [(bus_run CTRL_BIT pre s).1.send_window_open] else []) ∧
    (true ∈ queue_services (ibus_tick now (bus_run CTRL_BIT pre s).1).2 →
      2 ≤ quiet_ticks (pre ++ [BusEvent.tick now]) ∧
      (bus_run CTRL_BIT pre s).1.bufPos = 0 ∧
      (bus_run CTRL_BIT pre s).1.gpio_number > 0) := by
  refine ⟨ibus_read_window CTRL_BIT now bytes _, ?_, tick_queue now _, ?_⟩
  · intro hf
    rw [tick_window]
    constructor
    · intro ht
      by_cases hc : (bus_run CTRL_BIT pre s).1.gpio_number > 0 ∧
          (bus_run CTRL_BIT pre s).1.send_window_open = false ∧
          (bus_run CTRL_BIT pre s).1.bufPos = 0
      · exact ⟨hc.1, hc.2.2⟩
      · rw [if_neg hc, hf] at ht
        exact Bool.noConfusion ht
    · intro hc
      rw [if_pos ⟨hc.1, hf, hc.2⟩]
  · intro hq
    rw [tick_queue] at hq
    by_cases hg : (bus_run CTRL_BIT pre s).1.gpio_number > 0
    · rw [if_pos hg, List.mem_singleton] at hq
      have hinv := window_open_run CTRL_BIT pre s 0
        (fun h => by rw [hw] at h; exact Bool.noConfusion h) hq.symm
      unfold quiet_ticks
      rw [quiet_ticks_from_tick]
      exact ⟨by omega, hinv.2, hg⟩
    · rw [if_neg hg] at hq
      simp at hq

/-- Scenario B is received, last byte at 70 ms, and ticks follow at 71 ms and
121 ms: the second tick hands `ibus_service_queue` TRUE, and it is the
second tick since the last byte. -/
theorem C7_transmit_window_witness :
    true ∈ queue_services
      (ibus_tick 121 (bus_run 0 scenario_B_then_tick ibus_monitoring).1).2 ∧
    2 ≤ quiet_ticks (scenario_B_then_tick ++ [BusEvent.tick 121]) :=
  ⟨by decide,
    ((C7_transmit_window 0 ibus_monitoring scenario_B_then_tick 121 [] rfl).2.2.2
      (by decide)).1⟩

end Pibus
